import Mathlib

/-!
# Simple C compiler: type model, semantic checker, code generator

A shallow embedding of the semantic checker (`phase4/checker.cpp`), of the type
model it rests on (`phase3/Type.h`, `phase3/Type.cpp`) and of the code generator
with its register allocator (`phase6/generator.cpp`).

Conventions of the embedding.

* A C++ function that reports diagnostics through `report` returns, next to its
  result, the list of diagnostics it reported, in order.
* File-scoped mutable variables (`fields`, `offset`, the register bank, the
  output stream) are passed explicitly.
* Pointers to syntax-tree nodes are node identifiers; the null pointer is
  `none`.
-/

namespace SimpleC

/-! ## Type model (`phase3/Type.h`, `phase3/Type.cpp`) -/

/-- The `enum kind` of `Type.h`. -/
inductive Kind where
  | ARRAY
  | CALLBACK
  | ERROR
  | FUNCTION
  | SCALAR
deriving DecidableEq, Repr

/-- The class `Type` of `Type.h`: kind, specifier, indirection, array length and
the parameter list, `none` for the null pointer. -/
inductive CType where
  | mk (kind : Kind) (specifier : String) (indirection : Nat) (length : Nat)
      (parameters : Option (List CType))

/-- The typedef `Parameters` of `Type.h`: `std::vector<Type>`. -/
abbrev Parameters := List CType

namespace CType

/-- Field `_kind`. -/
def kind : CType → Kind
  | mk k _ _ _ _ => k

/-- Accessor `specifier()`. -/
def specifier : CType → String
  | mk _ s _ _ _ => s

/-- Accessor `indirection()`. -/
def indirection : CType → Nat
  | mk _ _ i _ _ => i

/-- Field `_length`. -/
def length : CType → Nat
  | mk _ _ _ l _ => l

/-- Field `_parameters`; `none` is the null pointer. -/
def _parameters : CType → Option Parameters
  | mk _ _ _ _ p => p

/-- Accessor `parameters()` of `Type.h`: `assert(_kind == FUNCTION)` and then the
field. The outer `none` is the failed assertion, `some none` the null pointer. -/
def parameters (t : CType) : Option (Option Parameters) :=
  if t.kind = Kind.FUNCTION then some t._parameters else none

/-- Predicate `isArray()`. -/
def isArray (t : CType) : Bool := t.kind == Kind.ARRAY

/-- Predicate `isCallback()`. -/
def isCallback (t : CType) : Bool := t.kind == Kind.CALLBACK

/-- Predicate `isError()`. -/
def isError (t : CType) : Bool := t.kind == Kind.ERROR

/-- Predicate `isFunction()`. -/
def isFunction (t : CType) : Bool := t.kind == Kind.FUNCTION

/-- Predicate `isScalar()`. -/
def isScalar (t : CType) : Bool := t.kind == Kind.SCALAR

/-- Member `Type::isStruct` of `Type.cpp`: any non-error type whose specifier is
neither `char` nor `int`, whatever its indirection. -/
def isStruct (t : CType) : Bool :=
  t.kind != Kind.ERROR && t.specifier != "char" && t.specifier != "int"

end CType

/-- The default constructor `Type::Type()`: the error type. -/
def error : CType := CType.mk Kind.ERROR "error" 0 0 none

/-- Modelled from the spec: the scalar constructor `Scalar(specifier, indirection)` of
the phase-4 `Type.h`, which is not among the sources. It builds the Scalar
variant with the given specifier and indirection, as the three-argument
constructor of `Type.cpp` does (length 0, no parameter list). Where the C++
omits the indirection, as in `Scalar("int")`, it is 0: that call builds the
checker's integer type. -/
def Scalar (specifier : String) (indirection : Nat) : CType :=
  CType.mk Kind.SCALAR specifier indirection 0 none

/-- Modelled from the spec: the constructor `Array(specifier, indirection, length)`
of the phase-4 `Type.h`. -/
def Array (specifier : String) (indirection : Nat) (length : Nat) : CType :=
  CType.mk Kind.ARRAY specifier indirection length none

/-- Modelled from the spec: the constructor `Function(specifier, indirection, parameters)`
of the phase-4 `Type.h`; the parameter list may be unknown. -/
def Function (specifier : String) (indirection : Nat)
    (parameters : Option Parameters) : CType :=
  CType.mk Kind.FUNCTION specifier indirection 0 parameters

/-- Modelled from the spec: the constructor `Callback(specifier, indirection)` of the
phase-4 `Type.h`. -/
def Callback (specifier : String) (indirection : Nat)
    (parameters : Option Parameters) : CType :=
  CType.mk Kind.CALLBACK specifier indirection 0 parameters

/-- The checker's `static Scalar integer("int")`. -/
def integer : CType := Scalar "int" 0

namespace CType

/-- Modelled from the spec: `promote` of the phase-4 `Type.h`. "An Array decays to a
pointer (indirection+1) of its element specifier; all other types promote to
themselves." -/
def promote (t : CType) : CType :=
  if t.isArray then Scalar t.specifier (t.indirection + 1) else t

/-- Modelled from the spec: `isValue` of the phase-4 `Type.h`. "True for any
non-function, non-array scalar-like type usable as an operand, i.e. anything
that has been promoted to a concrete scalar or pointer": the Scalar variant. -/
def isValue (t : CType) : Bool := t.isScalar

/-- Modelled from the spec: `isInteger` of the phase-4 `Type.h`: a scalar of a
primitive specifier (`char` or `int`) with no indirection. -/
def isInteger (t : CType) : Bool :=
  t.isScalar && t.indirection == 0 && (t.specifier == "int" || t.specifier == "char")

/-- Modelled from the spec: `isPointer` of the phase-4 `Type.h`: a scalar with at
least one level of indirection. -/
def isPointer (t : CType) : Bool :=
  t.isScalar && decide (0 < t.indirection)

/-- Modelled from the spec: `isCompatibleWith` of the phase-4 `Type.h`. "True when,
after promotion of both sides, specifier and indirection match." -/
def isCompatibleWith (t other : CType) : Bool :=
  t.promote.specifier == other.promote.specifier &&
    t.promote.indirection == other.promote.indirection

end CType

/-! ## Symbols, scopes and diagnostics -/

/-- The class `Symbol`: a name bound to a type (`phase3/MySymbol.h`). -/
structure Symbol where
  name : String
  type : CType

/-- The typedef `Symbols`: the symbol list of a scope, in insertion order. -/
abbrev Symbols := List Symbol

/-- The class `Scope`: a symbol list and the enclosing scope, `none` for the
outermost one (`phase3/MyScope.h`). -/
inductive Scope where
  | mk (symbols : Symbols) (enclosing : Option Scope)

/-- Accessor `symbols()`. -/
def Scope.symbols : Scope → Symbols
  | Scope.mk s _ => s

/-- Accessor `enclosing()`. -/
def Scope.enclosing : Scope → Option Scope
  | Scope.mk _ e => e

/-- The checker's `static map<string, Scope *> fields`: structure tag to field
scope. A key occurs at most once; the first binding of a key is the one found. -/
abbrev Fields := List (String × Scope)

/-- The call `fields.find(name)`: `none` stands for `fields.end()`. -/
def Fields.find (fields : Fields) (name : String) : Option Scope :=
  match fields with
  | [] => none
  | (k, s) :: rest => if k == name then some s else Fields.find rest name

/-- The call `fields.count(name)`: 0 or 1. -/
def Fields.count (fields : Fields) (name : String) : Nat :=
  match Fields.find fields name with
  | none => 0
  | some _ => 1

/-- One call `report(format, arg)`: the format string and the text substituted for
its `%s`. -/
structure Diagnostic where
  format : String
  arg : String
deriving DecidableEq, Repr

/-- The call `report(str, arg)`, with `arg` defaulting to the empty string. -/
def report (format : String) (arg : String) : List Diagnostic := [⟨format, arg⟩]

def invalidReturn : String := "invalid return type"
def invalidTest : String := "invalid type for test expression"
def requiredLval : String := "lvalue required in expression"
def invalidBinary : String := "invalid operands to binary %s"
def invalidUnary : String := "invalid operand to unary %s"
def invalidCast : String := "invalid operand in cast expression"
def callFun : String := "called object is not a function"
def invalidArgs : String := "invalid arguments to called function"
def incompleteType : String := "using pointer to incomplete type"

/-! ## Semantic checker (`phase4/checker.cpp`)

Every check function returns its result type together with the diagnostics it
reported. The branches follow the source in order. -/

/-- The macro `isStructure(t)`: a structure by value. -/
def isStructure (t : CType) : Bool := t.isStruct && t.indirection == 0

/-- The function `isCompletePointer`: false only for a pointer of indirection exactly 1
to a structure tag without a registered field table. -/
def isCompletePointer (fields : Fields) (t : CType) : Bool :=
  !(t.isStruct && t.indirection == 1 && Fields.count fields t.specifier == 0)

def checkLogicalOr (left right : CType) : CType × List Diagnostic :=
  if left.isError || right.isError then (error, [])
  else if left.isValue && right.isValue then (integer, [])
  else (error, report invalidBinary "||")

def checkLogicalAnd (left right : CType) : CType × List Diagnostic :=
  if left.isError || right.isError then (error, [])
  else if left.isValue && right.isValue then (integer, [])
  else (error, report invalidBinary "&&")

def checkEquality (left right : CType) : CType × List Diagnostic :=
  if left.isError || right.isError then (error, [])
  else if left.isCompatibleWith right then (integer, [])
  else (error, report invalidBinary "==")

def checkInequality (left right : CType) : CType × List Diagnostic :=
  if left.isError || right.isError then (error, [])
  else if left.isCompatibleWith right then (integer, [])
  else (error, report invalidBinary "!=")

def checkLessThan (left right : CType) : CType × List Diagnostic :=
  if left.isError || right.isError then (error, [])
  else if left.isCompatibleWith right then (integer, [])
  else (error, report invalidBinary "<")

def checkGreaterThan (left right : CType) : CType × List Diagnostic :=
  if left.isError || right.isError then (error, [])
  else if left.isCompatibleWith right then (integer, [])
  else (error, report invalidBinary ">")

def checkLessOrEqual (left right : CType) : CType × List Diagnostic :=
  if left.isError || right.isError then (error, [])
  else if left.isCompatibleWith right then (integer, [])
  else (error, report invalidBinary "<=")

def checkGreaterOrEqual (left right : CType) : CType × List Diagnostic :=
  if left.isError || right.isError then (error, [])
  else if left.isCompatibleWith right then (integer, [])
  else (error, report invalidBinary ">=")

def checkAddition (fields : Fields) (left right : CType) : CType × List Diagnostic :=
  if left.isError || right.isError then (error, [])
  else
    let t1 := left.promote
    let t2 := right.promote
    if t1.isInteger && t2.isInteger then (integer, [])
    else if t1.isPointer && t2.isInteger then
      if isCompletePointer fields t1 then (t1, [])
      else (error, report incompleteType "")
    else if t1.isValue && t2.isPointer then
      if isCompletePointer fields t2 then (t2, [])
      else (error, report incompleteType "")
    else (error, report invalidBinary "+")

def checkSubtraction (fields : Fields) (left right : CType) : CType × List Diagnostic :=
  if left.isError || right.isError then (error, [])
  else
    let t1 := left.promote
    let t2 := right.promote
    if t1.isInteger && t2.isInteger then (integer, [])
    else if t1.isPointer && t2.isInteger then
      if !isCompletePointer fields t1 then (error, report incompleteType "")
      else (t1, [])
    else if (t1.isPointer && t2.isPointer) && (t1.specifier == t2.specifier) then
      if isCompletePointer fields t1 && isCompletePointer fields t2 then
        if t1.isCompatibleWith t2 then (integer, [])
        else (error, report invalidBinary "-")
      else (error, report incompleteType "")
    else (error, report invalidBinary "-")

def checkMultiply (left right : CType) : CType × List Diagnostic :=
  if left.isError || right.isError then (error, [])
  else
    let t1 := left.promote
    let t2 := right.promote
    if t1.isInteger && t2.isInteger then (integer, [])
    else (error, report invalidBinary "*")

def checkDivision (left right : CType) : CType × List Diagnostic :=
  if left.isError || right.isError then (error, [])
  else
    let t1 := left.promote
    let t2 := right.promote
    if t1.isInteger && t2.isInteger then (integer, [])
    else (error, report invalidBinary "*")

def checkPercent (left right : CType) : CType × List Diagnostic :=
  if left.isError || right.isError then (error, [])
  else
    let t1 := left.promote
    let t2 := right.promote
    if t1.isInteger && t2.isInteger then (integer, [])
    else (error, report invalidBinary "*")

def checkNot (expr : CType) : CType × List Diagnostic :=
  if expr.isError then (error, [])
  else if !expr.isValue then (error, report invalidUnary "!")
  else (Scalar "int" 0, [])

def checkNeg (expr : CType) : CType × List Diagnostic :=
  if expr.isError then (error, [])
  else
    let t := expr.promote
    if t.isInteger then (Scalar "int" 0, [])
    else (error, report invalidUnary "-")

/-- The function `checkDeref`; its result is built by `Scalar(t.specifier())`, the
indirection argument omitted. -/
def checkDeref (fields : Fields) (expr : CType) : CType × List Diagnostic :=
  if expr.isError then (error, [])
  else
    let t := expr.promote
    if !t.isPointer then (error, report invalidUnary "*")
    else if isCompletePointer fields t then (Scalar t.specifier 0, [])
    else (error, report incompleteType "")

def checkAddress (expr : CType) (lvalue : Bool) : CType × List Diagnostic :=
  if expr.isError then (error, [])
  else if !lvalue then (error, report requiredLval "")
  else if expr.isCallback then (error, report invalidUnary "&")
  else (Scalar expr.specifier (expr.indirection + 1), [])

def checkSizeof (fields : Fields) (expr : CType) : CType × List Diagnostic :=
  if expr.isError then (error, [])
  else if expr.isFunction then (error, report invalidUnary "sizeof")
  else if !isCompletePointer fields expr then (error, report incompleteType "")
  else (integer, [])

def checkTypeCast (fields : Fields) (left right : CType) : CType × List Diagnostic :=
  if left.isError || right.isError then (error, [])
  else
    let t1 := left.promote
    let t2 := right.promote
    if t1.isInteger && t2.isInteger then (t1, [])
    else if t1.isPointer && t2.isPointer then
      if isCompletePointer fields t1 && isCompletePointer fields t2 then (t1, [])
      else (error, report invalidCast "")
    else (error, report invalidCast "")

/-- The function `checkArray`; only the left operand is promoted, and the result has
the unsigned indirection `t1.indirection() - 1` of a pointer, which is at least 1. -/
def checkArray (fields : Fields) (left right : CType) : CType × List Diagnostic :=
  if left.isError || right.isError then (error, [])
  else
    let t1 := left.promote
    if t1.isPointer then
      if right.isInteger then
        if t1.isStruct && Fields.count fields t1.specifier == 0 then
          (error, report incompleteType "")
        else (Scalar t1.specifier (t1.indirection - 1), [])
      else (error, report invalidBinary "[]")
    else (error, report invalidBinary "[]")

/-- The loop of the member-access checks over the field list: the type of the first
symbol called `id`, if there is one. -/
def findField (typeFields : Symbols) (id : String) : Option CType :=
  match typeFields with
  | [] => none
  | s :: rest => if s.name == id then some s.type else findField rest id

def checkDirectStrcutField (fields : Fields) (left : CType) (id : String) :
    CType × List Diagnostic :=
  if left.isError then (error, [])
  else if left.isStruct then
    match Fields.find fields left.specifier with
    | some scope =>
      match findField scope.symbols id with
      | some t => (t, [])
      | none => (error, report invalidBinary ".")
    | none => (error, report invalidBinary ".")
  else (error, report invalidBinary ".")

def checkIndirectStructure (fields : Fields) (left : CType) (id : String) :
    CType × List Diagnostic :=
  if left.isError then (error, [])
  else
    let t1 := left.promote
    if t1.isPointer && t1.isStruct then
      if isCompletePointer fields t1 then
        match Fields.find fields t1.specifier with
        | some scope =>
          match findField scope.symbols id with
          | some t => (t, [])
          | none => (error, report invalidBinary "->")
        | none => (error, report invalidBinary "->")
      else (error, report incompleteType "")
    else (error, report invalidBinary "->")

/-- The second loop of `checkCall`: every formal is compatible with the argument at
the same index; it runs only when both lists have the same length. -/
def formalsCompatible (formals args : Parameters) : Bool :=
  match formals, args with
  | f :: fs, a :: as => f.isCompatibleWith a && formalsCompatible fs as
  | _, _ => true

/-- The function `checkCall`. Its first loop calls `t.promote()` on a copy of each
argument and drops the result, so `isValue` is asked of the argument as passed.
The result is `none` when the assertion of `left.parameters()` fails. -/
def checkCall (left : CType) (args : Parameters) : Option (CType × List Diagnostic) :=
  if left.isError then some (error, [])
  else if !(left.isFunction || left.isCallback) then some (error, report callFun "")
  else if args.any (fun t => !t.isValue) then some (error, report invalidArgs "")
  else
    match left.parameters with
    | none => none
    | some (some formals) =>
      if formals.length != args.length then some (error, report invalidArgs "")
      else if !formalsCompatible formals args then some (error, report invalidArgs "")
      else some (Scalar left.specifier left.indirection, [])
    | some none => some (Scalar left.specifier left.indirection, [])

def checkReturn (expr type : CType) : CType × List Diagnostic :=
  if expr.isError || type.isError then (error, [])
  else if expr.isCompatibleWith type then (expr, [])
  else (error, report invalidReturn "")

def checkConditional (expr : CType) : CType × List Diagnostic :=
  if expr.isError then (error, [])
  else if expr.isValue then (expr, [])
  else (error, report invalidTest "")

def checkAssignment (left right : CType) (lvalue : Bool) : CType × List Diagnostic :=
  if left.isError || right.isError then (error, [])
  else if lvalue then
    if left.isCompatibleWith right then (left, [])
    else (error, report invalidBinary "=")
  else (error, report requiredLval "")

/-- What one call of a check function must satisfy: at most one diagnostic, and the
Error type as result exactly when a diagnostic was reported. -/
def OneDiagnosticIffError (r : CType × List Diagnostic) : Prop :=
  r.2.length ≤ 1 ∧ (r.1.isError = true ↔ r.2 ≠ [])

/-- No registered field table holds a field of the Error type. -/
def NoErrorField (fields : Fields) : Prop :=
  ∀ tag scope, Fields.find fields tag = some scope →
    ∀ s ∈ scope.symbols, s.type.isError = false

/-- A field table for `struct node`, with an integer field `data` and a field `next`
that points to the structure itself. -/
def nodeFields : Fields :=
  [("node", Scope.mk [⟨"data", Scalar "int" 0⟩, ⟨"next", Scalar "node" 1⟩] none)]

/-! ## Register allocator (`phase6/generator.cpp`)

The objects of the syntax tree are identified by a node identifier, which stands
for the address of the object. The members `_register` and `_offset` of a node
and the member `_node` of a register, which the generator mutates, live in the
generator state, keyed by node identifier and by register. -/

/-- The address of an `Expression` object. -/
abbrev NodeId := Nat

/-- The three `Register` objects of the generator: `eax`, `ecx`, `edx`. -/
inductive Register where
  | eax
  | ecx
  | edx
deriving DecidableEq, Repr

/-- The bank `registers = {eax, ecx, edx}`. -/
def registers : List Register := [Register.eax, Register.ecx, Register.edx]

/-- The first constructor argument of a register: its 32-bit name. The stream
operator on a `Register *`, declared in the absent `Register.h`, is taken to write
this name. -/
def Register.longName : Register → String
  | Register.eax => "%eax"
  | Register.ecx => "%ecx"
  | Register.edx => "%edx"

/-- Member `byte()`: the second constructor argument, the 8-bit name. -/
def Register.byte : Register → String
  | Register.eax => "%al"
  | Register.ecx => "%cl"
  | Register.edx => "%dl"

/-- Modelled from the spec: member `name(size)` of the class `Register`, whose header
`Register.h` is not among the sources. It gives the name "appropriate for the
size": the 8-bit name for size 1 and the 32-bit name otherwise. -/
def Register.name (r : Register) (size : Nat) : String :=
  if size = 1 then r.byte else r.longName

/-- The expression nodes of the syntax tree that the generator lowers: the classes
of `Tree.h` for which `generator.cpp` defines members. Every node carries its
identifier; an identifier node carries the name and the `_offset` of its
symbol, a field node the offset of the field in its structure. -/
inductive Expression where
  | Identifier (id : NodeId) (name : String) (symbolOffset : Int)
  | Number (id : NodeId) (value : Nat)
  | String (id : NodeId) (value : String)
  | Call (id : NodeId) (expr : Expression) (args : List Expression)
  | Field (id : NodeId) (expr : Expression) (fieldOffset : Int)
  | Not (id : NodeId) (expr : Expression)
  | Negate (id : NodeId) (expr : Expression)
  | Dereference (id : NodeId) (expr : Expression)
  | Address (id : NodeId) (expr : Expression)
  | Cast (id : NodeId) (expr : Expression)
  | Multiply (id : NodeId) (left right : Expression)
  | Divide (id : NodeId) (left right : Expression)
  | Remainder (id : NodeId) (left right : Expression)
  | Add (id : NodeId) (left right : Expression)
  | Subtract (id : NodeId) (left right : Expression)
  | LessThan (id : NodeId) (left right : Expression)
  | GreaterThan (id : NodeId) (left right : Expression)
  | LessOrEqual (id : NodeId) (left right : Expression)
  | GreaterOrEqual (id : NodeId) (left right : Expression)
  | Equal (id : NodeId) (left right : Expression)
  | NotEqual (id : NodeId) (left right : Expression)
  | LogicalAnd (id : NodeId) (left right : Expression)
  | LogicalOr (id : NodeId) (left right : Expression)

/-- The address of a node. -/
def Expression.id : Expression → NodeId
  | Identifier id _ _ => id
  | Number id _ => id
  | String id _ => id
  | Call id _ _ => id
  | Field id _ _ => id
  | Not id _ => id
  | Negate id _ => id
  | Dereference id _ => id
  | Address id _ => id
  | Cast id _ => id
  | Multiply id _ _ => id
  | Divide id _ _ => id
  | Remainder id _ _ => id
  | Add id _ _ => id
  | Subtract id _ _ => id
  | LessThan id _ _ => id
  | GreaterThan id _ _ => id
  | LessOrEqual id _ _ => id
  | GreaterOrEqual id _ _ => id
  | Equal id _ _ => id
  | NotEqual id _ _ => id
  | LogicalAnd id _ _ => id
  | LogicalOr id _ _ => id

/-- What the generator reads and never writes: the members `_type` and `_hasCall` of
every node, `Type::size()` and the constants of `machine.h`. The last two
are not among the sources and are taken as given. -/
structure Machine where
  type : NodeId → CType
  hasCall : NodeId → Bool
  size : CType → Nat
  STACK_ALIGNMENT : Nat
  SIZEOF_REG : Nat
  globalPrefix : String

/-- The file-scoped variables of the generator, the mutable members of nodes and
registers, the label counter and the lines written to the output stream. -/
structure GenState where
  offset : Int
  funcname : String
  node : Register → Option NodeId
  register : NodeId → Option Register
  nodeOffset : NodeId → Int
  strings : List (String × Nat)
  counter : Nat
  out : List String

/-- Writing one member of one register. -/
def setNode (f : Register → Option NodeId) (r : Register) (v : Option NodeId) :
    Register → Option NodeId :=
  fun x => if x = r then v else f x

/-- Writing one member of one node. -/
def setMember {α : Type} (f : NodeId → α) (n : NodeId) (v : α) : NodeId → α :=
  fun x => if x = n then v else f x

/-- The function `assign`: links an expression and a register, after clearing the former
owner on both sides; either argument may be null. -/
def assign (st : GenState) (expr : Option NodeId) (reg : Option Register) : GenState :=
  let st1 : GenState :=
    match expr with
    | some e =>
      let st0 : GenState :=
        match st.register e with
        | some r0 => { st with node := setNode st.node r0 none }
        | none => st
      { st0 with register := setMember st0.register e reg }
    | none => st
  match reg with
  | some r =>
    let st2 : GenState :=
      match st1.node r with
      | some m => { st1 with register := setMember st1.register m none }
      | none => st1
    { st2 with node := setNode st2.node r expr }
  | none => st1

/-- The constructor `Label::Label` of `label.cpp`, `_number = _counter++`, on the
static counter, which is an `unsigned` of 32 bits: the number of the new label
and the value that the counter has afterwards. -/
def constructLabel (counter : Nat) : Nat × Nat :=
  (counter, (counter + 1) % 2 ^ 32)

/-- The state of the string table after `String::operand` on the value `v`: a
label is constructed at every call, and entered in the table only for a new
value. -/
def internString (st : GenState) (v : String) : Nat × GenState :=
  let fresh := (constructLabel st.counter).1
  let st1 := { st with counter := (constructLabel st.counter).2 }
  match st.strings.lookup v with
  | some l => (l, st1)
  | none => (fresh, { st1 with strings := st1.strings ++ [(v, fresh)] })

/-- The virtual member `operand`: `Identifier::operand`, `Number::operand`,
`String::operand`, and `Expression::operand` for every other node, whose
assertion `_offset != 0` makes the result `none` when it fails. -/
def operand (m : Machine) (st : GenState) (e : Expression) :
    Option (String × GenState) :=
  match e with
  | Expression.Identifier _ name symbolOffset =>
    if symbolOffset = 0 then some (m.globalPrefix ++ name, st)
    else some (toString symbolOffset ++ "(%ebp)", st)
  | Expression.Number _ value => some ("$" ++ toString value, st)
  | Expression.String _ value =>
    let r := internString st value
    some (".L" ++ toString r.1, r.2)
  | other =>
    if st.nodeOffset other.id ≠ 0 then
      some (toString (st.nodeOffset other.id) ++ "(%ebp)", st)
    else none

/-- The stream operator on an `Expression *`: the register of the node if it has
one, its operand otherwise. -/
def writeExpression (m : Machine) (st : GenState) (e : Expression) :
    Option (String × GenState) :=
  match st.register e.id with
  | some r => some (r.longName, st)
  | none => operand m st e

/-- The store that `load` emits for a spilled value of size `n`: `movb` for size 1
and `movl` otherwise, from the register to the new slot. -/
def spillLine (reg : Register) (n : Nat) (offset : Int) : String :=
  (if n = 1 then "\tmovb\t" else "\tmovl\t") ++ reg.longName ++ ", " ++
    toString offset ++ "(%ebp)"

/-- The move that `load` emits for an expression of size `n` written as `text`:
`movb` for size 1 and `movl` otherwise, into `reg->name(n)`. -/
def loadLine (text : String) (reg : Register) (n : Nat) : String :=
  (if n = 1 then "\tmovb\t" else "\tmovl\t") ++ text ++ ", " ++ reg.name n

/-- The inner block of `load` that spills the node `old` held by `reg`: the cursor
goes down by the size of the node's type, the node's `_offset` becomes the new
cursor, and the store is written. -/
def spill (m : Machine) (st : GenState) (reg : Register) (old : NodeId) : GenState :=
  let n := m.size (m.type old)
  let offset := st.offset - n
  { st with
    offset := offset
    nodeOffset := setMember st.nodeOffset old offset
    out := st.out ++ [spillLine reg n offset] }

/-- The function `load`: makes `reg` hold `expr`, spilling the node that `reg` holds to a
new stack slot. -/
def load (m : Machine) (st : GenState) (expr : Option Expression) (reg : Register) :
    Option GenState :=
  if st.node reg ≠ expr.map Expression.id then
    let st1 : GenState :=
      match st.node reg with
      | some old => spill m st reg old
      | none => st
    match expr with
    | some e =>
      match writeExpression m st1 e with
      | some (text, st2) =>
        let n := m.size (m.type e.id)
        let st3 : GenState := { st2 with out := st2.out ++ [loadLine text reg n] }
        some (assign st3 (some e.id) (some reg))
      | none => none
    | none => some (assign st1 none (some reg))
  else some st

/-- The text that the stream operator writes for an expression in a given state,
`none` when the assertion of `Expression::operand` fails. -/
def operandText (m : Machine) (st : GenState) (e : Expression) : Option String :=
  (writeExpression m st e).map Prod.fst

/-- The function `getreg`: the first register of the bank without a node, or
`registers[0]` after its node has been spilled. -/
def getreg (m : Machine) (st : GenState) : Option (Register × GenState) :=
  match registers.find? (fun r => st.node r == none) with
  | some r => some (r, st)
  | none =>
    match load m st none Register.eax with
    | some st1 => some (Register.eax, st1)
    | none => none

/-- The invariant of the allocator: a register names a node exactly when that node
names the register. -/
def Consistent (st : GenState) : Prop :=
  ∀ (r : Register) (n : NodeId), st.node r = some n ↔ st.register n = some r

/-- The state at the start of a function body with cursor `offset`: no register
owns a node, no node names a register or has a location. -/
def GenState.initial (offset : Int) (funcname : String) : GenState :=
  { offset := offset
    funcname := funcname
    node := fun _ => none
    register := fun _ => none
    nodeOffset := fun _ => 0
    strings := []
    counter := 0
    out := [] }

/-- A machine in which every node is an `int` of size 4. -/
def intMachine : Machine :=
  { type := fun _ => Scalar "int" 0
    hasCall := fun _ => false
    size := fun _ => 4
    STACK_ALIGNMENT := 4
    SIZEOF_REG := 4
    globalPrefix := "" }

/-- The state of a body with 8 bytes of locals in which `eax` holds node 1. -/
def eaxHoldsOne : GenState :=
  assign (GenState.initial (-8) "f") (some 1) (some Register.eax)

/-! ## Code generator (`phase6/generator.cpp`)

The member functions `generate` and `test` of the expression and statement
nodes. A result `none` stands for a run that stops in a failed assertion or in
the use of a null `_register`. -/

/-- Writing one line to the output stream. -/
def emit (st : GenState) (line : String) : GenState :=
  { st with out := st.out ++ [line] }

/-- The construction of a `Label`: its number is the value of the counter, which is
then incremented (`label.cpp`). -/
def newLabel (st : GenState) : Nat × GenState :=
  ((constructLabel st.counter).1, { st with counter := (constructLabel st.counter).2 })

/-- The stream operator on a `Label`. -/
def labelText (number : Nat) : String := ".L" ++ toString number

/-- The function `align`: the number of bytes that brings `offset` to a multiple of
`STACK_ALIGNMENT`. -/
def align (m : Machine) (offset : Int) : Int :=
  if offset % (m.STACK_ALIGNMENT : Int) = 0 then 0
  else (m.STACK_ALIGNMENT : Int) - ((offset.natAbs : Int) % (m.STACK_ALIGNMENT : Int))

/-- Modelled from the spec: the virtual member `isNumber` of `Tree.h`, which is not among
the sources: true for an integer literal, whose value it hands back. -/
def Expression.isNumber : Expression → Option Nat
  | Expression.Number _ value => some value
  | _ => none

/-- Modelled from the spec: the virtual member `isDereference` of `Tree.h`: true for a
pointer dereference, whose operand it hands back. -/
def Expression.isDereference : Expression → Option Expression
  | Expression.Dereference _ expr => some expr
  | _ => none

/-- Modelled from the spec: the virtual member `isField` of `Tree.h`: true for a
field-access node, whose base expression and field offset it hands back. -/
def Expression.isField : Expression → Option (Expression × Int)
  | Expression.Field _ expr fieldOffset => some (expr, fieldOffset)
  | _ => none

/-- The function `findBaseAndOffset`: sets `offset` to 0, then walks the chain of
field-access nodes, adding up their offsets; returns the base and the final
value of `offset`. -/
def findBaseAndOffset : Expression → Expression × Int
  | Expression.Field _ expr fieldOffset =>
    ((findBaseAndOffset expr).1, fieldOffset + (findBaseAndOffset expr).2)
  | other => (other, 0)

/-- The idiom `if (e->_register == nullptr) load(e, getreg());`. -/
def loadIfNeeded (m : Machine) (st : GenState) (e : Expression) : Option GenState :=
  match st.register e.id with
  | some _ => some st
  | none =>
    match getreg m st with
    | some (reg, st1) => load m st1 (some e) reg
    | none => none

/-- The function `compute` after its two calls of `generate`; `result` is the node
that receives the register. -/
def computeTail (m : Machine) (st : GenState) (result : NodeId) (left right : Expression)
    (opcode : String) : Option GenState := do
  let st1 ← loadIfNeeded m st left
  let (r, st2) ← writeExpression m st1 right
  let (l, st3) ← writeExpression m st2 left
  let st4 := emit st3 ("\t" ++ opcode ++ "\t" ++ r ++ ", " ++ l)
  let st5 := assign st4 (some right.id) none
  some (assign st5 (some result) (st5.register left.id))

/-- The function `divide` after its two calls of `generate`. -/
def divideTail (m : Machine) (st : GenState) (result : NodeId) (left right : Expression)
    (reg : Register) : Option GenState := do
  let st1 ← load m st (some left) Register.eax
  let st2 ← load m st1 none Register.edx
  let st3 ← (match right.isNumber with
    | some _ => load m st2 (some right) Register.ecx
    | none => some st2)
  let st4 := emit st3 "\tcltd\t"
  let (r, st5) ← writeExpression m st4 right
  let st6 := emit st5 ("\tidivl\t" ++ r)
  let st7 := assign st6 none (st6.register left.id)
  let st8 := assign st7 none (st7.register right.id)
  some (assign st8 (some result) (some reg))

/-- The function `compare` after its two calls of `generate`. -/
def compareTail (m : Machine) (st : GenState) (result : NodeId) (left right : Expression)
    (opcode : String) : Option GenState := do
  let st1 ← loadIfNeeded m st left
  let (r, st2) ← writeExpression m st1 right
  let (l, st3) ← writeExpression m st2 left
  let st4 := emit st3 ("\tcmpl\t" ++ r ++ ", " ++ l)
  let reg ← st4.register left.id
  let st5 := emit st4 ("\t" ++ opcode ++ "\t" ++ reg.byte)
  let st6 := emit st5 ("\tmovzbl\t" ++ reg.byte ++ ", " ++ reg.longName)
  some (assign st6 (some result) (some reg))

/-- The member `Cast::generate` after its call of `generate`. -/
def castTail (m : Machine) (st : GenState) (result : NodeId) (expr : Expression) :
    Option GenState := do
  let st1 ← loadIfNeeded m st expr
  let st2 ←
    (if m.size (m.type result) = 4 ∧ m.size (m.type expr.id) = 1 then do
      let (t, st2) ← writeExpression m st1 expr
      let reg ← st2.register expr.id
      some (emit st2 ("\tmovsbl\t" ++ t ++ ", " ++ reg.name 4))
    else some st1)
  some (assign st2 (some result) (st2.register expr.id))

/-- The member `Not::generate` after its call of `generate`. -/
def notTail (m : Machine) (st : GenState) (result : NodeId) (expr : Expression) :
    Option GenState := do
  let st1 ← loadIfNeeded m st expr
  let (t, st2) ← writeExpression m st1 expr
  let st3 := emit st2 ("\tcmpl\t" ++ "$0" ++ ", " ++ t)
  let reg ← st3.register expr.id
  let st4 := emit st3 ("\tsete\t" ++ reg.byte)
  let (t2, st5) ← writeExpression m st4 expr
  let st6 := emit st5 ("\tmovzbl\t" ++ reg.byte ++ ", " ++ t2)
  some (assign st6 (some result) (st6.register expr.id))

/-- The member `Negate::generate` after its call of `generate`. -/
def negateTail (m : Machine) (st : GenState) (result : NodeId) (expr : Expression) :
    Option GenState := do
  let st1 ← loadIfNeeded m st expr
  let (t, st2) ← writeExpression m st1 expr
  let st3 := emit st2 ("\tnegl\t" ++ t)
  some (assign st3 (some result) (st3.register expr.id))

/-- The member `Dereference::generate` after its call of `generate`. -/
def dereferenceTail (m : Machine) (st : GenState) (result : NodeId) (expr : Expression) :
    Option GenState := do
  let st1 ← loadIfNeeded m st expr
  let (t, st2) ← writeExpression m st1 expr
  let (t2, st3) ← writeExpression m st2 expr
  let st4 := emit st3
    ((if m.size (m.type expr.id) = 4 then "\tmovl\t" else "\tmovzbl\t") ++
      "(" ++ t ++ "), " ++ t2)
  some (assign st4 (some result) (st4.register expr.id))

/-- The member `Expression::test` after its call of `generate`. -/
def testTail (m : Machine) (st : GenState) (e : Expression) (label : Nat)
    (ifTrue : Bool) : Option GenState := do
  let st1 ← loadIfNeeded m st e
  let (t, st2) ← writeExpression m st1 e
  let st3 := emit st2 ("\tcmpl\t$0, " ++ t)
  let st4 := emit st3 ((if ifTrue then "\tjne\t" else "\tje\t") ++ labelText label)
  some (assign st4 (some e.id) none)

/-- The member `LessThan::test` after its two calls of `generate`. -/
def lessThanTestTail (m : Machine) (st : GenState) (left right : Expression) (label : Nat)
    (ifTrue : Bool) : Option GenState := do
  let st1 ← loadIfNeeded m st left
  let (r, st2) ← writeExpression m st1 right
  let (l, st3) ← writeExpression m st2 left
  let st4 := emit st3 ("\tcmpl\t" ++ r ++ ", " ++ l)
  let st5 := emit st4 ((if ifTrue then "\tjl\t" else "\tjge\t") ++ labelText label)
  let st6 := assign st5 (some left.id) none
  some (assign st6 (some right.id) none)

/-- The members `LogicalAnd::generate` and `LogicalOr::generate` after the test of the
left operand and the call of `generate` on the right one; `next` is the label. -/
def logicalTail (m : Machine) (st : GenState) (result : NodeId) (right : Expression)
    (next : Nat) : Option GenState := do
  let st1 ← loadIfNeeded m st right
  let (t, st2) ← writeExpression m st1 right
  let st3 := emit st2 ("\tcmpl\t$0, " ++ t)
  let st4 := emit st3 (labelText next ++ ":")
  let reg ← st4.register right.id
  let st5 := emit st4 ("\tsetne\t" ++ reg.byte)
  let (t2, st6) ← writeExpression m st5 right
  let st7 := emit st6 ("\tmovzbl\t" ++ reg.byte ++ ", " ++ t2)
  some (assign st7 (some result) (st7.register right.id))

/-- The three calls `load(nullptr, eax); load(nullptr, ecx); load(nullptr, edx);` of
`Call::generate`. -/
def spillAll (m : Machine) (st : GenState) : Option GenState := do
  let st1 ← load m st none Register.eax
  let st2 ← load m st1 none Register.ecx
  load m st2 none Register.edx

/-- The end of `Call::generate`: the `addl` that reclaims the stack space and the
assignment of `eax` to the call. -/
def callEnd (st : GenState) (result : NodeId) (numBytes : Nat) : GenState :=
  let st1 :=
    if numBytes > 0 then emit st ("\taddl\t$" ++ toString numBytes ++ ", %esp") else st
  assign st1 (some result) (some Register.eax)

/-- The alignment block of `Call::generate`: the `subl` and the new byte count.
The count is unsigned; `align` is not negative for a positive `STACK_ALIGNMENT`. -/
def alignCall (m : Machine) (st : GenState) (numBytes : Nat) : Nat × GenState :=
  if align m numBytes ≠ 0 then
    (numBytes + (align m numBytes).toNat,
      emit st ("\tsubl\t$" ++ toString (align m numBytes) ++ ", %esp"))
  else (numBytes, st)

/-- The sum of the sizes of the arguments of a call. -/
def argumentBytes (m : Machine) (args : List Expression) : Nat :=
  (args.map (fun a => m.size (m.type a.id))).sum

mutual

/-- The virtual member `generate` of the expression nodes. For the leaves
(identifier, number, string) it is the empty default of `Tree.cpp`, modelled
from the spec: nothing is emitted for a value that is already in place. -/
def generate (m : Machine) : Expression → GenState → Option GenState
  | Expression.Identifier _ _ _, st => some st
  | Expression.Number _ _, st => some st
  | Expression.String _ _, st => some st
  | Expression.Call id expr args, st => do
    let st1 ← generateNested m args st
    let (numBytes, st2) := alignCall m st1 (argumentBytes m args)
    let st3 ← pushArguments m args st2
    let st4 ← spillAll m st3
    if (m.type expr.id).isCallback then do
      let st5 ← generate m expr st4
      let st6 ← loadIfNeeded m st5 expr
      let (t, st7) ← writeExpression m st6 expr
      let st8 := assign (emit st7 ("\tcall\t*" ++ t)) (some expr.id) none
      some (callEnd st8 id numBytes)
    else do
      let (t, st5) ← writeExpression m st4 expr
      some (callEnd (emit st5 ("\tcall\t" ++ t)) id numBytes)
  | Expression.Field id expr fieldOffset, st =>
    generateField m (Expression.Field id expr fieldOffset) expr expr 0 st
  | Expression.Not id expr, st => do
    let st1 ← generate m expr st
    notTail m st1 id expr
  | Expression.Negate id expr, st => do
    let st1 ← generate m expr st
    negateTail m st1 id expr
  | Expression.Dereference id expr, st => do
    let st1 ← generate m expr st
    dereferenceTail m st1 id expr
  | Expression.Address id expr, st =>
    generateAddress m (Expression.Address id expr) expr 0 st
  | Expression.Cast id expr, st => do
    let st1 ← generate m expr st
    castTail m st1 id expr
  | Expression.Multiply id left right, st => do
    let st1 ← generate m left st
    let st2 ← generate m right st1
    computeTail m st2 id left right "imull"
  | Expression.Divide id left right, st => do
    let st1 ← generate m left st
    let st2 ← generate m right st1
    divideTail m st2 id left right Register.eax
  | Expression.Remainder id left right, st => do
    let st1 ← generate m left st
    let st2 ← generate m right st1
    divideTail m st2 id left right Register.edx
  | Expression.Add id left right, st => do
    let st1 ← generate m left st
    let st2 ← generate m right st1
    computeTail m st2 id left right "addl"
  | Expression.Subtract id left right, st => do
    let st1 ← generate m left st
    let st2 ← generate m right st1
    computeTail m st2 id left right "subl"
  | Expression.LessThan id left right, st => do
    let st1 ← generate m left st
    let st2 ← generate m right st1
    compareTail m st2 id left right "setl"
  | Expression.GreaterThan id left right, st => do
    let st1 ← generate m left st
    let st2 ← generate m right st1
    compareTail m st2 id left right "setg"
  | Expression.LessOrEqual id left right, st => do
    let st1 ← generate m left st
    let st2 ← generate m right st1
    compareTail m st2 id left right "setle"
  | Expression.GreaterOrEqual id left right, st => do
    let st1 ← generate m left st
    let st2 ← generate m right st1
    compareTail m st2 id left right "setge"
  | Expression.Equal id left right, st => do
    let st1 ← generate m left st
    let st2 ← generate m right st1
    compareTail m st2 id left right "sete"
  | Expression.NotEqual id left right, st => do
    let st1 ← generate m left st
    let st2 ← generate m right st1
    compareTail m st2 id left right "setne"
  | Expression.LogicalAnd id left right, st => do
    let (next, st0) := newLabel st
    let st1 ←
      (match left with
        | Expression.LessThan _ a b => do
          let s1 ← generate m a st0
          let s2 ← generate m b s1
          lessThanTestTail m s2 a b next false
        | other => do
          let s1 ← generate m other st0
          testTail m s1 other next false)
    let st2 ← generate m right st1
    logicalTail m st2 id right next
  | Expression.LogicalOr id left right, st => do
    let (next, st0) := newLabel st
    let st1 ←
      (match left with
        | Expression.LessThan _ a b => do
          let s1 ← generate m a st0
          let s2 ← generate m b s1
          lessThanTestTail m s2 a b next true
        | other => do
          let s1 ← generate m other st0
          testTail m s1 other next true)
    let st2 ← generate m right st1
    logicalTail m st2 id right next

/-- The first loop of `Call::generate`, from the last argument to the first: the
arguments that contain a call are generated. -/
def generateNested (m : Machine) : List Expression → GenState → Option GenState
  | [], st => some st
  | a :: rest, st => do
    let st1 ← generateNested m rest st
    if m.STACK_ALIGNMENT ≠ m.SIZEOF_REG ∧ m.hasCall a.id = true then generate m a st1
    else some st1

/-- The second loop of `Call::generate`, from the last argument to the first: the
remaining arguments are generated, and every argument is pushed and released. -/
def pushArguments (m : Machine) : List Expression → GenState → Option GenState
  | [], st => some st
  | a :: rest, st => do
    let st1 ← pushArguments m rest st
    let st2 ←
      (if m.STACK_ALIGNMENT = m.SIZEOF_REG ∨ m.hasCall a.id = false then generate m a st1
        else some st1)
    let (t, st3) ← writeExpression m st2 a
    some (assign (emit st3 ("\tpushl\t" ++ t)) (some a.id) none)

/-- The member `Address::generate` of the node `this`. The call
`findBaseAndOffset(_expr, base, offset)` is unfolded into the walk over the
field chain, `acc` being the offset it has summed; its third argument is the
file-scoped `offset`, the cursor, which receives the sum. -/
def generateAddress (m : Machine) (this : Expression) :
    Expression → Int → GenState → Option GenState
  | Expression.Field _ expr fieldOffset, acc, st =>
    generateAddress m this expr (acc + fieldOffset) st
  | Expression.Dereference _ ptr, acc, st => do
    let st0 := { st with offset := acc }
    let st1 ← generate m ptr st0
    let st2 ← loadIfNeeded m st1 ptr
    some (assign st2 (some this.id) (st2.register ptr.id))
  | base, acc, st => do
    let st0 := { st with offset := acc }
    let (reg, st1) ← getreg m st0
    let st2 := assign st1 (some this.id) (some reg)
    let (b, st3) ← writeExpression m st2 base
    let (t, st4) ← writeExpression m st3 this
    some (emit st4 ("\tleal\t" ++ b ++ ", " ++ t))

/-- The member `Field::generate` of the node `this` with operand `expr0`. The call
`findBaseAndOffset(_expr, base, offset)` is unfolded into the walk over the
field chain; here `offset` is a local variable of the member. -/
def generateField (m : Machine) (this expr0 : Expression) :
    Expression → Int → GenState → Option GenState
  | Expression.Field _ expr fieldOffset, acc, st =>
    generateField m this expr0 expr (acc + fieldOffset) st
  | Expression.Dereference _ ptr, acc, st => do
    let st1 ← generate m ptr st
    let st2 ← loadIfNeeded m st1 ptr
    let (reg, st3) ← getreg m st2
    let st4 := assign st3 (some this.id) (some reg)
    let (p, st5) ← writeExpression m st4 ptr
    let (t, st6) ← writeExpression m st5 this
    some (emit st6
      ((if m.size (m.type this.id) = 4 then "\tmovl\t" else "\tmovb\t") ++ p ++ ", " ++
        toString acc ++ "+(" ++ t ++ ")"))
  | base, acc, st => do
    let (reg, st1) ← getreg m st
    let st2 := assign st1 (some expr0.id) (some reg)
    let (b, st3) ← writeExpression m st2 base
    let (t, st4) ← writeExpression m st3 this
    some (emit st4
      ((if m.size (m.type this.id) = 4 then "\tmovl\t" else "\tmovb\t") ++ b ++ ", " ++
        toString acc ++ "+" ++ t))

end

/-- The virtual member `test`: `LessThan::test` for a less-than node and
`Expression::test` for every other expression. -/
def test (m : Machine) (e : Expression) (label : Nat) (ifTrue : Bool) (st : GenState) :
    Option GenState :=
  match e with
  | Expression.LessThan _ a b => do
    let s1 ← generate m a st
    let s2 ← generate m b s1
    lessThanTestTail m s2 a b label ifTrue
  | other => do
    let s1 ← generate m other st
    testTail m s1 other label ifTrue

/-- The statement nodes of the syntax tree that the generator lowers. -/
inductive Statement where
  | Assignment (left right : Expression)
  | Simple (expr : Expression)
  | Return (expr : Expression)
  | While (expr : Expression) (stmt : Statement)
  | For (init : Statement) (expr : Expression) (stmt : Statement) (incr : Statement)
  | If (expr : Expression) (thenStmt : Statement) (elseStmt : Option Statement)
  | Block (stmts : List Statement)

/-- The member `Assignment::generate`. Its call `findBaseAndOffset(_left, base, offset)`
passes the file-scoped `offset`, the cursor, as third argument: the cursor
receives the field offset of the left-hand side, and the store reads it back. -/
def generateAssignment (m : Machine) (left right : Expression) (st : GenState) :
    Option GenState := do
  let st0 := { st with offset := (findBaseAndOffset left).2 }
  let base := (findBaseAndOffset left).1
  let st1 ← generate m right st0
  let st2 ←
    (if right.isNumber = none ∨ st1.register right.id = none then do
      let (reg, s) ← getreg m st1
      load m s (some right) reg
    else some st1)
  let n := m.size (m.type right.id)
  match base.isDereference with
  | some ptr => do
    let st3 ← generate m ptr st2
    let st4 ← loadIfNeeded m st3 ptr
    let st5 ←
      (if n = 1 then do
        let reg ← st4.register right.id
        let (p, s) ← writeExpression m st4 ptr
        some (emit s ("\tmovb\t" ++ reg.name n ++ ", " ++ "(" ++ p ++ ")"))
      else do
        let (r, s1) ← writeExpression m st4 right
        let (p, s2) ← writeExpression m s1 ptr
        some (emit s2 ("\tmovl\t" ++ r ++ ", " ++ "(" ++ p ++ ")")))
    let st6 := assign st5 (some ptr.id) none
    some (assign st6 (some right.id) none)
  | none => do
    let st3 ← generate m base st2
    let st4 ←
      (if n = 1 then do
        let reg ← st3.register right.id
        let (b, s) ← writeExpression m st3 base
        some (emit s ("\tmovb\t" ++ reg.name n ++ ", " ++ toString s.offset ++ "+" ++ b))
      else do
        let (r, s1) ← writeExpression m st3 right
        let (b, s2) ← writeExpression m s1 base
        some (emit s2 ("\tmovl\t" ++ r ++ ", " ++ toString s2.offset ++ "+" ++ b)))
    some (assign st4 (some right.id) none)

/-- The assertion of `Block::generate`: no register of the bank holds a node. -/
def registersFree (st : GenState) : Bool :=
  registers.all (fun reg => st.node reg == none)

mutual

/-- The virtual member `generate` of the statement nodes. -/
def generateStatement (m : Machine) : Statement → GenState → Option GenState
  | Statement.Assignment left right, st => generateAssignment m left right st
  | Statement.Simple expr, st => do
    let st1 ← generate m expr st
    some (assign st1 (some expr.id) none)
  | Statement.Return expr, st => do
    let st1 ← generate m expr st
    let st2 ← load m st1 (some expr) Register.eax
    let st3 := emit st2 ("\tjmp\t" ++ st2.funcname ++ ".exit")
    some (assign st3 (some expr.id) none)
  | Statement.While expr stmt, st => do
    let (loop, s1) := newLabel st
    let (exit, s2) := newLabel s1
    let s3 := emit s2 (labelText loop ++ ":")
    let s4 ← test m expr exit false s3
    let s5 ← generateStatement m stmt s4
    let s6 := emit s5 ("\tjmp\t" ++ labelText loop)
    some (emit s6 (labelText exit ++ ":"))
  | Statement.For init expr stmt incr, st => do
    let (next, s1) := newLabel st
    let (exit, s2) := newLabel s1
    let s3 ← generateStatement m init s2
    let s4 := emit s3 (labelText next ++ ":")
    let s5 ← test m expr exit false s4
    let s6 ← generateStatement m stmt s5
    let s7 ← generateStatement m incr s6
    let s8 := emit s7 ("\tjmp\t" ++ labelText next)
    some (emit s8 (labelText exit ++ ":"))
  | Statement.If expr thenStmt elseStmt, st => do
    let (next, s1) := newLabel st
    let (exit, s2) := newLabel s1
    let s3 ← test m expr next false s2
    let s4 ← generateStatement m thenStmt s3
    match elseStmt with
    | some stmt => do
      let s5 := emit s4 ("\tjmp\t" ++ labelText exit)
      let s6 := emit s5 (labelText next ++ ":")
      let s7 ← generateStatement m stmt s6
      some (emit s7 (labelText exit ++ ":"))
    | none => some (emit s4 (labelText next ++ ":"))
  | Statement.Block stmts, st => generateBlock m stmts st

/-- The loop of `Block::generate`: each statement is generated, and after each one
the assertion that every register is free is checked. -/
def generateBlock (m : Machine) : List Statement → GenState → Option GenState
  | [], st => some st
  | stmt :: rest, st => do
    let st1 ← generateStatement m stmt st
    if registersFree st1 then generateBlock m rest st1 else none

end

/-- The statement `x = 1;` for a local `x` at offset -4. -/
def assignOne : Statement :=
  Statement.Assignment (Expression.Identifier 1 "x" (-4)) (Expression.Number 2 1)

/-- The statement `(x + 1) + f(9);` for the same local `x` and a global function `f`:
the sum `x + 1`, node 5, is live in `eax` across the call. -/
def sumAcrossCall : Statement :=
  Statement.Simple
    (Expression.Add 9
      (Expression.Add 5 (Expression.Identifier 3 "x" (-4)) (Expression.Number 4 1))
      (Expression.Call 8 (Expression.Identifier 6 "f" 0) [Expression.Number 7 9]))

/-! ## Scopes and declarations (`phase3/MyScope.cpp`, `phase4/checker.cpp`)

The `Scope` objects live on a heap, keyed by a scope identifier that stands for
the address of the object. A result `none` stands for a run that stops in a
failed assertion or in the use of a null pointer. -/

mutual

/-- Member `Type::operator==` of `Type.cpp`. -/
def CType.equals : CType → CType → Bool
  | CType.mk k1 s1 i1 l1 p1, CType.mk k2 s2 i2 l2 p2 =>
    if k1 ≠ k2 then false
    else if k1 = Kind.ERROR then true
    else if s1 ≠ s2 then false
    else if i1 ≠ i2 then false
    else if k1 = Kind.SCALAR then true
    else if k1 = Kind.ARRAY then l1 == l2
    else
      match p1, p2 with
      | some a, some b => CType.equalsList a b
      | _, _ => true

/-- The comparison `*_parameters == *rhs._parameters` of two vectors of types: the
same length and pairwise equal elements. -/
def CType.equalsList : List CType → List CType → Bool
  | [], [] => true
  | a :: as, b :: bs => CType.equals a b && CType.equalsList as bs
  | _, _ => false

end

/-- Member `Type::operator!=` of `Type.cpp`. -/
def CType.notEquals (t rhs : CType) : Bool := !CType.equals t rhs

/-- The address of a `Scope` object. -/
abbrev ScopeId := Nat

/-- Member `search` of `MyScope.cpp`, called `find` by the checker: the first symbol
of the scope with the given name. -/
def scopeFind (symbols : Symbols) (name : String) : Option Symbol :=
  match symbols with
  | [] => none
  | s :: rest => if name == s.name then some s else scopeFind rest name

/-- Member `insert` of `MyScope.cpp`: the symbol goes to the end of the list; `none`
when the assertion that its name is not yet in the scope fails. -/
def scopeInsert (symbols : Symbols) (sym : Symbol) : Option Symbols :=
  match scopeFind symbols sym.name with
  | none => some (symbols ++ [sym])
  | some _ => none

/-- Member `remove` of `MyScope.cpp`: erases the first symbol with the given name. -/
def scopeRemove (symbols : Symbols) (name : String) : Symbols :=
  match symbols with
  | [] => []
  | s :: rest => if name == s.name then rest else s :: scopeRemove rest name

/-- The file-scoped variables of the checker and the heap of scopes. The list
`toplevel` is the chain `toplevel`, `toplevel->enclosing()`, ... of the scopes
that are open, innermost first; the empty list is the null pointer. The
pointer `outermost` is kept as it is in the source. `scopes` gives the symbol
list of every scope object and `next` is the address of the next object
that `new Scope` creates. -/
structure Checker where
  functions : List String
  fields : List (String × ScopeId)
  outermost : Option ScopeId
  toplevel : List ScopeId
  scopes : ScopeId → Symbols
  next : ScopeId

/-- Writing the symbol list of one scope object. -/
def setScope (scopes : ScopeId → Symbols) (id : ScopeId) (symbols : Symbols) :
    ScopeId → Symbols :=
  fun x => if x = id then symbols else scopes x

/-- The call `fields.find(name)` on the checker's map. -/
def fieldsFind (fields : List (String × ScopeId)) (name : String) : Option ScopeId :=
  match fields with
  | [] => none
  | (k, id) :: rest => if k == name then some id else fieldsFind rest name

/-- The call `fields.count(name)` on the checker's map: 0 or 1. -/
def fieldsCount (fields : List (String × ScopeId)) (name : String) : Nat :=
  match fieldsFind fields name with
  | none => 0
  | some _ => 1

/-- The call `fields.erase(name)`. -/
def fieldsErase (fields : List (String × ScopeId)) (name : String) :
    List (String × ScopeId) :=
  fields.filter (fun p => !(p.1 == name))

/-- The assignment `fields[name] = scope`: the binding of `name` is replaced. -/
def fieldsSet (fields : List (String × ScopeId)) (name : String) (scope : ScopeId) :
    List (String × ScopeId) :=
  (name, scope) :: fieldsErase fields name

/-- The field tables as the check functions read them: for every registered tag the
scope with its symbol list. The check functions read only `symbols()` of a
registered scope, so its enclosing link is left empty. -/
def Checker.fieldTable (c : Checker) : Fields :=
  c.fields.map (fun p => (p.1, Scope.mk (c.scopes p.2) none))

def undeclared : String := "'%s' undeclared"
def redefined : String := "redefinition of '%s'"
def redeclared : String := "redeclaration of '%s'"
def conflicting : String := "conflicting types for '%s'"
def incomplete : String := "'%s' has incomplete type"
def nonpointer : String := "pointer type required for '%s'"

/-- The function `openScope`: a new empty scope, enclosed by the current one, becomes the
top-level scope, and the outermost one if there is none yet. -/
def openScope (c : Checker) : ScopeId × Checker :=
  let id := c.next
  let c1 : Checker :=
    { c with
      toplevel := id :: c.toplevel
      scopes := setScope c.scopes id []
      next := c.next + 1 }
  (id, if c1.outermost = none then { c1 with outermost := some id } else c1)

/-- The function `closeScope`: the enclosing scope becomes the top-level scope and the old
one is returned; `none` when `toplevel` is null. -/
def closeScope (c : Checker) : Option (ScopeId × Checker) :=
  match c.toplevel with
  | [] => none
  | old :: rest => some (old, { c with toplevel := rest })

/-- The function `openStruct`: an existing table of the tag is erased and reported, then a
scope is opened. Deleting the old scope object frees its memory and is not
modelled. -/
def openStruct (c : Checker) (name : String) : Checker × List Diagnostic :=
  if fieldsCount c.fields name > 0 then
    ((openScope { c with fields := fieldsErase c.fields name }).2, report redefined name)
  else ((openScope c).2, [])

/-- The function `closeStruct`: the scope that is closed is registered under the tag. -/
def closeStruct (c : Checker) (name : String) : Option Checker :=
  match closeScope c with
  | some (old, c1) => some { c1 with fields := fieldsSet c1.fields name old }
  | none => none

/-- The last block of `declareSymbol`: the diagnostic for a structure by value. -/
def structureDiagnostic (c : Checker) (name : String) (type : CType) (isParameter : Bool) :
    List Diagnostic :=
  if isStructure type then
    if isParameter || type.isCallback || type.isFunction then report nonpointer name
    else if fieldsCount c.fields type.specifier == 0 then report incomplete name
    else []
  else []

/-- The function `declareSymbol`; `none` when `toplevel` is null. -/
def declareSymbol (c : Checker) (name : String) (type : CType) (isParameter : Bool) :
    Option (Checker × List Diagnostic) :=
  match c.toplevel with
  | [] => none
  | top :: _ =>
    match scopeFind (c.scopes top) name with
    | none =>
      match scopeInsert (c.scopes top) ⟨name, type⟩ with
      | some symbols =>
        some ({ c with scopes := setScope c.scopes top symbols },
          structureDiagnostic c name type isParameter)
      | none => none
    | some symbol =>
      if some top ≠ c.outermost then some (c, report redeclared name)
      else if type.notEquals symbol.type then some (c, report conflicting name)
      else some (c, structureDiagnostic c name type isParameter)

/-- The function `defineFunction`; `none` when `outermost` is null or when the assertion
of `insert` fails. Deleting the old symbol frees its memory and is not
modelled. -/
def defineFunction (c : Checker) (name : String) (type : CType) :
    Option (Symbol × Checker × List Diagnostic) :=
  match c.outermost with
  | none => none
  | some out =>
    let symbol := scopeFind (c.scopes out) name
    let diagnostics :=
      if c.functions.contains name then report redefined name
      else if (match symbol with
          | some s => type.notEquals s.type
          | none => false) then report conflicting name
      else if isStructure type then report nonpointer name
      else []
    match scopeInsert (scopeRemove (c.scopes out) name) ⟨name, type⟩ with
    | some symbols =>
      some (⟨name, type⟩,
        { c with
          scopes := setScope c.scopes out symbols
          functions := if c.functions.contains name then c.functions
            else name :: c.functions },
        diagnostics)
    | none => none

/-- Member `lookfor` of `MyScope.cpp`, called `lookup` by the checker: the first hit of
`find` along the chain of enclosing scopes. -/
def scopeLookup (scopes : ScopeId → Symbols) (chain : List ScopeId) (name : String) :
    Option Symbol :=
  match chain with
  | [] => none
  | id :: rest =>
    match scopeFind (scopes id) name with
    | some s => some s
    | none => scopeLookup scopes rest name

/-- The function `checkIdentifier`; `none` when `toplevel` is null. -/
def checkIdentifier (c : Checker) (name : String) :
    Option (Symbol × Checker × List Diagnostic) :=
  match c.toplevel with
  | [] => none
  | top :: _ =>
    match scopeLookup c.scopes c.toplevel name with
    | some symbol => some (symbol, c, [])
    | none =>
      match scopeInsert (c.scopes top) ⟨name, error⟩ with
      | some symbols =>
        some (⟨name, error⟩, { c with scopes := setScope c.scopes top symbols },
          report undeclared name)
      | none => none

/-- The state of the checker before `main` opens the global scope. -/
def Checker.empty : Checker :=
  { functions := []
    fields := []
    outermost := none
    toplevel := []
    scopes := fun _ => []
    next := 0 }

/-- The state in which `eax`, `ecx` and `edx` hold the nodes 1, 2 and 3. -/
def allOwned : GenState :=
  assign (assign eaxHoldsOne (some 2) (some Register.ecx)) (some 3) (some Register.edx)

/-- The number of symbols of a scope that have the given name. -/
def countName (symbols : Symbols) (name : String) : Nat :=
  (symbols.filter (fun s => name == s.name)).length

/-- The state in which `main` has opened the global scope. -/
def globalScope : Checker := (openScope Checker.empty).2

/-- The state after `int f; char g;` were declared in the global scope. -/
def twoGlobals : Checker :=
  { globalScope with
    scopes := setScope globalScope.scopes 0 ([⟨"f", Scalar "int" 0⟩, ⟨"g", Scalar "char" 0⟩]) }

/-- A function body opened in the global scope, holding the parameter `int x`. -/
def bodyWithX : Checker :=
  { (openScope globalScope).2 with
    scopes := setScope (openScope globalScope).2.scopes 1 ([⟨"x", Scalar "int" 0⟩]) }

/-- The checks are silent on the Error type: what every check function returns when
`left` or `right` is of the Error type, the unary checks, the member accesses
and `checkCall` being applied to `left`. -/
def SilentOnError (fields : Fields) (left right : CType) (args : Parameters) (id : String)
    (lvalue : Bool) : Prop :=
  checkLogicalOr left right = (error, []) ∧ checkLogicalAnd left right = (error, []) ∧
  checkEquality left right = (error, []) ∧ checkInequality left right = (error, []) ∧
  checkLessThan left right = (error, []) ∧ checkGreaterThan left right = (error, []) ∧
  checkLessOrEqual left right = (error, []) ∧ checkGreaterOrEqual left right = (error, []) ∧
  checkAddition fields left right = (error, []) ∧
  checkSubtraction fields left right = (error, []) ∧
  checkMultiply left right = (error, []) ∧ checkDivision left right = (error, []) ∧
  checkPercent left right = (error, []) ∧ checkTypeCast fields left right = (error, []) ∧
  checkArray fields left right = (error, []) ∧ checkReturn left right = (error, []) ∧
  checkAssignment left right lvalue = (error, []) ∧
  (left.isError = true →
    checkNot left = (error, []) ∧ checkNeg left = (error, []) ∧
    checkDeref fields left = (error, []) ∧ checkAddress left lvalue = (error, []) ∧
    checkSizeof fields left = (error, []) ∧ checkConditional left = (error, []) ∧
    checkDirectStrcutField fields left id = (error, []) ∧
    checkIndirectStructure fields left id = (error, []) ∧
    checkCall left args = some (error, []))

/-- The scenario `{ x; } x;` in the global scope: a block is opened, the undeclared
`x` is used in it, the block is closed and `x` is used again. The result is
the pair of the diagnostics of the two uses. -/
def useAfterClose : Option (List Diagnostic × List Diagnostic) :=
  match checkIdentifier (openScope globalScope).2 "x" with
  | some (_, c2, d1) =>
    match closeScope c2 with
    | some (_, c3) =>
      match checkIdentifier c3 "x" with
      | some (_, _, d2) => some (d1, d2)
      | none => none
    | none => none
  | none => none

/-- The declarations of a structure body: `declareSymbol`, not as a parameter, for
each field in order; the diagnostics accumulate. -/
def declareFields (c : Checker) : List (String × CType) → Option (Checker × List Diagnostic)
  | [] => some (c, [])
  | (name, type) :: rest =>
    match declareSymbol c name type false with
    | some (c1, d1) =>
      match declareFields c1 rest with
      | some (c2, d2) => some (c2, d1 ++ d2)
      | none => none
    | none => none

/-! ## Sequences of scope operations -/

/-- One call of the scope interface of the checker. -/
inductive Operation where
  | openScope
  | closeScope
  | openStruct (name : String)
  | closeStruct (name : String)
  | declareSymbol (name : String) (type : CType) (isParameter : Bool)
  | defineFunction (name : String) (type : CType)
  | checkIdentifier (name : String)

/-- The state after one call; `none` when the call stops in a failed assertion or
in the use of a null pointer. -/
def step (c : Checker) : Operation → Option Checker
  | Operation.openScope => some (openScope c).2
  | Operation.closeScope => (closeScope c).map (fun r => r.2)
  | Operation.openStruct name => some (openStruct c name).1
  | Operation.closeStruct name => closeStruct c name
  | Operation.declareSymbol name type isParameter =>
    (declareSymbol c name type isParameter).map (fun r => r.1)
  | Operation.defineFunction name type => (defineFunction c name type).map (fun r => r.2.1)
  | Operation.checkIdentifier name => (checkIdentifier c name).map (fun r => r.2.1)

/-- The state after a sequence of calls. -/
def run (c : Checker) : List Operation → Option Checker
  | [] => some c
  | op :: ops =>
    match step c op with
    | some c1 => run c1 ops
    | none => none

/-- No scope object holds two symbols of the same name. -/
def DistinctNames (c : Checker) : Prop :=
  ∀ (id : ScopeId) (name : String), countName (c.scopes id) name ≤ 1

/-- The call uses a null pointer: `toplevel` in `closeScope`, `closeStruct`,
`declareSymbol` and `checkIdentifier`, `outermost` in `defineFunction`. -/
def NullUse (c : Checker) : Operation → Prop
  | Operation.openScope => False
  | Operation.closeScope => c.toplevel = []
  | Operation.openStruct _ => False
  | Operation.closeStruct _ => c.toplevel = []
  | Operation.declareSymbol _ _ _ => c.toplevel = []
  | Operation.defineFunction _ _ => c.outermost = none
  | Operation.checkIdentifier _ => c.toplevel = []

/-- The number of scopes that are open after a sequence of calls that starts with
`depth` open scopes; `none` when a call other than `openScope` and `openStruct`
is made while no scope is open. -/
def openDepth (depth : Nat) : List Operation → Option Nat
  | [] => some depth
  | Operation.openScope :: ops => openDepth (depth + 1) ops
  | Operation.openStruct _ :: ops => openDepth (depth + 1) ops
  | Operation.closeScope :: ops => if depth = 0 then none else openDepth (depth - 1) ops
  | Operation.closeStruct _ :: ops => if depth = 0 then none else openDepth (depth - 1) ops
  | _ :: ops => if depth = 0 then none else openDepth depth ops

/-- The calls of a translation unit `struct node { int data; struct node *next; };
int f(int x) { x; y; }`, after `main` has opened the global scope. -/
def sampleCalls : List Operation :=
  [Operation.openScope,
    Operation.openStruct "node",
    Operation.declareSymbol "data" (Scalar "int" 0) false,
    Operation.declareSymbol "next" (Scalar "node" 1) false,
    Operation.closeStruct "node",
    Operation.defineFunction "f" (Function "int" 0 (some [Scalar "int" 0])),
    Operation.openScope,
    Operation.declareSymbol "x" (Scalar "int" 0) true,
    Operation.checkIdentifier "x",
    Operation.checkIdentifier "y",
    Operation.closeScope,
    Operation.defineFunction "f" (Function "int" 0 (some [Scalar "int" 0]))]

/-! ## The argument loops of a call -/

/-- One step of the two argument loops of `Call::generate`: the call of `generate`
on the argument at an index, or the push of that argument. -/
inductive CallStep where
  | generate (index : Nat)
  | push (index : Nat)
deriving DecidableEq, Repr

/-- The index of the argument that a step works on. -/
def CallStep.index : CallStep → Nat
  | CallStep.generate i => i
  | CallStep.push i => i

/-- A step that pushes. -/
def CallStep.isPush : CallStep → Bool
  | CallStep.generate _ => false
  | CallStep.push _ => true

/-- The steps of the first loop of `Call::generate` over arguments of which the
first has index `i`: the loop runs from the last argument to the first and
calls `generate` under its condition. -/
def prePass (m : Machine) : Nat → List Expression → List CallStep
  | _, [] => []
  | i, a :: rest =>
    prePass m (i + 1) rest ++
      (if m.STACK_ALIGNMENT ≠ m.SIZEOF_REG ∧ m.hasCall a.id = true then [CallStep.generate i]
        else [])

/-- The steps of the second loop of `Call::generate`: from the last argument to the
first, `generate` under the loop's condition and then the push. -/
def pushPass (m : Machine) : Nat → List Expression → List CallStep
  | _, [] => []
  | i, a :: rest =>
    pushPass m (i + 1) rest ++
      ((if m.STACK_ALIGNMENT = m.SIZEOF_REG ∨ m.hasCall a.id = false then [CallStep.generate i]
        else []) ++ [CallStep.push i])

/-- The two statements that end the body of the second loop: the `pushl` of the
argument and `assign(_args[i], nullptr)`. -/
def pushArgument (m : Machine) (a : Expression) (st : GenState) : Option GenState := do
  let (t, st1) ← writeExpression m st a
  some (assign (emit st1 ("\tpushl\t" ++ t)) (some a.id) none)

/-- Running one step on the arguments `args`. -/
def runStep (m : Machine) (args : List Expression) : CallStep → GenState → Option GenState
  | CallStep.generate i, st =>
    match args.get? i with
    | some a => generate m a st
    | none => none
  | CallStep.push i, st =>
    match args.get? i with
    | some a => pushArgument m a st
    | none => none

/-- Running a list of steps in order. -/
def runSteps (m : Machine) (args : List Expression) : List CallStep → GenState → Option GenState
  | [], st => some st
  | s :: rest, st =>
    match runStep m args s st with
    | some st1 => runSteps m args rest st1
    | none => none

/-- The part of `Call::generate` that follows the two loops: the three spills, the
call instruction, the `addl` and the assignment of `eax` to the call. -/
def callTail (m : Machine) (id : NodeId) (expr : Expression) (numBytes : Nat)
    (st3 : GenState) : Option GenState := do
  let st4 ← spillAll m st3
  if (m.type expr.id).isCallback then do
    let st5 ← generate m expr st4
    let st6 ← loadIfNeeded m st5 expr
    let (t, st7) ← writeExpression m st6 expr
    let st8 := assign (emit st7 ("\tcall\t*" ++ t)) (some expr.id) none
    some (callEnd st8 id numBytes)
  else do
    let (t, st5) ← writeExpression m st4 expr
    some (callEnd (emit st5 ("\tcall\t" ++ t)) id numBytes)

/-- A machine with 16-byte stack alignment in which the nodes 2 and 4 contain a
call. -/
def alignedMachine : Machine :=
  { type := fun _ => Scalar "int" 0
    hasCall := fun n => n == 2 || n == 4
    size := fun _ => 4
    STACK_ALIGNMENT := 16
    SIZEOF_REG := 4
    globalPrefix := "" }

/-- The arguments of `f(x, g(), 1, h())`: nodes 1 to 4. -/
def fourArguments : List Expression :=
  [Expression.Identifier 1 "x" (-4),
    Expression.Call 2 (Expression.Identifier 5 "g" 0) [],
    Expression.Number 3 1,
    Expression.Call 4 (Expression.Identifier 6 "h" 0) []]

/-- A machine in which node 1 is a `char` of size 1 and every other node an `int`
of size 4. -/
def charMachine : Machine :=
  { type := fun n => if n = 1 then Scalar "char" 0 else Scalar "int" 0
    hasCall := fun _ => false
    size := fun t => if t.specifier = "char" ∧ t.indirection = 0 then 1 else 4
    STACK_ALIGNMENT := 4
    SIZEOF_REG := 4
    globalPrefix := "" }

/-- The call `f(c)` of a global function `f` on a local `c` at offset -4, which is
node 1. -/
def callWithChar : Expression :=
  Expression.Call 3 (Expression.Identifier 2 "f" 0) [Expression.Identifier 1 "c" (-4)]

/-! ## The spills of a call -/

/-- The bytes that spilling the registers `rs` takes from the stack in the state
`st`: the size of the type of every node that one of them holds. -/
def spilledBytes (m : Machine) (st : GenState) (rs : List Register) : Nat :=
  (rs.map (fun r =>
    match st.node r with
    | some n => m.size (m.type n)
    | none => 0)).sum

/-- The slot that the calls `load(nullptr, eax); load(nullptr, ecx); load(nullptr, edx);`,
run in the state `st`, give to the node that a register holds: each spill
lowers the cursor by the size of the node and takes the new cursor. -/
def spillSlot (m : Machine) (st : GenState) : Register → Int
  | Register.eax => st.offset - spilledBytes m st [Register.eax]
  | Register.ecx => st.offset - spilledBytes m st [Register.eax, Register.ecx]
  | Register.edx => st.offset - spilledBytes m st [Register.eax, Register.ecx, Register.edx]

/-- The stores that the three calls write, in the order of the bank. -/
def spillStores (m : Machine) (st : GenState) : List String :=
  registers.filterMap (fun r =>
    (st.node r).map (fun n => spillLine r (m.size (m.type n)) (spillSlot m st r)))

/-- The call `f(9)`, node 8, of a global function `f`. -/
def callNine : Expression :=
  Expression.Call 8 (Expression.Identifier 6 "f" 0) [Expression.Number 7 9]

/-! ## Procedure generation (`phase6/generator.cpp`) -/

/-- The lines that `Procedure::generate` writes before the body: the label of the
function and the prologue, whose stack adjustment names `<funcname>.size`. -/
def prologue (m : Machine) (name : String) : List String :=
  [m.globalPrefix ++ name ++ ":", "\tpushl\t%ebp", "\tmovl\t%esp, %ebp",
    "\tsubl\t$" ++ name ++ ".size, %esp"]

/-- The lines that `Procedure::generate` writes after the body: an empty line, the
exit label, the epilogue, an empty line, the `.set` directive for the final
value `offset` of the cursor, the `.globl` directive and an empty line. -/
def epilogue (m : Machine) (name : String) (offset : Int) : List String :=
  ["", m.globalPrefix ++ name ++ ".exit:", "\tmovl\t%ebp, %esp", "\tpopl\t%ebp", "\tret", "",
    "\t.set\t" ++ name ++ ".size, " ++ toString (-offset),
    "\t.globl\t" ++ m.globalPrefix ++ name, ""]

/-- The member `Procedure::generate` of phase 6 for the function `name` with the
statements `body`. The member `allocate`, which assigns the offsets of the
parameters and locals, is defined outside the sources: `allocated` is the
value that the call `allocate(offset)` leaves in the cursor, and the offsets
of the symbols are those that the identifier nodes carry. -/
def generateProcedure (m : Machine) (name : String) (allocated : Int) (body : List Statement)
    (st : GenState) : Option GenState := do
  let paramOffset : Int := 2 * (m.SIZEOF_REG : Int)
  let st1 : GenState :=
    { st with offset := allocated, funcname := name, out := st.out ++ prologue m name }
  let st2 ← generateBlock m body st1
  let offset := st2.offset - align m (st2.offset - paramOffset)
  some { st2 with offset := offset, out := st2.out ++ epilogue m name offset }

/-- The machine of `intMachine` with the global prefix `_`. -/
def underscoreMachine : Machine :=
  { intMachine with globalPrefix := "_" }

/-- The body `return 1;`. -/
def returnOne : List Statement :=
  [Statement.Return (Expression.Number 1 1)]

/-! ## Labels, string literals and globals (`phase6/label.cpp`, `phase6/generator.cpp`) -/

/-- The number that a list of decimal digit characters writes. -/
def decodeDigits (digits : List Char) : Nat :=
  digits.foldl (fun acc c => acc * 10 + (c.toNat - 48)) 0

/-- The numbers of the next `k` labels that are constructed when the counter has the
value `counter`. -/
def constructLabels (counter : Nat) : Nat → List Nat
  | 0 => []
  | k + 1 => (constructLabel counter).1 :: constructLabels (constructLabel counter).2 k

/-- The labels that a sequence of `String::operand` calls on the given values
writes, in order, and the state after the last call. -/
def internStrings (st : GenState) : List String → List Nat × GenState
  | [] => ([], st)
  | v :: rest =>
    ((internString st v).1 :: (internStrings (internString st v).2 rest).1,
      (internStrings (internString st v).2 rest).2)

/-- The order of `std::string` keys in the map `strings`: the comparison of two
character sequences, position by position. -/
def charsLess : List Char → List Char → Bool
  | _, [] => false
  | [], _ :: _ => true
  | a :: as, b :: bs => decide (a.toNat < b.toNat) || (a == b && charsLess as bs)

/-- The entries of the map `strings` in the order in which a loop over the map
visits them: by ascending key. -/
def stringEntries (strings : List (String × Nat)) : List (String × Nat) :=
  strings.insertionSort (fun a b => charsLess b.1.toList a.1.toList = false)

/-- The inner loop of `generateGlobals` over the characters of a string value: a
newline is written as a backslash and the letter n, every other character as
it is. -/
def escapeChars : List Char → List Char
  | [] => []
  | ch :: rest =>
    if ch ≠ '\n' then ch :: escapeChars rest else '\\' :: 'n' :: escapeChars rest

/-- The text that `generateGlobals` writes between the quotes for a string value. -/
def escapeNewlines (value : String) : String :=
  String.mk (escapeChars value.toList)

/-- The line that `generateGlobals` writes for one entry of `strings`. -/
def ascizLine (entry : String × Nat) : String :=
  labelText entry.2 ++ ":\t.asciz\t\"" ++ escapeNewlines entry.1 ++ "\""

/-- The function `generateGlobals` of phase 6 on the symbols of the given scope: a
`.comm` line for every symbol that is not a function, the `.data` line and a
line for every entry of `strings`. -/
def generateGlobals (m : Machine) (symbols : Symbols) (st : GenState) : GenState :=
  { st with
    out := st.out ++
      (symbols.filter (fun s => !s.type.isFunction)).map (fun s =>
        "\t.comm\t" ++ m.globalPrefix ++ s.name ++ ", " ++ toString (m.size s.type)) ++
      ["\t.data"] ++ (stringEntries st.strings).map ascizLine }

/-- The string table is well formed below the counter: no value has two entries,
every label in it was constructed before, and no label serves two values. -/
def StringsBelow (st : GenState) : Prop :=
  (st.strings.map Prod.fst).Nodup ∧
  (∀ v l, (v, l) ∈ st.strings → l < st.counter) ∧
  (∀ v w l, (v, l) ∈ st.strings → (w, l) ∈ st.strings → v = w)

/-! ## Tests -/

/-- A line that `load` writes: the store of a spilled value or the move of an
operand into a register. -/
def IsLoadLine (line : String) : Prop :=
  (∃ (r : Register) (n : Nat) (offset : Int), line = spillLine r n offset) ∨
  (∃ (text : String) (r : Register) (n : Nat), line = loadLine text r n)

/-- The comparison `x < 5`, node 9, of the local `x` at offset -4. -/
def lessThanFive : Expression :=
  Expression.LessThan 9 (Expression.Identifier 3 "x" (-4)) (Expression.Number 4 5)

/-! ## Inputs on which the code is examined -/

/-- The statement `x == y + 1;` for locals `x` at offset -4 and `y` at offset -8:
the sum, node 5, is the right operand of the comparison, node 9. -/
def compareWithSum : Statement :=
  Statement.Simple
    (Expression.Equal 9 (Expression.Identifier 3 "x" (-4))
      (Expression.Add 5 (Expression.Identifier 1 "y" (-8)) (Expression.Number 2 1)))

/-! ## Stack frame of phase 5 (`phase5/generator.cpp`) -/

/-- The conversion to `int` of a value that was computed on 32 bits. -/
def toInt32 (x : Int) : Int :=
  (x + 2 ^ 31) % 2 ^ 32 - 2 ^ 31

/-- The loop of the phase-5 `Procedure::generate` over the symbols of the body
scope, from the index `i` on: the first `numParams` symbols receive
`paramOffset`, which then advances by their size; every other symbol
advances `offset` by its size and receives `-offset`. The result is the list
of the offsets assigned, in order, with the final `offset` and `paramOffset`.
The sizes are `unsigned` and the two cursors `int`. -/
def assignOffsets (size : CType → Nat) (numParams : Nat) :
    List Symbol → Nat → Int → Int → List Int × Int × Int
  | [], _, offset, paramOffset => ([], offset, paramOffset)
  | s :: rest, i, offset, paramOffset =>
    if i < numParams then
      ((paramOffset ::
          (assignOffsets size numParams rest (i + 1) offset
            (toInt32 (paramOffset + size s.type))).1),
        (assignOffsets size numParams rest (i + 1) offset
          (toInt32 (paramOffset + size s.type))).2)
    else
      ((toInt32 (-(toInt32 (offset + size s.type))) ::
          (assignOffsets size numParams rest (i + 1) (toInt32 (offset + size s.type))
            paramOffset).1),
        (assignOffsets size numParams rest (i + 1) (toInt32 (offset + size s.type))
          paramOffset).2)

/-- The phase-5 `Procedure::generate` up to the call that generates the body: the
offsets assigned to the symbols of the body scope and the lines of the
prologue; `none` when the assertion of `parameters()` fails or the parameter
list of the function type is null. -/
def procedureFrame (size : CType → Nat) (name : String) (type : CType)
    (symbols : List Symbol) : Option (List Int × List String) :=
  match type.parameters with
  | none => none
  | some none => none
  | some (some parameters) =>
    let r := assignOffsets size parameters.length symbols 0 0 8
    some (r.1,
      [name ++ ":", "# function prologue", "\tpushl\t%ebp", "\tmovl\t%esp, %ebp",
        "\tsubl\t$" ++ toString r.2.1 ++ ", %esp"])

/-- The phase-5 `Identifier::operand` for a symbol with the given name and offset. -/
def identifierOperand (name : String) (offset : Int) : String :=
  if offset = 0 then name else toString offset ++ "(%ebp)"

/-- Modelled from the spec: `Type::size` of the phase-5 `Type.h`, which is not among
the sources. "Primitive size by specifier, any indirection>0 is pointer-sized,
Array size = element size × count": 1 byte for `char`, 4 bytes for `int` and
for pointers; the size of a structure, the sum of its field sizes, is given by
`structSize`. -/
def typeSize (structSize : String → Nat) (t : CType) : Nat :=
  let element :=
    if t.indirection > 0 then 4
    else if t.specifier = "char" then 1
    else if t.specifier = "int" then 4
    else structSize t.specifier
  if t.isArray then element * t.length else element

/-- The sum of the sizes of a list of symbols. -/
def totalSize (size : CType → Nat) (symbols : List Symbol) : Nat :=
  (symbols.map (fun s => size s.type)).sum

/-! ## Expression parser (`phase4/parser.cpp`) -/

/-- Modelled from the spec: the token codes of `tokens.h`, which is not among the
sources. The named tokens are those that the parser of prefix expressions
tests for; a token of a single character has the character as its code, and
`other` stands for every named token that this part of the parser does not
mention. -/
inductive Token where
  | DONE
  | INT
  | CHAR
  | STRUCT
  | SIZEOF
  | ID
  | NUM
  | STRING
  | CHARACTER
  | ARROW
  | symbol (c : Char)
  | other (code : Nat)
  deriving DecidableEq, Repr

/-- The state that the parser works on: the static variables `lookahead` and
`lexbuf` of `parser.cpp`, the tokens that the lexer has yet to deliver, each
with its text, the state of the checker, and the diagnostics reported so
far. -/
structure ParserState where
  lookahead : Token
  lexbuf : String
  input : List (Token × String)
  checker : Checker
  diagnostics : List Diagnostic

/-- How a call of a parser function ends: it returns a value, or the process
has ended in `exit(EXIT_FAILURE)`, or a null pointer was dereferenced or an
assertion failed, or the fuel of the model ran out. -/
inductive Outcome (α : Type) where
  | returned (value : α) (st : ParserState)
  | exited (st : ParserState)
  | crashed
  | unfinished

/-- Sequencing: the rest of a function body runs only when the call returned. -/
def Outcome.bind {α β : Type} (x : Outcome α) (f : α → ParserState → Outcome β) :
    Outcome β :=
  match x with
  | Outcome.returned a st => f a st
  | Outcome.exited st => Outcome.exited st
  | Outcome.crashed => Outcome.crashed
  | Outcome.unfinished => Outcome.unfinished

/-- Modelled from the spec: the assignment `lookahead = lexan(lexbuf)`; the lexer of
phase 4 is not among the sources. It delivers the next token of the input
with its text in `lexbuf`, and `DONE` at the end of the input. -/
def lexan (st : ParserState) : ParserState :=
  match st.input with
  | [] => { st with lookahead := Token.DONE, lexbuf := "" }
  | (t, text) :: rest => { st with lookahead := t, lexbuf := text, input := rest }

/-- The function `error` of `parser.cpp` up to its call of `exit`: the report of
the syntax error. -/
def Parser.error (st : ParserState) : ParserState :=
  if st.lookahead = Token.DONE then
    { st with diagnostics := st.diagnostics ++ report "syntax error at end of file" "" }
  else
    { st with diagnostics := st.diagnostics ++ report "syntax error at '%s'" st.lexbuf }

/-- The function `match` of `parser.cpp`. -/
def Parser.matchToken (t : Token) (st : ParserState) : Outcome Unit :=
  if st.lookahead ≠ t then Outcome.exited (Parser.error st)
  else Outcome.returned () (lexan st)

/-- The function `identifier` of `parser.cpp`. -/
def Parser.identifier (st : ParserState) : Outcome String :=
  (Parser.matchToken Token.ID st).bind fun _ st1 => Outcome.returned st.lexbuf st1

/-- The function `isSpecifier` of `parser.cpp`. -/
def Parser.isSpecifier (token : Token) : Bool :=
  token == Token.INT || token == Token.CHAR || token == Token.STRUCT

/-- The function `specifier` of `parser.cpp`. -/
def Parser.specifier (st : ParserState) : Outcome String :=
  if st.lookahead = Token.INT then
    (Parser.matchToken Token.INT st).bind fun _ st1 => Outcome.returned "int" st1
  else if st.lookahead = Token.CHAR then
    (Parser.matchToken Token.CHAR st).bind fun _ st1 => Outcome.returned "char" st1
  else
    (Parser.matchToken Token.STRUCT st).bind fun _ st1 => Parser.identifier st1

/-- The loop of `pointers`, with the value of `count`, an `unsigned`. -/
def Parser.pointersLoop : Nat → Nat → ParserState → Outcome Nat
  | 0, _, _ => Outcome.unfinished
  | fuel + 1, count, st =>
    if st.lookahead = Token.symbol '*' then
      (Parser.matchToken (Token.symbol '*') st).bind fun _ st1 =>
        Parser.pointersLoop fuel ((count + 1) % 2 ^ 32) st1
    else Outcome.returned count st

/-- The function `pointers` of `parser.cpp`. -/
def Parser.pointers (fuel : Nat) (st : ParserState) : Outcome Nat :=
  Parser.pointersLoop fuel 0 st

/-- Adding the diagnostics of a check to those reported so far. -/
def ParserState.reported (st : ParserState) (ds : List Diagnostic) : ParserState :=
  { st with diagnostics := st.diagnostics ++ ds }

/-- The function `primaryExpression` of `parser.cpp`. The reference parameter
`lvalue` is passed in and returned with the type. The parser of full
expressions, `expression`, is a parameter of the model. -/
def Parser.primaryExpression (expression : Bool → ParserState → Outcome (CType × Bool))
    (lparen : Bool) (lvalue : Bool) (st : ParserState) : Outcome (CType × Bool) :=
  if lparen then
    (expression lvalue st).bind fun r st1 =>
      (Parser.matchToken (Token.symbol ')') st1).bind fun _ st2 => Outcome.returned r st2
  else if st.lookahead = Token.CHARACTER then
    (Parser.matchToken Token.CHARACTER st).bind fun _ st1 =>
      Outcome.returned (Scalar "int" 0, false) st1
  else if st.lookahead = Token.STRING then
    (Parser.matchToken Token.STRING st).bind fun _ st1 =>
      Outcome.returned
        (Array "char" 0 ((st1.lexbuf.utf8ByteSize + 2 ^ 32 - 2) % 2 ^ 32), false) st1
  else if st.lookahead = Token.NUM then
    (Parser.matchToken Token.NUM st).bind fun _ st1 =>
      Outcome.returned (Scalar "int" 0, false) st1
  else if st.lookahead = Token.ID then
    (Parser.identifier st).bind fun name st1 =>
      match checkIdentifier st1.checker name with
      | none => Outcome.crashed
      | some (symbol, c, ds) =>
        Outcome.returned (symbol.type, symbol.type.isScalar || symbol.type.isCallback)
          { st1.reported ds with checker := c }
  else Outcome.exited (Parser.error st)

/-- The inner loop of `postfixExpression` over the arguments that follow a comma. -/
def Parser.argumentsLoop (expression : Bool → ParserState → Outcome (CType × Bool)) :
    Nat → Parameters → Bool → ParserState → Outcome (Parameters × Bool)
  | 0, _, _, _ => Outcome.unfinished
  | fuel + 1, args, lvalue, st =>
    if st.lookahead = Token.symbol ',' then
      (Parser.matchToken (Token.symbol ',') st).bind fun _ st1 =>
        (expression lvalue st1).bind fun r st2 =>
          Parser.argumentsLoop expression fuel (args ++ [r.1]) r.2 st2
    else Outcome.returned (args, lvalue) st

/-- The loop `while (1)` of `postfixExpression`, with the values of `left`, of the
argument list `args` and of `lvalue`. -/
def Parser.postfixLoop (expression : Bool → ParserState → Outcome (CType × Bool)) :
    Nat → CType → Parameters → Bool → ParserState → Outcome (CType × Bool)
  | 0, _, _, _, _ => Outcome.unfinished
  | fuel + 1, left, args, lvalue, st =>
    if st.lookahead = Token.symbol '[' then
      (Parser.matchToken (Token.symbol '[') st).bind fun _ st1 =>
        (expression lvalue st1).bind fun r st2 =>
          let checked := checkArray st2.checker.fieldTable left r.1
          (Parser.matchToken (Token.symbol ']') (st2.reported checked.2)).bind fun _ st3 =>
            Parser.postfixLoop expression fuel checked.1 args true st3
    else if st.lookahead = Token.symbol '(' then
      (Parser.matchToken (Token.symbol '(') st).bind fun _ st1 =>
        (if st1.lookahead ≠ Token.symbol ')' then
          (expression lvalue st1).bind fun r st2 =>
            Parser.argumentsLoop expression fuel (args ++ [r.1]) r.2 st2
        else Outcome.returned (args, lvalue) st1).bind fun a st3 =>
          (Parser.matchToken (Token.symbol ')') st3).bind fun _ st4 =>
            match checkCall left a.1 with
            | none => Outcome.crashed
            | some checked =>
              Parser.postfixLoop expression fuel checked.1 a.1 false
                (st4.reported checked.2)
    else if st.lookahead = Token.symbol '.' then
      (Parser.matchToken (Token.symbol '.') st).bind fun _ st1 =>
        (Parser.identifier st1).bind fun id st2 =>
          let checked := checkDirectStrcutField st2.checker.fieldTable left id
          Parser.postfixLoop expression fuel checked.1 args (!checked.1.isArray)
            (st2.reported checked.2)
    else if st.lookahead = Token.ARROW then
      (Parser.matchToken Token.ARROW st).bind fun _ st1 =>
        (Parser.identifier st1).bind fun id st2 =>
          let checked := checkIndirectStructure st2.checker.fieldTable left id
          Parser.postfixLoop expression fuel checked.1 args (!checked.1.isArray)
            (st2.reported checked.2)
    else Outcome.returned (left, lvalue) st

/-- The function `postfixExpression` of `parser.cpp`. -/
def Parser.postfixExpression (expression : Bool → ParserState → Outcome (CType × Bool))
    (fuel : Nat) (lparen : Bool) (lvalue : Bool) (st : ParserState) :
    Outcome (CType × Bool) :=
  (Parser.primaryExpression expression lparen lvalue st).bind fun r st1 =>
    Parser.postfixLoop expression fuel r.1 [] r.2 st1

/-- The function `prefixExpression` of `parser.cpp`. -/
def Parser.prefixExpression (expression : Bool → ParserState → Outcome (CType × Bool)) :
    Nat → Bool → ParserState → Outcome (CType × Bool)
  | 0, _, _ => Outcome.unfinished
  | fuel + 1, lvalue, st =>
    if st.lookahead = Token.symbol '!' then
      (Parser.matchToken (Token.symbol '!') st).bind fun _ st1 =>
        (Parser.prefixExpression expression fuel lvalue st1).bind fun r st2 =>
          let checked := checkNot r.1
          Outcome.returned (checked.1, false) (st2.reported checked.2)
    else if st.lookahead = Token.symbol '-' then
      (Parser.matchToken (Token.symbol '-') st).bind fun _ st1 =>
        (Parser.prefixExpression expression fuel lvalue st1).bind fun r st2 =>
          let checked := checkNeg r.1
          Outcome.returned (checked.1, false) (st2.reported checked.2)
    else if st.lookahead = Token.symbol '*' then
      (Parser.matchToken (Token.symbol '*') st).bind fun _ st1 =>
        (Parser.prefixExpression expression fuel lvalue st1).bind fun r st2 =>
          let checked := checkDeref st2.checker.fieldTable r.1
          Outcome.returned (checked.1, true) (st2.reported checked.2)
    else if st.lookahead = Token.symbol '&' then
      (Parser.matchToken (Token.symbol '&') st).bind fun _ st1 =>
        (Parser.prefixExpression expression fuel lvalue st1).bind fun r st2 =>
          let checked := checkAddress r.1 r.2
          Outcome.returned (checked.1, false) (st2.reported checked.2)
    else if st.lookahead = Token.SIZEOF then
      (Parser.matchToken Token.SIZEOF st).bind fun _ st1 =>
        (if st1.lookahead = Token.symbol '(' then
          (Parser.matchToken (Token.symbol '(') st1).bind fun _ st2 =>
            if Parser.isSpecifier st2.lookahead then
              (Parser.specifier st2).bind fun typespec st3 =>
                (Parser.pointers fuel st3).bind fun indirection st4 =>
                  (Parser.prefixExpression expression fuel lvalue st4).bind fun right st5 =>
                    let checked :=
                      checkTypeCast st5.checker.fieldTable (Scalar typespec indirection)
                        right.1
                    (Parser.matchToken (Token.symbol ')') (st5.reported checked.2)).bind
                      fun _ st6 => Outcome.returned (checked.1, false) st6
            else Parser.postfixExpression expression fuel true lvalue st2
        else
          (Parser.prefixExpression expression fuel lvalue st1).bind fun r st2 =>
            Outcome.returned (r.1, false) st2).bind fun r st7 =>
          let checked := checkSizeof st7.checker.fieldTable r.1
          Outcome.returned (checked.1, r.2) (st7.reported checked.2)
    else if st.lookahead = Token.symbol '(' then
      (Parser.matchToken (Token.symbol '(') st).bind fun _ st1 =>
        if Parser.isSpecifier st1.lookahead then
          (Parser.specifier st1).bind fun typespec st2 =>
            (Parser.pointers fuel st2).bind fun indirection st3 =>
              (Parser.matchToken (Token.symbol ')') st3).bind fun _ st4 =>
                (Parser.prefixExpression expression fuel lvalue st4).bind fun right st5 =>
                  let checked :=
                    checkTypeCast st5.checker.fieldTable (Scalar typespec indirection)
                      right.1
                  Outcome.returned (checked.1, false) (st5.reported checked.2)
        else Parser.postfixExpression expression fuel true lvalue st1
    else Parser.postfixExpression expression fuel false lvalue st

/-- The state of the parser in front of a token sequence: the first token is the
lookahead, or `DONE` for the empty sequence. -/
def ParserState.start (tokens : List (Token × String)) (c : Checker)
    (ds : List Diagnostic) : ParserState :=
  lexan { lookahead := Token.DONE, lexbuf := "", input := tokens, checker := c,
          diagnostics := ds }

/-- The tokens of `n` asterisks. -/
def stars (n : Nat) : List (Token × String) :=
  List.replicate n (Token.symbol '*', "*")

/-! ## Statements whose spills follow a reset of the cursor -/

/-- The sum `a + b`, node 3, of the locals `a` at offset -4 and `b` at offset -8. -/
def sumAB : Expression :=
  Expression.Add 3 (Expression.Identifier 1 "a" (-4)) (Expression.Identifier 2 "b" (-8))

/-- The sum `c + d`, node 6, of the locals `c` at offset -12 and `d` at offset -16. -/
def sumCD : Expression :=
  Expression.Add 6 (Expression.Identifier 4 "c" (-12)) (Expression.Identifier 5 "d" (-16))

/-- The sum `e + f`, node 9, of the locals `e` at offset -20 and `f` at offset -24. -/
def sumEF : Expression :=
  Expression.Add 9 (Expression.Identifier 7 "e" (-20)) (Expression.Identifier 8 "f" (-24))

/-- The sum `g + h`, node 12, of the locals `g` at offset -28 and `h` at offset -32. -/
def sumGH : Expression :=
  Expression.Add 12 (Expression.Identifier 10 "g" (-28)) (Expression.Identifier 11 "h" (-32))

/-- The statement `x = (a + b) + ((c + d) + ((e + f) + (g + h)));` for a local `x` at
offset -36, the last of nine `int` locals: when `g + h` is computed, the sums
`a + b`, `c + d` and `e + f` hold the three registers. -/
def assignDeepSum : Statement :=
  Statement.Assignment (Expression.Identifier 16 "x" (-36))
    (Expression.Add 15 sumAB (Expression.Add 14 sumCD (Expression.Add 13 sumEF sumGH)))

/-- The state in which `Assignment::generate` has set the cursor for `assignDeepSum` and
the sums `a + b`, `c + d` and `e + f` have been generated, in this order. -/
def threeSumsLive : Option GenState :=
  ((generate intMachine sumAB
      { GenState.initial (-36) "f" with offset := (findBaseAndOffset
          (Expression.Identifier 16 "x" (-36))).2 }).bind
    (generate intMachine sumCD)).bind (generate intMachine sumEF)

/-- The statement `(y + 1) + f(&x);` for the locals `x` at offset -4 and `y` at offset
-8 and a global function `f`: the sum `y + 1`, node 3, is live in `eax` when
the call is generated. -/
def sumAcrossAddressCall : Statement :=
  Statement.Simple
    (Expression.Add 9
      (Expression.Add 3 (Expression.Identifier 1 "y" (-8)) (Expression.Number 2 1))
      (Expression.Call 8 (Expression.Identifier 4 "f" 0)
        [Expression.Address 6 (Expression.Identifier 5 "x" (-4))]))

-- END OF DEFINITIONS

/-! ## Properties of the semantic checker -/

theorem isError_error : error.isError = true := rfl

theorem isError_integer : integer.isError = false := rfl

theorem isError_Scalar (s : String) (n : Nat) : (Scalar s n).isError = false := rfl

theorem isError_promote (t : CType) (h : t.isError = false) : t.promote.isError = false := by
  unfold CType.promote
  split
  · rfl
  · exact h

theorem oneDiagnostic_ok (t : CType) (h : t.isError = false) :
    OneDiagnosticIffError (t, []) := by
  simp [OneDiagnosticIffError, h]

theorem oneDiagnostic_report (f a : String) :
    OneDiagnosticIffError (error, report f a) := by
  simp [OneDiagnosticIffError, report, isError_error]

theorem findField_mem (l : Symbols) (id : String) (t : CType)
    (h : findField l id = some t) : ∃ s ∈ l, s.type = t := by
  induction l with
  | nil => simp [findField] at h
  | cons a rest ih =>
    unfold findField at h
    split at h
    · exact ⟨a, by simp, by simpa using h⟩
    · obtain ⟨s, hs, ht⟩ := ih h
      exact ⟨s, by simp [hs], ht⟩

theorem findField_not_error (fields : Fields) (hf : NoErrorField fields) (tag : String)
    (scope : Scope) (hs : Fields.find fields tag = some scope) (id : String) (t : CType)
    (h : findField scope.symbols id = some t) : t.isError = false := by
  obtain ⟨s, hmem, ht⟩ := findField_mem _ _ _ h
  rw [← ht]
  exact hf tag scope hs s hmem

theorem noErrorField_nodeFields : NoErrorField nodeFields := by
  intro tag scope h s hs
  unfold nodeFields Fields.find at h
  split at h
  · cases h
    simp only [Scope.symbols, List.mem_cons, List.mem_singleton, List.not_mem_nil,
      or_false] at hs
    rcases hs with rfl | rfl <;> rfl
  · simp [Fields.find] at h

theorem checkLogicalOr_sound (left right : CType)
    (hl : left.isError = false) (hr : right.isError = false) :
    OneDiagnosticIffError (checkLogicalOr left right) := by
  have h1 := isError_promote left hl
  have h2 := isError_promote right hr
  unfold checkLogicalOr
  simp only [hl, hr, Bool.or_self, Bool.false_eq_true, if_false]
  split_ifs <;> first
    | exact oneDiagnostic_report _ _
    | exact oneDiagnostic_ok _ (by first | assumption | rfl)

theorem checkLogicalAnd_sound (left right : CType)
    (hl : left.isError = false) (hr : right.isError = false) :
    OneDiagnosticIffError (checkLogicalAnd left right) := by
  have h1 := isError_promote left hl
  have h2 := isError_promote right hr
  unfold checkLogicalAnd
  simp only [hl, hr, Bool.or_self, Bool.false_eq_true, if_false]
  split_ifs <;> first
    | exact oneDiagnostic_report _ _
    | exact oneDiagnostic_ok _ (by first | assumption | rfl)

theorem checkEquality_sound (left right : CType)
    (hl : left.isError = false) (hr : right.isError = false) :
    OneDiagnosticIffError (checkEquality left right) := by
  have h1 := isError_promote left hl
  have h2 := isError_promote right hr
  unfold checkEquality
  simp only [hl, hr, Bool.or_self, Bool.false_eq_true, if_false]
  split_ifs <;> first
    | exact oneDiagnostic_report _ _
    | exact oneDiagnostic_ok _ (by first | assumption | rfl)

theorem checkInequality_sound (left right : CType)
    (hl : left.isError = false) (hr : right.isError = false) :
    OneDiagnosticIffError (checkInequality left right) := by
  have h1 := isError_promote left hl
  have h2 := isError_promote right hr
  unfold checkInequality
  simp only [hl, hr, Bool.or_self, Bool.false_eq_true, if_false]
  split_ifs <;> first
    | exact oneDiagnostic_report _ _
    | exact oneDiagnostic_ok _ (by first | assumption | rfl)

theorem checkLessThan_sound (left right : CType)
    (hl : left.isError = false) (hr : right.isError = false) :
    OneDiagnosticIffError (checkLessThan left right) := by
  have h1 := isError_promote left hl
  have h2 := isError_promote right hr
  unfold checkLessThan
  simp only [hl, hr, Bool.or_self, Bool.false_eq_true, if_false]
  split_ifs <;> first
    | exact oneDiagnostic_report _ _
    | exact oneDiagnostic_ok _ (by first | assumption | rfl)

theorem checkGreaterThan_sound (left right : CType)
    (hl : left.isError = false) (hr : right.isError = false) :
    OneDiagnosticIffError (checkGreaterThan left right) := by
  have h1 := isError_promote left hl
  have h2 := isError_promote right hr
  unfold checkGreaterThan
  simp only [hl, hr, Bool.or_self, Bool.false_eq_true, if_false]
  split_ifs <;> first
    | exact oneDiagnostic_report _ _
    | exact oneDiagnostic_ok _ (by first | assumption | rfl)

theorem checkLessOrEqual_sound (left right : CType)
    (hl : left.isError = false) (hr : right.isError = false) :
    OneDiagnosticIffError (checkLessOrEqual left right) := by
  have h1 := isError_promote left hl
  have h2 := isError_promote right hr
  unfold checkLessOrEqual
  simp only [hl, hr, Bool.or_self, Bool.false_eq_true, if_false]
  split_ifs <;> first
    | exact oneDiagnostic_report _ _
    | exact oneDiagnostic_ok _ (by first | assumption | rfl)

theorem checkGreaterOrEqual_sound (left right : CType)
    (hl : left.isError = false) (hr : right.isError = false) :
    OneDiagnosticIffError (checkGreaterOrEqual left right) := by
  have h1 := isError_promote left hl
  have h2 := isError_promote right hr
  unfold checkGreaterOrEqual
  simp only [hl, hr, Bool.or_self, Bool.false_eq_true, if_false]
  split_ifs <;> first
    | exact oneDiagnostic_report _ _
    | exact oneDiagnostic_ok _ (by first | assumption | rfl)

theorem checkMultiply_sound (left right : CType)
    (hl : left.isError = false) (hr : right.isError = false) :
    OneDiagnosticIffError (checkMultiply left right) := by
  have h1 := isError_promote left hl
  have h2 := isError_promote right hr
  unfold checkMultiply
  simp only [hl, hr, Bool.or_self, Bool.false_eq_true, if_false]
  split_ifs <;> first
    | exact oneDiagnostic_report _ _
    | exact oneDiagnostic_ok _ (by first | assumption | rfl)

theorem checkDivision_sound (left right : CType)
    (hl : left.isError = false) (hr : right.isError = false) :
    OneDiagnosticIffError (checkDivision left right) := by
  have h1 := isError_promote left hl
  have h2 := isError_promote right hr
  unfold checkDivision
  simp only [hl, hr, Bool.or_self, Bool.false_eq_true, if_false]
  split_ifs <;> first
    | exact oneDiagnostic_report _ _
    | exact oneDiagnostic_ok _ (by first | assumption | rfl)

theorem checkPercent_sound (left right : CType)
    (hl : left.isError = false) (hr : right.isError = false) :
    OneDiagnosticIffError (checkPercent left right) := by
  have h1 := isError_promote left hl
  have h2 := isError_promote right hr
  unfold checkPercent
  simp only [hl, hr, Bool.or_self, Bool.false_eq_true, if_false]
  split_ifs <;> first
    | exact oneDiagnostic_report _ _
    | exact oneDiagnostic_ok _ (by first | assumption | rfl)

theorem checkAddition_sound (fields : Fields) (left right : CType)
    (hl : left.isError = false) (hr : right.isError = false) :
    OneDiagnosticIffError (checkAddition fields left right) := by
  have h1 := isError_promote left hl
  have h2 := isError_promote right hr
  unfold checkAddition
  simp only [hl, hr, Bool.or_self, Bool.false_eq_true, if_false]
  split_ifs <;> first
    | exact oneDiagnostic_report _ _
    | exact oneDiagnostic_ok _ (by first | assumption | rfl)

theorem checkSubtraction_sound (fields : Fields) (left right : CType)
    (hl : left.isError = false) (hr : right.isError = false) :
    OneDiagnosticIffError (checkSubtraction fields left right) := by
  have h1 := isError_promote left hl
  have h2 := isError_promote right hr
  unfold checkSubtraction
  simp only [hl, hr, Bool.or_self, Bool.false_eq_true, if_false]
  split_ifs <;> first
    | exact oneDiagnostic_report _ _
    | exact oneDiagnostic_ok _ (by first | assumption | rfl)

theorem checkTypeCast_sound (fields : Fields) (left right : CType)
    (hl : left.isError = false) (hr : right.isError = false) :
    OneDiagnosticIffError (checkTypeCast fields left right) := by
  have h1 := isError_promote left hl
  have h2 := isError_promote right hr
  unfold checkTypeCast
  simp only [hl, hr, Bool.or_self, Bool.false_eq_true, if_false]
  split_ifs <;> first
    | exact oneDiagnostic_report _ _
    | exact oneDiagnostic_ok _ (by assumption)

theorem checkArray_sound (fields : Fields) (left right : CType)
    (hl : left.isError = false) (hr : right.isError = false) :
    OneDiagnosticIffError (checkArray fields left right) := by
  have h1 := isError_promote left hl
  have h2 := isError_promote right hr
  unfold checkArray
  simp only [hl, hr, Bool.or_self, Bool.false_eq_true, if_false]
  split_ifs <;> first
    | exact oneDiagnostic_report _ _
    | exact oneDiagnostic_ok _ (by first | assumption | rfl)

theorem checkNot_sound (expr : CType) (he : expr.isError = false) :
    OneDiagnosticIffError (checkNot expr) := by
  have h1 := isError_promote expr he
  unfold checkNot
  simp only [he, Bool.false_eq_true, if_false]
  split_ifs <;> first
    | exact oneDiagnostic_report _ _
    | exact oneDiagnostic_ok _ (by first | assumption | rfl)

theorem checkNeg_sound (expr : CType) (he : expr.isError = false) :
    OneDiagnosticIffError (checkNeg expr) := by
  have h1 := isError_promote expr he
  unfold checkNeg
  simp only [he, Bool.false_eq_true, if_false]
  split_ifs <;> first
    | exact oneDiagnostic_report _ _
    | exact oneDiagnostic_ok _ (by first | assumption | rfl)

theorem checkConditional_sound (expr : CType) (he : expr.isError = false) :
    OneDiagnosticIffError (checkConditional expr) := by
  have h1 := isError_promote expr he
  unfold checkConditional
  simp only [he, Bool.false_eq_true, if_false]
  split_ifs <;> first
    | exact oneDiagnostic_report _ _
    | exact oneDiagnostic_ok _ (by assumption)

theorem checkDeref_sound (fields : Fields) (expr : CType) (he : expr.isError = false) :
    OneDiagnosticIffError (checkDeref fields expr) := by
  have h1 := isError_promote expr he
  unfold checkDeref
  simp only [he, Bool.false_eq_true, if_false]
  split_ifs <;> first
    | exact oneDiagnostic_report _ _
    | exact oneDiagnostic_ok _ (by first | assumption | rfl)

theorem checkSizeof_sound (fields : Fields) (expr : CType) (he : expr.isError = false) :
    OneDiagnosticIffError (checkSizeof fields expr) := by
  have h1 := isError_promote expr he
  unfold checkSizeof
  simp only [he, Bool.false_eq_true, if_false]
  split_ifs <;> first
    | exact oneDiagnostic_report _ _
    | exact oneDiagnostic_ok _ (by first | assumption | rfl)

theorem checkAddress_sound (expr : CType) (lvalue : Bool) (he : expr.isError = false) :
    OneDiagnosticIffError (checkAddress expr lvalue) := by
  unfold checkAddress
  simp only [he, Bool.false_eq_true, if_false]
  split_ifs <;> first
    | exact oneDiagnostic_report _ _
    | exact oneDiagnostic_ok _ (by first | assumption | rfl)

theorem checkReturn_sound (expr type : CType)
    (he : expr.isError = false) (ht : type.isError = false) :
    OneDiagnosticIffError (checkReturn expr type) := by
  unfold checkReturn
  simp only [he, ht, Bool.or_self, Bool.false_eq_true, if_false]
  split_ifs <;> first
    | exact oneDiagnostic_report _ _
    | exact oneDiagnostic_ok _ (by assumption)

theorem checkAssignment_sound (left right : CType) (lvalue : Bool)
    (hl : left.isError = false) (hr : right.isError = false) :
    OneDiagnosticIffError (checkAssignment left right lvalue) := by
  unfold checkAssignment
  simp only [hl, hr, Bool.or_self, Bool.false_eq_true, if_false]
  split_ifs <;> first
    | exact oneDiagnostic_report _ _
    | exact oneDiagnostic_ok _ (by assumption)

theorem checkCall_sound (left : CType) (args : Parameters) (hl : left.isError = false)
    (r : CType × List Diagnostic) (h : checkCall left args = some r) :
    OneDiagnosticIffError r := by
  unfold checkCall at h
  simp only [hl, Bool.false_eq_true, if_false] at h
  split_ifs at h
  · cases h
    exact oneDiagnostic_report _ _
  · cases h
    exact oneDiagnostic_report _ _
  · split at h
    · cases h
    · split_ifs at h <;> cases h <;> first
        | exact oneDiagnostic_report _ _
        | exact oneDiagnostic_ok _ rfl
    · cases h
      exact oneDiagnostic_ok _ rfl

/-- A callee that is not a callback lets `checkCall` return. -/
theorem checkCall_returns (left : CType) (args : Parameters)
    (hc : left.isCallback = false) : (checkCall left args).isSome = true := by
  unfold checkCall
  split_ifs with h1 h2 h3
  · rfl
  · rfl
  · rfl
  · have hf : left.kind = Kind.FUNCTION := by
      simp only [hc, Bool.or_false, Bool.not_eq_true, Bool.not_eq_eq_eq_not, Bool.not_true,
        Bool.not_false] at h2
      simpa [CType.isFunction] using h2
    simp only [CType.parameters, hf, if_true]
    cases left._parameters with
    | none => rfl
    | some formals => simp only; split_ifs <;> rfl

theorem checkDirectStrcutField_sound (fields : Fields) (hf : NoErrorField fields)
    (left : CType) (id : String) (hl : left.isError = false) :
    OneDiagnosticIffError (checkDirectStrcutField fields left id) := by
  unfold checkDirectStrcutField
  simp only [hl, Bool.false_eq_true, if_false]
  split_ifs
  · split
    · next scope hs =>
      split
      · next t ht => exact oneDiagnostic_ok _ (findField_not_error fields hf _ scope hs id t ht)
      · exact oneDiagnostic_report _ _
    · exact oneDiagnostic_report _ _
  · exact oneDiagnostic_report _ _

theorem checkIndirectStructure_sound (fields : Fields) (hf : NoErrorField fields)
    (left : CType) (id : String) (hl : left.isError = false) :
    OneDiagnosticIffError (checkIndirectStructure fields left id) := by
  unfold checkIndirectStructure
  simp only [hl, Bool.false_eq_true, if_false]
  split_ifs
  · split
    · next scope hs =>
      split
      · next t ht => exact oneDiagnostic_ok _ (findField_not_error fields hf _ scope hs id t ht)
      · exact oneDiagnostic_report _ _
    · exact oneDiagnostic_report _ _
  · exact oneDiagnostic_report _ _
  · exact oneDiagnostic_report _ _

/-! ### Error operands -/

/-- Every check function other than `checkCall` with an Error argument returns the
Error type silently as soon as one operand is the Error type; `checkCall` does so
for an Error callee. -/
theorem error_operand_silent (fields : Fields) (left right : CType) (args : Parameters)
    (id : String) (lvalue : Bool) (h : left.isError = true ∨ right.isError = true) :
    checkLogicalOr left right = (error, []) ∧ checkLogicalAnd left right = (error, []) ∧
    checkEquality left right = (error, []) ∧ checkInequality left right = (error, []) ∧
    checkLessThan left right = (error, []) ∧ checkGreaterThan left right = (error, []) ∧
    checkLessOrEqual left right = (error, []) ∧ checkGreaterOrEqual left right = (error, []) ∧
    checkAddition fields left right = (error, []) ∧
    checkSubtraction fields left right = (error, []) ∧
    checkMultiply left right = (error, []) ∧ checkDivision left right = (error, []) ∧
    checkPercent left right = (error, []) ∧ checkTypeCast fields left right = (error, []) ∧
    checkArray fields left right = (error, []) ∧ checkReturn left right = (error, []) ∧
    checkAssignment left right lvalue = (error, []) ∧
    (left.isError = true →
      checkNot left = (error, []) ∧ checkNeg left = (error, []) ∧
      checkDeref fields left = (error, []) ∧ checkAddress left lvalue = (error, []) ∧
      checkSizeof fields left = (error, []) ∧ checkConditional left = (error, []) ∧
      checkDirectStrcutField fields left id = (error, []) ∧
      checkIndirectStructure fields left id = (error, []) ∧
      checkCall left args = some (error, [])) := by
  have hor : (left.isError || right.isError) = true := by
    rcases h with h | h <;> simp [h]
  refine ⟨?_, ?_, ?_, ?_, ?_, ?_, ?_, ?_, ?_, ?_, ?_, ?_, ?_, ?_, ?_, ?_, ?_, ?_⟩
  · simp [checkLogicalOr, hor]
  · simp [checkLogicalAnd, hor]
  · simp [checkEquality, hor]
  · simp [checkInequality, hor]
  · simp [checkLessThan, hor]
  · simp [checkGreaterThan, hor]
  · simp [checkLessOrEqual, hor]
  · simp [checkGreaterOrEqual, hor]
  · simp [checkAddition, hor]
  · simp [checkSubtraction, hor]
  · simp [checkMultiply, hor]
  · simp [checkDivision, hor]
  · simp [checkPercent, hor]
  · simp [checkTypeCast, hor]
  · simp [checkArray, hor]
  · simp [checkReturn, hor]
  · simp [checkAssignment, hor]
  · intro hl
    refine ⟨?_, ?_, ?_, ?_, ?_, ?_, ?_, ?_, ?_⟩
    · simp [checkNot, hl]
    · simp [checkNeg, hl]
    · simp [checkDeref, hl]
    · simp [checkAddress, hl]
    · simp [checkSizeof, hl]
    · simp [checkConditional, hl]
    · simp [checkDirectStrcutField, hl]
    · simp [checkIndirectStructure, hl]
    · simp [checkCall, hl]

/-- C1 (the code departs from the claim): `checkCall` tests only its callee for the
Error type. For a callee of Function type with an unknown parameter list and the
single argument of Error type, it returns the Error type but reports one
`invalid arguments to called function` diagnostic, where the claim requires
silence. -/
theorem checkCall_error_argument_reports :
    checkCall (Function "int" 0 none) [error] = some (error, [⟨invalidArgs, ""⟩]) ∧
      error.isError = true := by
  exact ⟨rfl, rfl⟩

/-! ### Addition -/

/-- C2 (the code departs from the claim): the sum of two `int *` operands is accepted.
`checkAddition` returns the right operand's type and reports nothing, where the
claim requires the Error type and one `invalid operands to binary +` diagnostic. -/
theorem checkAddition_pointer_pointer_accepted :
    checkAddition [] (Scalar "int" 1) (Scalar "int" 1) = (Scalar "int" 1, []) ∧
      (Scalar "int" 1).promote.isPointer = true := by
  exact ⟨rfl, rfl⟩

/-- Two operands that promote to pointers never reach the `invalid operands to binary +`
report of `checkAddition`: the third test `t1.isValue() && t2.isPointer()` takes
them. -/
theorem checkAddition_pointer_pointer (fields : Fields) (left right : CType)
    (hl : left.promote.isPointer = true) (hr : right.promote.isPointer = true)
    (hel : left.isError = false) (her : right.isError = false) :
    checkAddition fields left right =
      if isCompletePointer fields right.promote then (right.promote, [])
      else (error, [⟨incompleteType, ""⟩]) := by
  have hli : left.promote.isInteger = false := by
    simp only [CType.isPointer, CType.isInteger, Bool.and_eq_true, decide_eq_true_eq] at hl ⊢
    obtain ⟨h1, h2⟩ := hl
    have : (left.promote.indirection == 0) = false := by
      simp only [beq_eq_false_iff_ne, ne_eq]; omega
    simp [this]
  have hri : right.promote.isInteger = false := by
    simp only [CType.isPointer, CType.isInteger, Bool.and_eq_true, decide_eq_true_eq] at hr ⊢
    obtain ⟨h1, h2⟩ := hr
    have : (right.promote.indirection == 0) = false := by
      simp only [beq_eq_false_iff_ne, ne_eq]; omega
    simp [this]
  have hlv : left.promote.isValue = true := by
    simp only [CType.isPointer, Bool.and_eq_true] at hl
    exact hl.1
  simp [checkAddition, hel, her, hli, hri, hlv, hr, report]

/-! ### Calls -/

/-- C5 (the code departs from the claim): a call whose only argument is an array of
six characters, on a callee of Function type with an unknown parameter list, is
rejected with one `invalid arguments to called function` diagnostic, although
the argument promotes to a value type. -/
theorem checkCall_array_argument_rejected :
    checkCall (Function "int" 0 none) [Array "char" 0 6] =
        some (error, [⟨invalidArgs, ""⟩]) ∧
      (Array "char" 0 6).promote.isValue = true := by
  exact ⟨rfl, rfl⟩

/-! ### Dereference -/

/-- C6 (the code departs from the claim): dereferencing an `int **` yields `int`, with
no diagnostic, where the claim requires `int *`. -/
theorem checkDeref_double_pointer :
    checkDeref [] (Scalar "int" 2) = (Scalar "int" 0, []) ∧
      (Scalar "int" 0).indirection ≠ 2 - 1 := by
  exact ⟨rfl, by decide⟩

/-! ### Member access -/

/-- C7 (the code departs from the claim): with the field table of `struct node`
registered, `checkDirectStrcutField` applied to a pointer to `struct node` and
the field name `data` returns the field's type `int` and reports nothing, where
the claim requires the Error type and one `invalid operands to binary .`
diagnostic. -/
theorem checkDirectStrcutField_pointer_accepted :
    checkDirectStrcutField nodeFields (Scalar "node" 1) "data" = (Scalar "int" 0, []) ∧
      isStructure (Scalar "node" 1) = false := by
  exact ⟨rfl, rfl⟩

/-! ### Equality and relational operators -/

/-- C8 (the code departs from the claim): applied to a Function type `int f()` and to
`int`, as in the comparison `f == 1` of a declared function, each of the six
equality and relational checks returns the integer type with no diagnostic,
although the Function operand is not of the Error type and not a value type;
the claim requires the Error type and one invalid-operands diagnostic. The
sibling checks `checkLogicalOr` and `checkLogicalAnd`, which test `isValue`,
reject the same operands. -/
theorem checkEquality_function_operand :
    checkEquality (Function "int" 0 none) (Scalar "int" 0) = (integer, []) ∧
    checkInequality (Function "int" 0 none) (Scalar "int" 0) = (integer, []) ∧
    checkLessThan (Function "int" 0 none) (Scalar "int" 0) = (integer, []) ∧
    checkGreaterThan (Function "int" 0 none) (Scalar "int" 0) = (integer, []) ∧
    checkLessOrEqual (Function "int" 0 none) (Scalar "int" 0) = (integer, []) ∧
    checkGreaterOrEqual (Function "int" 0 none) (Scalar "int" 0) = (integer, []) ∧
    (Function "int" 0 none).isError = false ∧
    (Function "int" 0 none).isValue = false ∧
    (Function "int" 0 none).isCompatibleWith (Scalar "int" 0) = true ∧
    checkLogicalOr (Function "int" 0 none) (Scalar "int" 0) =
      (error, [⟨invalidBinary, "||"⟩]) ∧
    checkLogicalAnd (Function "int" 0 none) (Scalar "int" 0) =
      (error, [⟨invalidBinary, "&&"⟩]) := by
  exact ⟨rfl, rfl, rfl, rfl, rfl, rfl, rfl, rfl, rfl, rfl, rfl⟩

/-! ### One diagnostic per call -/

/-- For non-Error operand types, and field tables that hold no Error-typed field,
every check function that returns reports at most one diagnostic and returns
the Error type if and only if it reported one. The binary checks are applied
to `left` and `right`, the unary ones and the member accesses to `left`,
`checkCall` to the callee `left` and any argument list, `checkReturn` to the
expression type `left` and the declared type `right`. Every check function
other than `checkCall` is total, and `checkCall` returns for every callee that
is not a callback. -/
theorem check_one_diagnostic_iff_error (fields : Fields) (left right : CType)
    (args : Parameters) (id : String) (lvalue : Bool)
    (hl : left.isError = false) (hr : right.isError = false) (hf : NoErrorField fields) :
    OneDiagnosticIffError (checkLogicalOr left right) ∧
    OneDiagnosticIffError (checkLogicalAnd left right) ∧
    OneDiagnosticIffError (checkEquality left right) ∧
    OneDiagnosticIffError (checkInequality left right) ∧
    OneDiagnosticIffError (checkLessThan left right) ∧
    OneDiagnosticIffError (checkGreaterThan left right) ∧
    OneDiagnosticIffError (checkLessOrEqual left right) ∧
    OneDiagnosticIffError (checkGreaterOrEqual left right) ∧
    OneDiagnosticIffError (checkAddition fields left right) ∧
    OneDiagnosticIffError (checkSubtraction fields left right) ∧
    OneDiagnosticIffError (checkMultiply left right) ∧
    OneDiagnosticIffError (checkDivision left right) ∧
    OneDiagnosticIffError (checkPercent left right) ∧
    OneDiagnosticIffError (checkNot left) ∧
    OneDiagnosticIffError (checkNeg left) ∧
    OneDiagnosticIffError (checkDeref fields left) ∧
    OneDiagnosticIffError (checkAddress left lvalue) ∧
    OneDiagnosticIffError (checkSizeof fields left) ∧
    OneDiagnosticIffError (checkTypeCast fields left right) ∧
    OneDiagnosticIffError (checkArray fields left right) ∧
    OneDiagnosticIffError (checkDirectStrcutField fields left id) ∧
    OneDiagnosticIffError (checkIndirectStructure fields left id) ∧
    (∀ r, checkCall left args = some r → OneDiagnosticIffError r) ∧
    (left.isCallback = false → (checkCall left args).isSome = true) ∧
    OneDiagnosticIffError (checkReturn left right) ∧
    OneDiagnosticIffError (checkConditional left) ∧
    OneDiagnosticIffError (checkAssignment left right lvalue) :=
  ⟨checkLogicalOr_sound left right hl hr, checkLogicalAnd_sound left right hl hr,
    checkEquality_sound left right hl hr, checkInequality_sound left right hl hr,
    checkLessThan_sound left right hl hr, checkGreaterThan_sound left right hl hr,
    checkLessOrEqual_sound left right hl hr, checkGreaterOrEqual_sound left right hl hr,
    checkAddition_sound fields left right hl hr, checkSubtraction_sound fields left right hl hr,
    checkMultiply_sound left right hl hr, checkDivision_sound left right hl hr,
    checkPercent_sound left right hl hr, checkNot_sound left hl, checkNeg_sound left hl,
    checkDeref_sound fields left hl, checkAddress_sound left lvalue hl,
    checkSizeof_sound fields left hl, checkTypeCast_sound fields left right hl hr,
    checkArray_sound fields left right hl hr,
    checkDirectStrcutField_sound fields hf left id hl,
    checkIndirectStructure_sound fields hf left id hl, checkCall_sound left args hl,
    checkCall_returns left args, checkReturn_sound left right hl hr, checkConditional_sound left hl,
    checkAssignment_sound left right lvalue hl hr⟩

/-- C9 (the code departs from the claim): a callee of Callback type passes the guard of
`checkCall`, which admits functions and callbacks alike, and with value
arguments the function reaches `left.parameters()`, whose assertion admits
functions only. For a callback declared as `int (*cb)()`, of a type that is
not Error, the calls `cb()` and `cb(1)` stop in the failed assertion: they
report nothing and return nothing, where the claim requires a result. A
callee of Function type with the same arguments returns `int` silently. -/
theorem checkCall_callback_aborts :
    (Callback "int" 0 none).isError = false ∧
    (Callback "int" 0 none).isCallback = true ∧
    (Callback "int" 0 none).parameters = none ∧
    checkCall (Callback "int" 0 none) [] = none ∧
    checkCall (Callback "int" 0 none) [Scalar "int" 0] = none ∧
    checkCall (Function "int" 0 none) [Scalar "int" 0] = some (Scalar "int" 0, []) := by
  exact ⟨rfl, rfl, rfl, rfl, rfl, rfl⟩

/-- At a pointer to `struct node` and an integer, with the field table of
`struct node` registered: the member access through the pointer succeeds
silently and the multiplication fails with one diagnostic. -/
theorem check_one_diagnostic_iff_error_witness :
    NoErrorField nodeFields ∧
      OneDiagnosticIffError (checkIndirectStructure nodeFields (Scalar "node" 1) "data") ∧
      OneDiagnosticIffError (checkMultiply (Scalar "node" 1) (Scalar "int" 0)) :=
  have h := check_one_diagnostic_iff_error nodeFields (Scalar "node" 1) (Scalar "int" 0)
    [] "data" true rfl rfl noErrorField_nodeFields
  ⟨noErrorField_nodeFields, h.2.2.2.2.2.2.2.2.2.2.2.2.2.2.2.2.2.2.2.2.2.1,
    h.2.2.2.2.2.2.2.2.2.2.1⟩

/-! ## Properties of the register allocator -/

theorem consistent_initial (offset : Int) (funcname : String) :
    Consistent (GenState.initial offset funcname) := by
  intro r n
  simp [GenState.initial]

theorem assign_consistent_aux (st : GenState) (n : Option NodeId) (r : Option Register)
    (h : Consistent st) : Consistent (assign st n r) := by
  unfold Consistent at h ⊢
  intro r' n'
  unfold assign
  have e1 := h r' n'
  rcases n with _ | x <;> rcases r with _ | y
  · exact e1
  · have e2 := h y n'
    cases h1 : st.node y
    · clear h
      simp only [h1, setNode, setMember]; split_ifs <;> simp_all
    · rename_i m0
      have e3 := h y m0
      have e4 := h r' m0
      clear h
      simp only [h1, setNode, setMember]; split_ifs <;> (try simp_all) <;> (try tauto)
  · have e2 := h r' x
    cases h1 : st.register x
    · clear h
      simp only [h1, setNode, setMember]; split_ifs <;> simp_all
    · rename_i r0
      have e3 := h r0 x
      have e4 := h r0 n'
      clear h
      simp only [h1, setNode, setMember]; split_ifs <;> (try simp_all) <;> (try tauto)
  · have e2 := h r' x
    have e3 := h y n'
    have e4 := h y x
    cases h1 : st.register x <;> cases h2 : st.node y
    · clear h
      simp only [h1, h2, setNode, setMember]; split_ifs <;> (try simp_all) <;> (try tauto)
    · rename_i m0
      have e5 := h y m0
      have e6 := h r' m0
      clear h
      simp only [h1, h2, setNode, setMember]; split_ifs <;> (try simp_all) <;> (try tauto)
    · rename_i r0
      have e5 := h r0 x
      have e6 := h r0 n'
      clear h
      by_cases hy : y = r0
      · subst hy
        simp [h2] at e5
        rw [h1] at e5; simp at e5
      · have h3 : setNode st.node r0 none y = none := by simp [setNode, hy, h2]
        simp only [h1, h3]
        simp only [setNode, setMember]
        split_ifs <;> (try simp_all) <;> (try tauto)
    · rename_i r0 m0
      have e5 := h y m0
      have e6 := h r' m0
      have e7 := h r0 x
      have e8 := h r0 n'
      have e9 := h r0 m0
      clear h
      by_cases hy : y = r0
      · subst hy
        have h3 : setNode st.node y none y = none := by simp [setNode]
        simp only [h1, h3]
        simp only [setNode, setMember]
        split_ifs <;> simp_all
      · have h3 : setNode st.node r0 none y = some m0 := by simp [setNode, hy, h2]
        simp only [h1, h3]
        simp only [setNode, setMember]
        split_ifs <;> (try simp_all) <;> (try tauto)

theorem assign_frame (st : GenState) (n : Option NodeId) (r : Option Register) :
    (assign st n r).out = st.out ∧ (assign st n r).offset = st.offset ∧
    (assign st n r).nodeOffset = st.nodeOffset ∧ (assign st n r).strings = st.strings ∧
    (assign st n r).counter = st.counter ∧ (assign st n r).funcname = st.funcname := by
  unfold assign
  rcases n with _ | x <;> rcases r with _ | y
  · simp
  · cases h1 : st.node y <;> simp [h1]
  · cases h1 : st.register x <;> simp [h1]
  · cases h1 : st.register x <;> simp only [h1]
    · cases h2 : st.node y <;> simp [h2]
    · rename_i r0
      cases h2 : setNode st.node r0 none y <;> simp [h2]

theorem assign_node_self (st : GenState) (n : Option NodeId) (y : Register) :
    (assign st n (some y)).node y = n := by
  unfold assign
  simp [setNode]

theorem assign_register_self (st : GenState) (x : NodeId) (r : Option Register)
    (h : ∀ y, r = some y → st.node y = some x → st.register x = some y) :
    (assign st (some x) r).register x = r := by
  unfold assign
  rcases r with _ | y
  · simp [setMember]
  · have hy := h y rfl
    cases h1 : st.register x
    · simp only [h1]
      cases h2 : st.node y
      · simp [h2, setMember]
      · rename_i m0
        have : m0 ≠ x := by
          intro hc; subst hc; have := hy h2; rw [h1] at this; cases this
        simp [h2, setMember, this.symm]
    · rename_i r0
      simp only [h1]
      by_cases hr : y = r0
      · subst hr
        have h3 : setNode st.node y none y = none := by simp [setNode]
        simp [h3, setMember]
      · cases h2 : st.node y
        · have h3 : setNode st.node r0 none y = none := by simp [setNode, hr, h2]
          simp [h3, setMember]
        · rename_i m0
          have : m0 ≠ x := by
            intro hc; subst hc; have := hy h2; rw [h1] at this; cases this; exact hr rfl
          have h3 : setNode st.node r0 none y = some m0 := by simp [setNode, hr, h2]
          simp [h3, setMember, this.symm]

theorem assign_former_owner (st : GenState) (n : Option NodeId) (y : Register) (m0 : NodeId)
    (hm : st.node y = some m0) (hne : n ≠ some m0)
    (h : ∀ x, n = some x → st.register x ≠ some y) :
    (assign st n (some y)).register m0 = none := by
  unfold assign
  rcases n with _ | x
  · simp [hm, setMember]
  · have hx : x ≠ m0 := fun hc => hne (by rw [hc])
    have hxy := h x rfl
    cases h1 : st.register x
    · simp [h1, hm, setMember]
    · rename_i r0
      have hr : y ≠ r0 := by
        intro hc; subst hc; exact hxy h1
      have h3 : setNode st.node r0 none y = some m0 := by simp [setNode, hr, hm]
      simp [h1, h3, setMember]

theorem assign_former_register (st : GenState) (x : NodeId) (r0 : Register)
    (hx : st.register x = some r0) : (assign st (some x) none).node r0 = none := by
  unfold assign
  simp [hx, setNode]

theorem operand_frame (m : Machine) (st st2 : GenState) (e : Expression) (text : String)
    (h : operand m st e = some (text, st2)) :
    st2.node = st.node ∧ st2.register = st.register ∧ st2.nodeOffset = st.nodeOffset ∧
    st2.offset = st.offset ∧ st2.out = st.out ∧ st2.funcname = st.funcname := by
  cases e <;> simp only [operand] at h
  case Identifier id name off =>
    split at h <;> (cases h; simp)
  case Number id v => cases h; simp
  case String id v =>
    cases h
    unfold internString
    cases st.strings.lookup v <;> simp
  all_goals (split at h <;> first | (cases h; simp) | cases h)

theorem writeExpression_frame (m : Machine) (st st2 : GenState) (e : Expression)
    (text : String) (h : writeExpression m st e = some (text, st2)) :
    st2.node = st.node ∧ st2.register = st.register ∧ st2.nodeOffset = st.nodeOffset ∧
    st2.offset = st.offset ∧ st2.out = st.out ∧ st2.funcname = st.funcname := by
  unfold writeExpression at h
  split at h
  · cases h; simp
  · exact operand_frame m st st2 e text h

theorem operand_congr (m : Machine) (st st1 st2 : GenState) (e : Expression) (text : String)
    (h : operand m st e = some (text, st2))
    (h1 : st1.nodeOffset e.id = st.nodeOffset e.id) (h2 : st1.strings = st.strings)
    (h3 : st1.counter = st.counter) :
    ∃ st3, operand m st1 e = some (text, st3) := by
  cases e <;> simp only [operand] at h ⊢
  case Identifier id name off =>
    refine ⟨st1, ?_⟩
    split at h <;> rename_i hc <;> cases h <;> simp [hc]
  case Number id v => cases h; exact ⟨_, rfl⟩
  case String id v =>
    cases h
    unfold internString
    rw [h2, h3]
    cases st.strings.lookup v <;> exact ⟨_, rfl⟩
  all_goals
    (rw [h1]
     refine ⟨st1, ?_⟩
     split at h <;> rename_i hc
     · cases h; simp [hc]
     · cases h)

theorem writeExpression_congr (m : Machine) (st st1 st2 : GenState) (e : Expression)
    (text : String) (h : writeExpression m st e = some (text, st2))
    (h0 : st1.register e.id = st.register e.id)
    (h1 : st1.nodeOffset e.id = st.nodeOffset e.id) (h2 : st1.strings = st.strings)
    (h3 : st1.counter = st.counter) :
    ∃ st3, writeExpression m st1 e = some (text, st3) := by
  unfold writeExpression at h ⊢
  rw [h0]
  split at h
  · cases h; simp
  · exact operand_congr m st st1 st2 e text h h1 h2 h3

/-- C10: `load(n, r)`, in a state where registers and nodes are mutually consistent.
If `r` already holds `n`, the state is returned unchanged. Otherwise, provided
the operand of a non-empty `n` can be written (the assertion of
`Expression::operand` holds), `load` returns a state in which: `r` holds `n`
and a non-empty `n` names `r`; if `r` held a node `old`, the cursor went down
by exactly the size of the type of `old`, the location of `old` is the new
cursor, `old` names no register and one store of `r` to that slot was written
(`movb` for size 1, `movl` otherwise); and after it, for a non-empty `n`, one
move of the operand of `n` into `r` was written, and nothing else. -/
theorem load_spec (m : Machine) (st : GenState) (n : Option Expression) (r : Register)
    (hc : Consistent st) :
    (st.node r = n.map Expression.id → load m st n r = some st) ∧
    (st.node r ≠ n.map Expression.id →
      (∀ e, n = some e → operandText m st e ≠ none) →
      ∃ st', load m st n r = some st' ∧
        st'.node r = n.map Expression.id ∧
        (∀ e, n = some e → st'.register e.id = some r) ∧
        (∀ old, st.node r = some old →
          st'.offset = st.offset - m.size (m.type old) ∧
          st'.nodeOffset old = st.offset - m.size (m.type old) ∧
          st'.register old = none) ∧
        (st.node r = none → st'.offset = st.offset) ∧
        st'.out = st.out ++
          (match st.node r with
            | some old =>
              [spillLine r (m.size (m.type old)) (st.offset - m.size (m.type old))]
            | none => []) ++
          (match n with
            | some e => [loadLine ((operandText m st e).getD "") r (m.size (m.type e.id))]
            | none => [])) := by
  constructor
  · intro h
    simp [load, h]
  · intro hne hop
    rcases n with _ | e
    · -- the empty expression: only the spill
      simp only [Option.map_none'] at hne
      obtain ⟨old, hold⟩ := Option.ne_none_iff_exists'.mp hne
      have hload : load m st none r = some (assign (spill m st r old) none (some r)) := by
        simp [load, hold]
      have hf := assign_frame (spill m st r old) none (some r)
      refine ⟨_, hload, assign_node_self _ _ _, ?_, ?_, ?_, ?_⟩
      · intro e he; cases he
      · intro old' hold'
        rw [hold] at hold'; cases hold'
        refine ⟨by rw [hf.2.1]; rfl, ?_, ?_⟩
        · rw [hf.2.2.1]; simp [spill, setMember]
        · exact assign_former_owner _ none r old hold (by simp) (by intro x hx; cases hx)
      · intro h0; rw [hold] at h0; cases h0
      · rw [hf.1]; simp [hold, spill]
    · -- an expression: the spill, if the register is taken, then the move
      simp only [Option.map_some'] at hne
      have hop' := hop e rfl
      obtain ⟨⟨text, st2⟩, hw⟩ : ∃ p, writeExpression m st e = some p := by
        cases hw : writeExpression m st e
        · simp [operandText, hw] at hop'
        · exact ⟨_, rfl⟩
      have htext : (operandText m st e).getD "" = text := by simp [operandText, hw]
      have hreg : st.register e.id ≠ some r := by
        intro hc'; exact hne ((hc r e.id).2 hc')
      cases hold : st.node r
      · -- the register is free
        have hfr := writeExpression_frame m st st2 e text hw
        have hload : load m st (some e) r = some (assign
            { st2 with out := st2.out ++ [loadLine text r (m.size (m.type e.id))] }
            (some e.id) (some r)) := by
          simp [load, hold, hw]
        have hf := assign_frame
          { st2 with out := st2.out ++ [loadLine text r (m.size (m.type e.id))] }
          (some e.id) (some r)
        refine ⟨_, hload, assign_node_self _ _ _, ?_, ?_, ?_, ?_⟩
        · intro e' he'; cases he'
          apply assign_register_self
          intro y hy hn
          cases hy
          simp only [hfr.1, hold] at hn
          cases hn
        · intro old' hold'; cases hold'
        · intro _; rw [hf.2.1]; exact hfr.2.2.2.1
        · rw [hf.1]; simp [hfr.2.2.2.2.1, htext, hold]
      · rename_i old
        have hoe : old ≠ e.id := by
          intro h'; exact hne (by rw [hold, h'])
        obtain ⟨st3, hw1⟩ := writeExpression_congr m st (spill m st r old) st2 e text hw rfl
          (by simp [spill, setMember, hoe.symm]) rfl rfl
        have hfr := writeExpression_frame m (spill m st r old) st3 e text hw1
        have hload : load m st (some e) r = some (assign
            { st3 with out := st3.out ++ [loadLine text r (m.size (m.type e.id))] }
            (some e.id) (some r)) := by
          simp [load, hold, hw1, hoe]
        have hf := assign_frame
          { st3 with out := st3.out ++ [loadLine text r (m.size (m.type e.id))] }
          (some e.id) (some r)
        refine ⟨_, hload, assign_node_self _ _ _, ?_, ?_, ?_, ?_⟩
        · intro e' he'; cases he'
          apply assign_register_self
          intro y hy hn
          cases hy
          simp only [hfr.1] at hn
          simp only [spill, hold] at hn
          cases hn
          exact absurd rfl hoe
        · intro old' hold'; cases hold'
          refine ⟨?_, ?_, ?_⟩
          · rw [hf.2.1]; simp only [hfr.2.2.2.1]; rfl
          · rw [hf.2.2.1]; simp only [hfr.2.2.1]; simp [spill, setMember]
          · apply assign_former_owner
            · simp only [hfr.1]; exact hold
            · intro h'; cases h'; exact hoe rfl
            · intro x hx; cases hx
              simp only [hfr.2.1]
              exact hreg
        · intro h0; cases h0
        · rw [hf.1]; simp [hfr.2.2.2.2.1, htext, hold, spill]

theorem consistent_eaxHoldsOne : Consistent eaxHoldsOne :=
  assign_consistent_aux _ _ _ (consistent_initial _ _)

/-- C10 at a state where `eax` holds node 1 and the cursor is -8: loading the literal
5 (node 2) into `eax` spills node 1 to the slot -12 and then moves the literal. -/
theorem load_spec_witness :
    ∃ st', load intMachine eaxHoldsOne (some (Expression.Number 2 5)) Register.eax = some st' ∧
      st'.node Register.eax = some 2 ∧ st'.register 2 = some Register.eax ∧
      st'.offset = -12 ∧ st'.nodeOffset 1 = -12 ∧ st'.register 1 = none ∧
      st'.out = ["\tmovl\t%eax, -12(%ebp)", "\tmovl\t$5, %eax"] := by
  obtain ⟨st', h1, h2, h3, h4, _, h6⟩ :=
    (load_spec intMachine eaxHoldsOne (some (Expression.Number 2 5)) Register.eax
      consistent_eaxHoldsOne).2 (by decide) (by intro e he; cases he; decide)
  have h5 := h4 1 rfl
  refine ⟨st', h1, h2, h3 _ rfl, h5.1, h5.2.1, h5.2.2, ?_⟩
  rw [h6]
  decide

/-- C4: `assign` keeps registers and nodes mutually consistent. After `assign(n, r)`:
if both are non-empty, `r` holds `n` and `n` names `r`; if `n` is empty, `r`
has no owner and its former owner names no register; if `r` is empty, `n`
names no register and its former register has no owner. Nothing is written to
the output and the offset cursor is unchanged. -/
theorem assign_preserves_consistency (st : GenState) (n : Option NodeId)
    (r : Option Register) (h : Consistent st) :
    Consistent (assign st n r) ∧
    (∀ x y, n = some x → r = some y →
      (assign st n r).node y = some x ∧ (assign st n r).register x = some y) ∧
    (n = none → ∀ y, r = some y →
      (assign st n r).node y = none ∧
        ∀ old, st.node y = some old → (assign st n r).register old = none) ∧
    (r = none → ∀ x, n = some x →
      (assign st n r).register x = none ∧
        ∀ r0, st.register x = some r0 → (assign st n r).node r0 = none) ∧
    (assign st n r).out = st.out ∧ (assign st n r).offset = st.offset := by
  refine ⟨assign_consistent_aux st n r h, ?_, ?_, ?_, (assign_frame st n r).1,
    (assign_frame st n r).2.1⟩
  · intro x y hn hr
    subst hn; subst hr
    refine ⟨assign_node_self _ _ _, assign_register_self _ _ _ ?_⟩
    intro y' hy' hnode
    cases hy'
    exact (h y x).1 hnode
  · intro hn y hr
    subst hn; subst hr
    refine ⟨assign_node_self _ _ _, ?_⟩
    intro old hold
    exact assign_former_owner st none y old hold (by simp) (by intro x hx; cases hx)
  · intro hr x hn
    subst hn; subst hr
    refine ⟨assign_register_self _ _ _ (by intro y hy; cases hy), ?_⟩
    intro r0 hr0
    exact assign_former_register st x r0 hr0

/-- C4 at the state where `eax` holds node 1: giving `eax` to node 2 leaves node 1
without a register, and the result is consistent again. -/
theorem assign_preserves_consistency_witness :
    Consistent eaxHoldsOne ∧
      Consistent (assign eaxHoldsOne (some 2) (some Register.eax)) ∧
      (assign eaxHoldsOne (some 2) (some Register.eax)).node Register.eax = some 2 ∧
      (assign eaxHoldsOne (some 2) (some Register.eax)).register 2 = some Register.eax ∧
      (assign eaxHoldsOne (some 2) (some Register.eax)).register 1 = none :=
  have h := assign_preserves_consistency eaxHoldsOne (some 2) (some Register.eax)
    consistent_eaxHoldsOne
  ⟨consistent_eaxHoldsOne, h.1, (h.2.1 2 Register.eax rfl rfl).1,
    (h.2.1 2 Register.eax rfl rfl).2, by decide⟩

/-! ## Properties of the code generator -/

/-- The test of the left operand inside `LogicalAnd::generate` is the virtual member
`test` of that operand. -/
theorem generate_LogicalAnd (m : Machine) (id : NodeId) (left right : Expression)
    (st : GenState) :
    generate m (Expression.LogicalAnd id left right) st =
      (test m left (newLabel st).1 false (newLabel st).2).bind (fun st1 =>
        (generate m right st1).bind (fun st2 =>
          logicalTail m st2 id right (newLabel st).1)) := by
  cases left <;> rfl

/-- The test of the left operand inside `LogicalOr::generate` is the virtual member
`test` of that operand. -/
theorem generate_LogicalOr (m : Machine) (id : NodeId) (left right : Expression)
    (st : GenState) :
    generate m (Expression.LogicalOr id left right) st =
      (test m left (newLabel st).1 true (newLabel st).2).bind (fun st1 =>
        (generate m right st1).bind (fun st2 =>
          logicalTail m st2 id right (newLabel st).1)) := by
  cases left <;> rfl

/-- The walk of `Address::generate` over the field chain ends at the base and with
the sum that `findBaseAndOffset` computes. -/
theorem generateAddress_findBase (m : Machine) (this : Expression) (k : Nat) :
    ∀ (expr : Expression) (acc : Int) (st : GenState), sizeOf expr = k →
      generateAddress m this expr acc st =
        generateAddress m this (findBaseAndOffset expr).1
          (acc + (findBaseAndOffset expr).2) st ∧
      (findBaseAndOffset expr).1.isField = none := by
  induction k using Nat.strong_induction_on with
  | _ k ih =>
    intro expr acc st hk
    cases expr
    case Field id e f =>
      have hlt : sizeOf e < k := by
        rw [← hk]; simp only [Expression.Field.sizeOf_spec]; omega
      have h1 := ih (sizeOf e) hlt e (acc + f) st rfl
      simp only [findBaseAndOffset]
      rw [generateAddress, h1.1]
      refine ⟨?_, h1.2⟩
      congr 1
      ring
    all_goals exact ⟨by simp [findBaseAndOffset], rfl⟩

/-- The member `Address::generate` in terms of `findBaseAndOffset`: the cursor receives
the summed field offset, then the base decides between the two branches. -/
theorem generate_Address (m : Machine) (id : NodeId) (expr : Expression) (st : GenState) :
    generate m (Expression.Address id expr) st =
      match (findBaseAndOffset expr).1.isDereference with
      | some ptr =>
        (generate m ptr { st with offset := (findBaseAndOffset expr).2 }).bind (fun st1 =>
          (loadIfNeeded m st1 ptr).bind (fun st2 =>
            some (assign st2 (some id) (st2.register ptr.id))))
      | none =>
        (getreg m { st with offset := (findBaseAndOffset expr).2 }).bind (fun p =>
          (writeExpression m (assign p.2 (some id) (some p.1))
              (findBaseAndOffset expr).1).bind (fun b =>
            (writeExpression m b.2 (Expression.Address id expr)).bind (fun t =>
              some (emit t.2 ("\tleal\t" ++ b.1 ++ ", " ++ t.1))))) := by
  have h := generateAddress_findBase m (Expression.Address id expr) (sizeOf expr) expr 0 st rfl
  have hg : generate m (Expression.Address id expr) st =
      generateAddress m (Expression.Address id expr) expr 0 st := rfl
  rw [hg, h.1]
  have hf := h.2
  generalize (findBaseAndOffset expr).1 = base at hf ⊢
  generalize (findBaseAndOffset expr).2 = off
  cases base
  case Field id1 e f => cases hf
  all_goals (simp only [zero_add]; rfl)

/-- The walk of `Field::generate` over the field chain ends at the base and with the
sum that `findBaseAndOffset` computes. -/
theorem generateField_findBase (m : Machine) (this expr0 : Expression) (k : Nat) :
    ∀ (expr : Expression) (acc : Int) (st : GenState), sizeOf expr = k →
      generateField m this expr0 expr acc st =
        generateField m this expr0 (findBaseAndOffset expr).1
          (acc + (findBaseAndOffset expr).2) st := by
  induction k using Nat.strong_induction_on with
  | _ k ih =>
    intro expr acc st hk
    cases expr
    case Field id e f =>
      have hlt : sizeOf e < k := by
        rw [← hk]; simp only [Expression.Field.sizeOf_spec]; omega
      have h1 := ih (sizeOf e) hlt e (acc + f) st rfl
      simp only [findBaseAndOffset]
      rw [generateField, h1]
      congr 1
      ring
    all_goals simp [findBaseAndOffset]

/-- C3 (the code departs from the claim): in a body whose locals end at offset -8,
generating the assignment `x = 1;` leaves the cursor at 0, above its value -8
before the statement; and when the statement `(x + 1) + f(9);` follows, the
value of `x + 1`, spilled before the call, receives the slot -4, which is the
slot of the local `x`. -/
theorem assignment_raises_cursor :
    (generateStatement intMachine assignOne (GenState.initial (-8) "f")).map
        (fun st => st.offset) = some 0 ∧
      (generateBlock intMachine [assignOne, sumAcrossCall] (GenState.initial (-8) "f")).map
        (fun st => (st.nodeOffset 5, st.out)) =
        some (-4,
          ["\tmovl\t$1, %eax", "\tmovl\t%eax, 0+-4(%ebp)", "\tmovl\t-4(%ebp), %eax",
            "\taddl\t$1, %eax", "\tpushl\t$9", "\tmovl\t%eax, -4(%ebp)", "\tcall\tf",
            "\taddl\t$4, %esp", "\tmovl\t-4(%ebp), %ecx", "\taddl\t%eax, %ecx"]) := by
  constructor <;> decide

/-- The address-of node has the same effect on the cursor as the assignment:
generating `&x` from the cursor -8 leaves it at 0. -/
theorem address_raises_cursor :
    (generate intMachine (Expression.Address 2 (Expression.Identifier 1 "x" (-4)))
      (GenState.initial (-8) "f")).map (fun st => st.offset) = some 0 := by
  decide

/-! ## Properties of `getreg`, of the scopes and of the declarations -/

theorem load_none_returns (m : Machine) (st : GenState) (r : Register) :
    load m st none r =
      some (match st.node r with
        | some old => assign (spill m st r old) none (some r)
        | none => st) := by
  unfold load
  cases h : st.node r <;> simp

/-- The selection policy of `getreg`: it returns the first of `eax`, `ecx`, `edx` that
holds no node, with the state unchanged, so nothing is emitted. If all three
hold a node it performs `load(nullptr, eax)`, which spills the node of `eax`
to the slot at the cursor lowered by the size of that node, writes one store,
and it returns `eax`. It always returns, and the register returned holds no
node in the state returned. -/
theorem getreg_spec (m : Machine) (st : GenState) :
    (st.node Register.eax = none → getreg m st = some (Register.eax, st)) ∧
    (st.node Register.eax ≠ none → st.node Register.ecx = none →
      getreg m st = some (Register.ecx, st)) ∧
    (st.node Register.eax ≠ none → st.node Register.ecx ≠ none →
      st.node Register.edx = none → getreg m st = some (Register.edx, st)) ∧
    (∀ old, st.node Register.eax = some old → st.node Register.ecx ≠ none →
      st.node Register.edx ≠ none →
      load m st none Register.eax =
        some (assign (spill m st Register.eax old) none (some Register.eax)) ∧
      getreg m st =
        some (Register.eax, assign (spill m st Register.eax old) none (some Register.eax)) ∧
      (assign (spill m st Register.eax old) none (some Register.eax)).offset =
        st.offset - m.size (m.type old) ∧
      (assign (spill m st Register.eax old) none (some Register.eax)).nodeOffset old =
        st.offset - m.size (m.type old) ∧
      (assign (spill m st Register.eax old) none (some Register.eax)).out =
        st.out ++ [spillLine Register.eax (m.size (m.type old))
          (st.offset - m.size (m.type old))]) ∧
    (∃ r st', getreg m st = some (r, st') ∧ st'.node r = none) := by
  have hl := load_none_returns m st Register.eax
  refine ⟨?_, ?_, ?_, ?_, ?_⟩
  · intro h
    simp [getreg, registers, h]
  · intro h1 h2
    simp [getreg, registers, h1, h2]
  · intro h1 h2 h3
    simp [getreg, registers, h1, h2, h3]
  · intro old h1 h2 h3
    rw [h1] at hl
    have hf := assign_frame (spill m st Register.eax old) none (some Register.eax)
    refine ⟨hl, ?_, ?_, ?_, ?_⟩
    · simp [getreg, registers, h1, h2, h3, hl]
    · rw [hf.2.1]; rfl
    · rw [hf.2.2.1]; simp [spill, setMember]
    · rw [hf.1]; rfl
  · cases h1 : st.node Register.eax
    · exact ⟨_, _, by simp [getreg, registers, h1], h1⟩
    · cases h2 : st.node Register.ecx
      · exact ⟨_, _, by simp [getreg, registers, h1, h2], h2⟩
      · cases h3 : st.node Register.edx
        · exact ⟨_, _, by simp [getreg, registers, h1, h2, h3], h3⟩
        · rw [h1] at hl
          rename_i old _ _
          exact ⟨Register.eax, assign (spill m st Register.eax old) none (some Register.eax),
            by simp [getreg, registers, h1, h2, h3, hl], assign_node_self _ _ _⟩

/-- The policy of `getreg` with all registers free, where `eax` is returned and nothing
changes, and with all three owned, where node 1 is spilled from `eax` to the
slot -12. -/
theorem getreg_spec_witness :
    getreg intMachine (GenState.initial (-8) "f") =
        some (Register.eax, GenState.initial (-8) "f") ∧
      (getreg intMachine allOwned).map (fun p => (p.1, p.2.offset, p.2.nodeOffset 1, p.2.out)) =
        some (Register.eax, -12, -12, ["\tmovl\t%eax, -12(%ebp)"]) := by
  have h := getreg_spec intMachine allOwned
  have h0 := (getreg_spec intMachine (GenState.initial (-8) "f")).1 rfl
  obtain ⟨_, h2, h3, h4, h5⟩ := h.2.2.2.1 1 rfl (by decide) (by decide)
  refine ⟨h0, ?_⟩
  rw [h2]
  simp only [Option.map_some', h3, h4, h5]
  decide

mutual

theorem equals_refl : ∀ (t : CType), t.equals t = true
  | CType.mk k s i l p => by
    unfold CType.equals
    cases p with
    | none => simp
    | some ps => simp [equalsList_refl ps]

theorem equalsList_refl : ∀ (l : List CType), CType.equalsList l l = true
  | [] => by simp [CType.equalsList]
  | a :: as => by simp [CType.equalsList, equals_refl a, equalsList_refl as]

end

theorem notEquals_self (t : CType) : t.notEquals t = false := by
  simp [CType.notEquals, equals_refl]

theorem scopeFind_append (l : Symbols) (s : Symbol) (name : String) :
    scopeFind (l ++ [s]) name =
      match scopeFind l name with
      | some x => some x
      | none => if name == s.name then some s else none := by
  induction l with
  | nil => simp [scopeFind]
  | cons a rest ih =>
    simp only [List.cons_append, scopeFind]
    split
    · rfl
    · exact ih

theorem scopeFind_none_iff (l : Symbols) (name : String) :
    scopeFind l name = none ↔ countName l name = 0 := by
  induction l with
  | nil => simp [scopeFind, countName]
  | cons a rest ih =>
    unfold scopeFind countName
    by_cases h : (name == a.name) = true
    · simp [h]
    · simp only [h, if_false, Bool.false_eq_true]
      rw [ih]
      simp [countName, List.filter_cons, h]

theorem countName_append (l : Symbols) (s : Symbol) (name : String) :
    countName (l ++ [s]) name = countName l name + (if name == s.name then 1 else 0) := by
  unfold countName
  rw [List.filter_append, List.length_append]
  by_cases h : (name == s.name) = true <;> simp [List.filter_cons, h]

theorem countName_remove (l : Symbols) (name : String) :
    countName (scopeRemove l name) name = countName l name - 1 := by
  induction l with
  | nil => simp [scopeRemove, countName]
  | cons a rest ih =>
    unfold scopeRemove
    by_cases h : (name == a.name) = true
    · simp [h, countName, List.filter_cons]
    · simp only [h, if_false, Bool.false_eq_true]
      have : countName (a :: scopeRemove rest name) name = countName (scopeRemove rest name) name := by
        simp [countName, List.filter_cons, h]
      rw [this, ih]
      simp [countName, List.filter_cons, h]

theorem filter_remove (l : Symbols) (name : String) :
    (scopeRemove l name).filter (fun s => !(name == s.name)) =
      l.filter (fun s => !(name == s.name)) := by
  induction l with
  | nil => simp [scopeRemove]
  | cons a rest ih =>
    unfold scopeRemove
    by_cases h : (name == a.name) = true
    · simp [h, List.filter_cons]
    · simp only [h, if_false, Bool.false_eq_true]
      simp [List.filter_cons, h, ih]

theorem declareSymbol_fresh (c : Checker) (top : ScopeId) (rest : List ScopeId)
    (name : String) (type : CType) (isParameter : Bool)
    (htop : c.toplevel = top :: rest) (hfind : scopeFind (c.scopes top) name = none) :
    declareSymbol c name type isParameter =
      some ({ c with scopes := setScope c.scopes top (c.scopes top ++ [⟨name, type⟩]) },
        structureDiagnostic c name type isParameter) := by
  simp [declareSymbol, htop, hfind, scopeInsert]

theorem structureDiagnostic_congr (c c1 : Checker) (h : c1.fields = c.fields)
    (name : String) (type : CType) (isParameter : Bool) :
    structureDiagnostic c1 name type isParameter =
      structureDiagnostic c name type isParameter := by
  simp [structureDiagnostic, h]

/-- C12 (counterexample): in the global scope, declaring `x` twice with the type
`struct node` by value, while `node` has no field table, reports
`'x' has incomplete type` on the second call as on the first. -/
theorem declareSymbol_twice_incomplete :
    (declareSymbol globalScope "x" (Scalar "node" 0) false).bind
        (fun r => (declareSymbol r.1 "x" (Scalar "node" 0) false).map (fun q => q.2)) =
      some [⟨incomplete, "x"⟩] := by
  decide

/-- C12 (amended): in the outermost scope, for a name not yet declared there, the
first `declareSymbol(name, t)` inserts the symbol. A second
`declareSymbol(name, t)` reports neither a redeclaration nor conflicting types:
it reports nothing when `t` is not a structure by value, and otherwise repeats
the diagnostic of the structure check. A second `declareSymbol(name, t')` with
`t' != t` reports exactly one `conflicting types` diagnostic. In both cases the state
is the one after the first call: the scope holds exactly one symbol called
`name`, with type `t`. -/
theorem declareSymbol_twice (c : Checker) (top : ScopeId) (rest : List ScopeId)
    (name : String) (t : CType) (isParameter : Bool)
    (htop : c.toplevel = top :: rest) (hout : c.outermost = some top)
    (hfresh : scopeFind (c.scopes top) name = none) :
    ∃ c1, declareSymbol c name t isParameter =
        some (c1, structureDiagnostic c name t isParameter) ∧
      declareSymbol c1 name t isParameter =
        some (c1, structureDiagnostic c name t isParameter) ∧
      (isStructure t = false → declareSymbol c1 name t isParameter = some (c1, [])) ∧
      (∀ t', t'.notEquals t = true →
        declareSymbol c1 name t' isParameter = some (c1, [⟨conflicting, name⟩])) ∧
      countName (c1.scopes top) name = 1 ∧
      scopeFind (c1.scopes top) name = some ⟨name, t⟩ := by
  refine ⟨_, declareSymbol_fresh c top rest name t isParameter htop hfresh, ?_⟩
  have hfind : scopeFind (setScope c.scopes top (c.scopes top ++ [⟨name, t⟩]) top) name =
      some ⟨name, t⟩ := by
    simp [setScope, scopeFind_append, hfresh]
  have hsecond : declareSymbol
      { c with scopes := setScope c.scopes top (c.scopes top ++ [⟨name, t⟩]) } name t
        isParameter =
      some ({ c with scopes := setScope c.scopes top (c.scopes top ++ [⟨name, t⟩]) },
        structureDiagnostic c name t isParameter) := by
    simp only [declareSymbol, htop, hfind, hout, notEquals_self, ne_eq, not_true_eq_false,
      if_false, Bool.false_eq_true]
    exact congrArg some (Prod.ext rfl (structureDiagnostic_congr c _ rfl name t isParameter))
  refine ⟨hsecond, ?_, ?_, ?_, hfind⟩
  · intro hs
    rw [hsecond]
    simp [structureDiagnostic, hs]
  · intro t' ht'
    simp [declareSymbol, htop, hfind, hout, ht', report]
  · have h0 := (scopeFind_none_iff _ _).1 hfresh
    simp [setScope, countName_append, h0]

/-- The amended C12 in the global scope: `int x;` twice is silent, `int x; char x;`
reports conflicting types once. -/
theorem declareSymbol_twice_witness :
    ∃ c1, declareSymbol globalScope "x" (Scalar "int" 0) false = some (c1, []) ∧
      declareSymbol c1 "x" (Scalar "int" 0) false = some (c1, []) ∧
      declareSymbol c1 "x" (Scalar "char" 0) false = some (c1, [⟨conflicting, "x"⟩]) := by
  obtain ⟨c1, h1, _, h3, h4, _, _⟩ :=
    declareSymbol_twice globalScope 0 [] "x" (Scalar "int" 0) false rfl rfl rfl
  exact ⟨c1, h1, h3 rfl, h4 (Scalar "char" 0) rfl⟩

/-- The diagnostics of `defineFunction`, as its chain of tests selects them. -/
theorem defineFunction_returns (c : Checker) (out : ScopeId) (name : String) (type : CType)
    (hout : c.outermost = some out) (hone : countName (c.scopes out) name ≤ 1) :
    defineFunction c name type =
      some (⟨name, type⟩,
        { c with
          scopes := setScope c.scopes out (scopeRemove (c.scopes out) name ++ [⟨name, type⟩])
          functions := if c.functions.contains name then c.functions
            else name :: c.functions },
        if c.functions.contains name then report redefined name
        else if (match scopeFind (c.scopes out) name with
            | some s => type.notEquals s.type
            | none => false) then report conflicting name
        else if isStructure type then report nonpointer name
        else []) := by
  have hrem : scopeFind (scopeRemove (c.scopes out) name) name = none := by
    rw [scopeFind_none_iff, countName_remove]
    omega
  unfold defineFunction
  simp only [hout, scopeInsert, hrem]

/-- C15: after `defineFunction(name, type)`, called with a non-null `outermost` whose
scope holds at most one symbol called `name` (the precondition that the scope's
`insert` asserts), and whatever it reports: the call returns the symbol
`(name, type)`; the outermost scope holds exactly one symbol called `name`,
which is that symbol; `name` is recorded in `functions`; the other symbols of
the outermost scope are unchanged, in their order; every other scope, the
current scope chain, the `outermost` pointer and the field tables are
unchanged. -/
theorem defineFunction_frame (c : Checker) (out : ScopeId) (name : String) (type : CType)
    (hout : c.outermost = some out) (hone : countName (c.scopes out) name ≤ 1) :
    ∃ c1 diagnostics,
      defineFunction c name type = some (⟨name, type⟩, c1, diagnostics) ∧
      countName (c1.scopes out) name = 1 ∧
      scopeFind (c1.scopes out) name = some ⟨name, type⟩ ∧
      name ∈ c1.functions ∧
      (c1.scopes out).filter (fun s => !(name == s.name)) =
        (c.scopes out).filter (fun s => !(name == s.name)) ∧
      (∀ id, id ≠ out → c1.scopes id = c.scopes id) ∧
      c1.toplevel = c.toplevel ∧ c1.outermost = c.outermost ∧ c1.fields = c.fields := by
  have hrem : scopeFind (scopeRemove (c.scopes out) name) name = none := by
    rw [scopeFind_none_iff, countName_remove]
    omega
  refine ⟨_, _, defineFunction_returns c out name type hout hone, ?_, ?_, ?_, ?_, ?_,
    rfl, rfl, rfl⟩
  · have h0 := (scopeFind_none_iff _ _).1 hrem
    simp [setScope, countName_append, h0]
  · simp [setScope, scopeFind_append, hrem]
  · show name ∈ (if c.functions.contains name then c.functions else name :: c.functions)
    split_ifs with h
    · simpa using h
    · simp
  · simp [setScope, List.filter_append, filter_remove]
  · intro id hid
    simp [setScope, hid]

/-- C15 in the global scope holding `int f; char g;`: defining `f` as a function that
returns `int` replaces the symbol `f`, at the end of the scope, and keeps `g`. -/
theorem defineFunction_frame_witness :
    ∃ c1 diagnostics,
      defineFunction twoGlobals "f" (Function "int" 0 (some [])) =
        some (⟨"f", Function "int" 0 (some [])⟩, c1, diagnostics) ∧
      countName (c1.scopes 0) "f" = 1 ∧
      scopeFind (c1.scopes 0) "g" = some ⟨"g", Scalar "char" 0⟩ ∧
      "f" ∈ c1.functions := by
  obtain ⟨c1, d, h1, h2, _, h4, h5, _⟩ :=
    defineFunction_frame twoGlobals 0 "f" (Function "int" 0 (some [])) rfl (by decide)
  refine ⟨c1, d, h1, h2, ?_, h4⟩
  rw [defineFunction_returns twoGlobals 0 "f" _ rfl (by decide)] at h1
  cases h1
  rfl

theorem functions_frame (c : Checker) :
    (∀ n t p r, declareSymbol c n t p = some r → r.1.functions = c.functions) ∧
    (∀ n r, checkIdentifier c n = some r → r.2.1.functions = c.functions) ∧
    (openScope c).2.functions = c.functions ∧
    (∀ r, closeScope c = some r → r.2.functions = c.functions) ∧
    (∀ n, (openStruct c n).1.functions = c.functions) ∧
    (∀ n r, closeStruct c n = some r → r.functions = c.functions) := by
  refine ⟨?_, ?_, ?_, ?_, ?_, ?_⟩
  · intro n t p r h
    unfold declareSymbol at h
    split at h
    · cases h
    · split at h
      · split at h
        · cases h; rfl
        · cases h
      · split_ifs at h <;> (cases h; rfl)
  · intro n r h
    unfold checkIdentifier at h
    split at h
    · cases h
    · split at h
      · cases h; rfl
      · split at h
        · cases h; rfl
        · cases h
  · unfold openScope
    simp only
    split_ifs <;> rfl
  · intro r h
    unfold closeScope at h
    split at h
    · cases h
    · cases h; rfl
  · intro n
    unfold openStruct openScope
    simp only
    split_ifs <;> rfl
  · intro n r h
    unfold closeStruct closeScope at h
    cases ht : c.toplevel with
    | nil => simp [ht] at h
    | cons old rest =>
      simp only [ht] at h
      cases h; rfl

/-- C16: `defineFunction(name, type)`, called with a non-null `outermost` whose scope
holds at most one symbol called `name`, reports `redefinition` if and only if
`name` is in the set `functions`; otherwise `conflicting types` if and only if
the outermost scope holds a symbol called `name` with `type != ` its type;
otherwise `pointer type required` if and only if `type` is a structure by
value; and nothing otherwise. The set `functions` holds the names defined by
earlier `defineFunction` calls: the call adds `name` to it and no other
operation of the checker changes it. -/
theorem defineFunction_diagnostics (c : Checker) (out : ScopeId) (name : String)
    (type : CType) (hout : c.outermost = some out)
    (hone : countName (c.scopes out) name ≤ 1) :
    ∃ sym c1 d, defineFunction c name type = some (sym, c1, d) ∧
      (name ∈ c.functions → d = [⟨redefined, name⟩]) ∧
      (name ∉ c.functions →
        (∃ s, scopeFind (c.scopes out) name = some s ∧ type.notEquals s.type = true) →
        d = [⟨conflicting, name⟩]) ∧
      (name ∉ c.functions →
        ¬ (∃ s, scopeFind (c.scopes out) name = some s ∧ type.notEquals s.type = true) →
        isStructure type = true → d = [⟨nonpointer, name⟩]) ∧
      (name ∉ c.functions →
        ¬ (∃ s, scopeFind (c.scopes out) name = some s ∧ type.notEquals s.type = true) →
        isStructure type = false → d = []) ∧
      (∀ n, n ∈ c1.functions ↔ n = name ∨ n ∈ c.functions) ∧
      (∀ n t p r, declareSymbol c n t p = some r → r.1.functions = c.functions) ∧
      (∀ n r, checkIdentifier c n = some r → r.2.1.functions = c.functions) ∧
      (openScope c).2.functions = c.functions ∧
      (∀ r, closeScope c = some r → r.2.functions = c.functions) ∧
      (∀ n, (openStruct c n).1.functions = c.functions) ∧
      (∀ n r, closeStruct c n = some r → r.functions = c.functions) := by
  have hf := functions_frame c
  refine ⟨_, _, _, defineFunction_returns c out name type hout hone, ?_, ?_, ?_, ?_, ?_,
    hf.1, hf.2.1, hf.2.2.1, hf.2.2.2.1, hf.2.2.2.2.1, hf.2.2.2.2.2⟩
  · intro h
    simp [h, report]
  · intro h hs
    obtain ⟨s, hs1, hs2⟩ := hs
    simp [h, hs1, hs2, report]
  · intro h hs hst
    have h2 : (match scopeFind (c.scopes out) name with
        | some s => type.notEquals s.type
        | none => false) = false := by
      cases hfind : scopeFind (c.scopes out) name with
      | none => rfl
      | some s =>
        simp only
        cases hne : type.notEquals s.type
        · rfl
        · exact absurd ⟨s, hfind, hne⟩ hs
    simp [h, h2, hst, report]
  · intro h hs hst
    have h2 : (match scopeFind (c.scopes out) name with
        | some s => type.notEquals s.type
        | none => false) = false := by
      cases hfind : scopeFind (c.scopes out) name with
      | none => rfl
      | some s =>
        simp only
        cases hne : type.notEquals s.type
        · rfl
        · exact absurd ⟨s, hfind, hne⟩ hs
    simp [h, h2, hst]
  · intro n
    show n ∈ (if c.functions.contains name then c.functions else name :: c.functions) ↔ _
    split_ifs with h
    · have : name ∈ c.functions := by simpa using h
      constructor
      · intro hn; exact Or.inr hn
      · rintro (rfl | hn)
        · exact this
        · exact hn
    · simp

/-- C16 in the global scope holding `int f; char g;`: the first definition of `f` as
a function returning `char` reports conflicting types, and a second definition
reports a redefinition. -/
theorem defineFunction_diagnostics_witness :
    (defineFunction twoGlobals "f" (Function "char" 0 none)).map (fun r => r.2.2) =
        some [⟨conflicting, "f"⟩] ∧
      ((defineFunction twoGlobals "f" (Function "char" 0 none)).bind
        (fun r => (defineFunction r.2.1 "f" (Function "char" 0 none)).map
          (fun q => q.2.2))) = some [⟨redefined, "f"⟩] := by
  obtain ⟨sym, c1, d, h1, _, h3, _, _, h6, _⟩ :=
    defineFunction_diagnostics twoGlobals 0 "f" (Function "char" 0 none) rfl (by decide)
  have hd : d = [⟨conflicting, "f"⟩] :=
    h3 (by decide) ⟨⟨"f", Scalar "int" 0⟩, rfl, rfl⟩
  subst hd
  refine ⟨by rw [h1]; rfl, ?_⟩
  decide

/-- C17: when `name` is already declared in the current scope and the current scope is
not the outermost one, `declareSymbol` reports exactly one `redeclaration`
diagnostic, whatever the type and the parameter flag, and returns the state
unchanged: no scope receives the new declaration. -/
theorem declareSymbol_redeclared (c : Checker) (top : ScopeId) (rest : List ScopeId)
    (name : String) (type : CType) (isParameter : Bool) (s : Symbol)
    (htop : c.toplevel = top :: rest) (hfind : scopeFind (c.scopes top) name = some s)
    (hinner : c.outermost ≠ some top) :
    declareSymbol c name type isParameter = some (c, [⟨redeclared, name⟩]) := by
  have : some top ≠ c.outermost := fun h => hinner h.symm
  simp [declareSymbol, htop, hfind, this, report]

/-- C17 in a function body that holds `int x`: declaring `x` again, with the same
type or with another one, reports one redeclaration and changes nothing. -/
theorem declareSymbol_redeclared_witness :
    declareSymbol bodyWithX "x" (Scalar "int" 0) false =
        some (bodyWithX, [⟨redeclared, "x"⟩]) ∧
      declareSymbol bodyWithX "x" (Scalar "char" 1) true =
        some (bodyWithX, [⟨redeclared, "x"⟩]) :=
  ⟨declareSymbol_redeclared bodyWithX 1 [0] "x" (Scalar "int" 0) false
      ⟨"x", Scalar "int" 0⟩ rfl rfl (by decide),
    declareSymbol_redeclared bodyWithX 1 [0] "x" (Scalar "char" 1) true
      ⟨"x", Scalar "int" 0⟩ rfl rfl (by decide)⟩

/-- C18 (counterexample): a parameter `p` of type `struct node` by value, declared in a
function body while `node` has no field table, is reported as
`pointer type required` only; `'p' has incomplete type` is not reported. -/
theorem declareSymbol_parameter_incomplete :
    (declareSymbol (openScope globalScope).2 "p" (Scalar "node" 0) true).map
        (fun r => r.2) = some [⟨nonpointer, "p"⟩] ∧
      fieldsCount (openScope globalScope).2.fields "node" = 0 := by
  decide

/-- C18 (amended): for a name not yet declared in the current scope, `declareSymbol`
inserts the symbol at the end of the current scope and reports: for a
structure by value, `pointer type required` when the symbol is a parameter, a
callback or a function; `has incomplete type` when it is none of these and
the structure tag has no field table; nothing when it is none of these and
the tag is registered; and nothing for a type that is not a structure by
value. -/
theorem declareSymbol_structure (c : Checker) (top : ScopeId) (rest : List ScopeId)
    (name : String) (type : CType) (isParameter : Bool)
    (htop : c.toplevel = top :: rest) (hfresh : scopeFind (c.scopes top) name = none) :
    ∃ d, declareSymbol c name type isParameter =
        some ({ c with scopes := setScope c.scopes top (c.scopes top ++ [⟨name, type⟩]) },
          d) ∧
      (isStructure type = true →
        (isParameter = true ∨ type.isCallback = true ∨ type.isFunction = true) →
        d = [⟨nonpointer, name⟩]) ∧
      (isStructure type = true →
        ¬ (isParameter = true ∨ type.isCallback = true ∨ type.isFunction = true) →
        fieldsCount c.fields type.specifier = 0 → d = [⟨incomplete, name⟩]) ∧
      (isStructure type = true →
        ¬ (isParameter = true ∨ type.isCallback = true ∨ type.isFunction = true) →
        fieldsCount c.fields type.specifier ≠ 0 → d = []) ∧
      (isStructure type = false → d = []) := by
  refine ⟨_, declareSymbol_fresh c top rest name type isParameter htop hfresh, ?_, ?_, ?_, ?_⟩
  · intro hs hp
    have : (isParameter || type.isCallback || type.isFunction) = true := by
      rcases hp with h | h | h <;> simp [h]
    simp [structureDiagnostic, hs, this, report]
  · intro hs hp hc
    have : (isParameter || type.isCallback || type.isFunction) = false := by
      cases h1 : isParameter <;> cases h2 : type.isCallback <;> cases h3 : type.isFunction <;>
        simp_all
    simp [structureDiagnostic, hs, this, hc, report]
  · intro hs hp hc
    have : (isParameter || type.isCallback || type.isFunction) = false := by
      cases h1 : isParameter <;> cases h2 : type.isCallback <;> cases h3 : type.isFunction <;>
        simp_all
    simp [structureDiagnostic, hs, this, hc]
  · intro hs
    simp [structureDiagnostic, hs]

/-- The amended C18 in a function body: a local `struct node` variable with no field
table for `node` is reported as incomplete, and an `int` is not reported. -/
theorem declareSymbol_structure_witness :
    (declareSymbol (openScope globalScope).2 "v" (Scalar "node" 0) false).map
        (fun r => r.2) = some [⟨incomplete, "v"⟩] ∧
      (declareSymbol (openScope globalScope).2 "n" (Scalar "int" 0) false).map
        (fun r => r.2) = some [] := by
  obtain ⟨d1, h1, _, h3, _, _⟩ :=
    declareSymbol_structure (openScope globalScope).2 1 [0] "v" (Scalar "node" 0) false
      rfl rfl
  obtain ⟨d2, h2, _, _, _, h5⟩ :=
    declareSymbol_structure (openScope globalScope).2 1 [0] "n" (Scalar "int" 0) false
      rfl rfl
  rw [h1, h2, h3 rfl (by decide) rfl, h5 rfl]
  exact ⟨rfl, rfl⟩

theorem structureDiagnostic_length (c : Checker) (name : String) (type : CType)
    (isParameter : Bool) : (structureDiagnostic c name type isParameter).length ≤ 1 := by
  unfold structureDiagnostic
  split_ifs <;> simp [report]

/-- C19: one call of `declareSymbol`, of `defineFunction`, of `checkIdentifier` or of
`openStruct` reports at most one diagnostic. `declareSymbol` and
`checkIdentifier` return whenever `toplevel` is not null, `defineFunction`
whenever `outermost` is not null and its scope holds at most one symbol
called `name`, and `openStruct` always. -/
theorem declarations_one_diagnostic (c : Checker) (name : String) (type : CType)
    (isParameter : Bool) :
    (∀ r, declareSymbol c name type isParameter = some r → r.2.length ≤ 1) ∧
    (c.toplevel ≠ [] → (declareSymbol c name type isParameter).isSome = true) ∧
    (∀ r, defineFunction c name type = some r → r.2.2.length ≤ 1) ∧
    (∀ out, c.outermost = some out → countName (c.scopes out) name ≤ 1 →
      (defineFunction c name type).isSome = true) ∧
    (∀ r, checkIdentifier c name = some r → r.2.2.length ≤ 1) ∧
    (c.toplevel ≠ [] → (checkIdentifier c name).isSome = true) ∧
    (openStruct c name).2.length ≤ 1 := by
  refine ⟨?_, ?_, ?_, ?_, ?_, ?_, ?_⟩
  · intro r h
    unfold declareSymbol at h
    split at h
    · cases h
    · split at h
      · split at h
        · cases h; exact structureDiagnostic_length _ _ _ _
        · cases h
      · split_ifs at h <;> cases h
        · simp [report]
        · simp [report]
        · exact structureDiagnostic_length _ _ _ _
  · intro h
    cases ht : c.toplevel with
    | nil => exact absurd ht h
    | cons top rest =>
      cases hfind : scopeFind (c.scopes top) name with
      | none => rw [declareSymbol_fresh c top rest name type isParameter ht hfind]; rfl
      | some s =>
        simp only [declareSymbol, ht, hfind]
        split_ifs <;> rfl
  · intro r h
    unfold defineFunction at h
    split at h
    · cases h
    · simp only at h
      split at h
      · cases h
        simp only
        split_ifs <;> simp [report]
      · cases h
  · intro out hout hone
    rw [defineFunction_returns c out name type hout hone]
    rfl
  · intro r h
    unfold checkIdentifier at h
    split at h
    · cases h
    · split at h
      · cases h; simp
      · split at h
        · cases h; simp [report]
        · cases h
  · intro h
    cases ht : c.toplevel with
    | nil => exact absurd ht h
    | cons top rest =>
      cases hl : scopeLookup c.scopes (top :: rest) name with
      | some s => simp [checkIdentifier, ht, hl]
      | none =>
        have hfind : scopeFind (c.scopes top) name = none := by
          unfold scopeLookup at hl
          split at hl
          · cases hl
          · assumption
        simp [checkIdentifier, ht, hl, scopeInsert, hfind]
  · unfold openStruct
    split_ifs <;> simp [report]

/-- C19 in the global scope holding `int f; char g;`: each of the four operations
returns, with at most one diagnostic. -/
theorem declarations_one_diagnostic_witness :
    (declareSymbol twoGlobals "f" (Scalar "char" 0) false).isSome = true ∧
      (defineFunction twoGlobals "f" (Scalar "node" 0)).isSome = true ∧
      (checkIdentifier twoGlobals "h").isSome = true ∧
      (openStruct twoGlobals "f").2.length ≤ 1 :=
  have h := declarations_one_diagnostic twoGlobals "f" (Scalar "char" 0) false
  have h2 := declarations_one_diagnostic twoGlobals "f" (Scalar "node" 0) false
  have h3 := declarations_one_diagnostic twoGlobals "h" (Scalar "node" 0) false
  ⟨h.2.1 (by decide), h2.2.2.2.1 0 rfl (by decide), h3.2.2.2.2.2.1 (by decide),
    h.2.2.2.2.2.2⟩

theorem silentOnError_of_isError (fields : Fields) (left right : CType) (args : Parameters)
    (id : String) (lvalue : Bool) (h : left.isError = true ∨ right.isError = true) :
    SilentOnError fields left right args id lvalue :=
  error_operand_silent fields left right args id lvalue h

theorem scopeLookup_congr (scopes1 scopes2 : ScopeId → Symbols) (chain : List ScopeId)
    (name : String) (h : ∀ id ∈ chain, scopes1 id = scopes2 id) :
    scopeLookup scopes1 chain name = scopeLookup scopes2 chain name := by
  induction chain with
  | nil => rfl
  | cons a rest ih =>
    unfold scopeLookup
    rw [h a (by simp), ih (fun id hid => h id (by simp [hid]))]

theorem checkIdentifier_visible (c : Checker) (name : String) (s : Symbol)
    (hne : c.toplevel ≠ []) (h : scopeLookup c.scopes c.toplevel name = some s) :
    checkIdentifier c name = some (s, c, []) := by
  cases ht : c.toplevel with
  | nil => exact absurd ht hne
  | cons top rest =>
    rw [ht] at h
    simp [checkIdentifier, ht, h]

/-- C13 (counterexample): the undeclared name `x`, used in a block and used again
after the block is closed, is reported both times. -/
theorem checkIdentifier_reported_again :
    useAfterClose = some ([⟨undeclared, "x"⟩], [⟨undeclared, "x"⟩]) := by
  decide

/-- C13 (amended): if `name` is not visible from the current scope chain,
`checkIdentifier(name)` reports exactly one `undeclared` diagnostic, appends a
symbol of the Error type for `name` to the current top scope and returns it.
A later `checkIdentifier(name)` for which that symbol is still the innermost
visible one, as it is directly afterwards and after a further `openScope`,
reports nothing and returns it. Every check function that has the Error type
as an operand, or as the callee of `checkCall`, returns the Error type with
no diagnostic. If `name` is visible, `checkIdentifier` reports nothing, returns
the innermost visible symbol and leaves the state unchanged. -/
theorem checkIdentifier_spec (c : Checker) (top : ScopeId) (rest : List ScopeId)
    (name : String) (htop : c.toplevel = top :: rest)
    (hlive : ∀ id ∈ c.toplevel, id < c.next) :
    (scopeLookup c.scopes c.toplevel name = none →
      ∃ c1, checkIdentifier c name = some (⟨name, error⟩, c1, [⟨undeclared, name⟩]) ∧
        c1.scopes top = c.scopes top ++ [⟨name, error⟩] ∧
        (∀ id, id ≠ top → c1.scopes id = c.scopes id) ∧
        c1.toplevel = c.toplevel ∧
        checkIdentifier c1 name = some (⟨name, error⟩, c1, []) ∧
        checkIdentifier (openScope c1).2 name = some (⟨name, error⟩, (openScope c1).2, [])) ∧
    (∀ fields left right args id lvalue, left.isError = true ∨ right.isError = true →
      SilentOnError fields left right args id lvalue) ∧
    (∀ s, scopeLookup c.scopes c.toplevel name = some s →
      checkIdentifier c name = some (s, c, [])) := by
  refine ⟨?_, fun fields left right args id lvalue h =>
    silentOnError_of_isError fields left right args id lvalue h, ?_⟩
  · intro hl
    have hfind : scopeFind (c.scopes top) name = none := by
      rw [htop] at hl
      unfold scopeLookup at hl
      split at hl
      · cases hl
      · assumption
    have hlook1 : scopeLookup
        (setScope c.scopes top (c.scopes top ++ [⟨name, error⟩])) (top :: rest) name =
        some ⟨name, error⟩ := by
      unfold scopeLookup
      simp [setScope, scopeFind_append, hfind]
    refine ⟨{ c with scopes := setScope c.scopes top (c.scopes top ++ [⟨name, error⟩]) },
      ?_, ?_, ?_, rfl, ?_, ?_⟩
    · rw [htop] at hl
      simp [checkIdentifier, htop, hl, scopeInsert, hfind, report]
    · simp [setScope]
    · intro id hid
      simp [setScope, hid]
    · apply checkIdentifier_visible
      · simp [htop]
      · simpa [htop] using hlook1
    · apply checkIdentifier_visible
      · unfold openScope; simp only; split_ifs <;> simp
      · have hnext : top ≠ c.next := by
          exact Nat.ne_of_lt (hlive top (by simp [htop]))
        have hchain : ∀ id ∈ top :: rest, id ≠ c.next := by
          intro id hid
          exact Nat.ne_of_lt (hlive id (by simpa [htop] using hid))
        have hscopes : (openScope { c with
            scopes := setScope c.scopes top (c.scopes top ++ [⟨name, error⟩]) }).2.scopes =
            setScope (setScope c.scopes top (c.scopes top ++ [⟨name, error⟩])) c.next [] := by
          unfold openScope; simp only; split_ifs <;> rfl
        have htl : (openScope { c with
            scopes := setScope c.scopes top (c.scopes top ++ [⟨name, error⟩]) }).2.toplevel =
            c.next :: top :: rest := by
          unfold openScope; simp only; split_ifs <;> simp [htop]
        rw [hscopes, htl]
        unfold scopeLookup
        simp only [setScope, if_true, scopeFind]
        rw [← hlook1]
        apply scopeLookup_congr
        intro id hid
        simp [setScope, hchain id hid]
  · intro s hs
    exact checkIdentifier_visible c name s (by simp [htop]) hs

/-- The amended C13 in the global scope: the first use of the undeclared `x` is
reported, the second one is not. -/
theorem checkIdentifier_spec_witness :
    ∃ c1, checkIdentifier globalScope "x" = some (⟨"x", error⟩, c1, [⟨undeclared, "x"⟩]) ∧
      checkIdentifier c1 "x" = some (⟨"x", error⟩, c1, []) := by
  obtain ⟨c1, h1, _, _, _, h5, _⟩ :=
    (checkIdentifier_spec globalScope 0 [] "x" rfl (by decide)).1 rfl
  exact ⟨c1, h1, h5⟩

theorem openScope_toplevel (c : Checker) :
    (openScope c).2.toplevel = c.next :: c.toplevel ∧
    (openScope c).2.scopes = setScope c.scopes c.next [] ∧
    (openScope c).2.fields = c.fields ∧ (openScope c).2.next = c.next + 1 ∧
    (openScope c).2.outermost = (if c.outermost = none then some c.next else c.outermost) := by
  unfold openScope
  simp only
  split_ifs with h <;> simp [h]

/-- C14: with a symbol `x` of type `g` in the outermost scope, which is the current
scope, and the scopes in use allocated below `next`: after `openScope()`,
`declareSymbol(x, t, true)` inserts the symbol and reports neither a
redeclaration nor conflicting types; `checkIdentifier(x)` then returns the
inner symbol of type `t`; after `closeScope()`, `checkIdentifier(x)` returns
the outermost symbol of type `g`; the symbol list of the outermost scope is
the same in all these states. -/
theorem shadowing (c : Checker) (out : ScopeId) (rest : List ScopeId) (x : String)
    (g t : CType) (htop : c.toplevel = out :: rest) (hout : c.outermost = some out)
    (hx : scopeFind (c.scopes out) x = some ⟨x, g⟩) (hlive : out < c.next) :
    ∃ c2 d old c3,
      declareSymbol (openScope c).2 x t true = some (c2, d) ∧
      (∀ e ∈ d, e.format ≠ redeclared ∧ e.format ≠ conflicting) ∧
      checkIdentifier c2 x = some (⟨x, t⟩, c2, []) ∧
      closeScope c2 = some (old, c3) ∧
      checkIdentifier c3 x = some (⟨x, g⟩, c3, []) ∧
      c3.toplevel = c.toplevel ∧ c3.outermost = some out ∧
      (openScope c).2.scopes out = c.scopes out ∧ c2.scopes out = c.scopes out ∧
      c3.scopes out = c.scopes out := by
  obtain ⟨ho1, ho2, ho3, ho4, ho5⟩ := openScope_toplevel c
  have hne : out ≠ c.next := Nat.ne_of_lt hlive
  have hfresh : scopeFind ((openScope c).2.scopes c.next) x = none := by
    rw [ho2]; simp [setScope, scopeFind]
  have hdecl := declareSymbol_fresh (openScope c).2 c.next c.toplevel x t true ho1 hfresh
  have hsame : (openScope c).2.scopes out = c.scopes out := by
    rw [ho2]; simp [setScope, hne]
  have hinner : setScope (openScope c).2.scopes c.next
      ((openScope c).2.scopes c.next ++ [⟨x, t⟩]) out = c.scopes out := by
    simp [setScope, hne, hsame]
  refine ⟨_, _, c.next, { (openScope c).2 with
      scopes := setScope (openScope c).2.scopes c.next
        ((openScope c).2.scopes c.next ++ [⟨x, t⟩])
      toplevel := c.toplevel }, hdecl, ?_, ?_, ?_, ?_, rfl, ?_, hsame, hinner, hinner⟩
  · intro e he
    have n1 : nonpointer ≠ redeclared := by decide
    have n2 : nonpointer ≠ conflicting := by decide
    have n3 : incomplete ≠ redeclared := by decide
    have n4 : incomplete ≠ conflicting := by decide
    unfold structureDiagnostic at he
    split_ifs at he <;> simp [report] at he
    · subst he; exact ⟨n1, n2⟩
    · subst he; exact ⟨n3, n4⟩
  · apply checkIdentifier_visible
    · simp [ho1]
    · simp only [ho1]
      unfold scopeLookup
      simp [setScope, scopeFind_append, hfresh]
  · simp [closeScope, ho1]
  · apply checkIdentifier_visible
    · simp [htop]
    · simp only [htop]
      unfold scopeLookup
      rw [hinner, hx]
  · show (openScope c).2.outermost = some out
    rw [ho5, hout]
    rfl

/-- C14 in the global scope holding `int f; char g;`: a parameter `f` of type
`char *` shadows the global `f` in the function body, and the global `f` is
visible again once the body is closed. -/
theorem shadowing_witness :
    ∃ c2 d old c3,
      declareSymbol (openScope twoGlobals).2 "f" (Scalar "char" 1) true = some (c2, d) ∧
      checkIdentifier c2 "f" = some (⟨"f", Scalar "char" 1⟩, c2, []) ∧
      closeScope c2 = some (old, c3) ∧
      checkIdentifier c3 "f" = some (⟨"f", Scalar "int" 0⟩, c3, []) := by
  obtain ⟨c2, d, old, c3, h1, _, h3, h4, h5, _⟩ :=
    shadowing twoGlobals 0 [] "f" (Scalar "int" 0) (Scalar "char" 1) rfl rfl rfl (by decide)
  exact ⟨c2, d, old, c3, h1, h3, h4, h5⟩

theorem fieldsFind_erase (l : List (String × ScopeId)) (name : String) :
    fieldsFind (fieldsErase l name) name = none := by
  induction l with
  | nil => rfl
  | cons a rest ih =>
    obtain ⟨k, id⟩ := a
    unfold fieldsErase at ih ⊢
    by_cases h : (k == name) = true
    · simp [List.filter_cons, h, ih]
    · simp only [List.filter_cons, h, Bool.not_false, if_true, Bool.false_eq_true,
        Bool.not_eq_true', fieldsFind, if_false]
      simpa [h] using ih

theorem fieldsFind_set (l : List (String × ScopeId)) (name : String) (id : ScopeId) :
    fieldsFind (fieldsSet l name id) name = some id := by
  simp [fieldsSet, fieldsFind]

theorem declareFields_spec (fs : List (String × CType)) :
    ∀ (c : Checker) (top : ScopeId) (rest : List ScopeId),
      c.toplevel = top :: rest →
      (fs.map Prod.fst).Nodup →
      (∀ p ∈ fs, scopeFind (c.scopes top) p.1 = none) →
      ∃ c2 d, declareFields c fs = some (c2, d) ∧
        c2.scopes top = c.scopes top ++ fs.map (fun p => ⟨p.1, p.2⟩) ∧
        c2.toplevel = c.toplevel ∧ c2.fields = c.fields ∧ c2.next = c.next ∧
        (∀ e ∈ d, e.format = nonpointer ∨ e.format = incomplete) := by
  induction fs with
  | nil =>
    intro c top rest _ _ _
    exact ⟨c, [], rfl, by simp, rfl, rfl, rfl, by simp⟩
  | cons a tail ih =>
    intro c top rest htop hnodup hfresh
    obtain ⟨name, type⟩ := a
    have hf0 : scopeFind (c.scopes top) name = none := hfresh (name, type) (by simp)
    have hdecl := declareSymbol_fresh c top rest name type false htop hf0
    simp only [List.map_cons, List.nodup_cons] at hnodup
    obtain ⟨c2, d, h1, h2, h3, h4, h5, h6⟩ :=
      ih { c with scopes := setScope c.scopes top (c.scopes top ++ [⟨name, type⟩]) }
        top rest htop hnodup.2 (by
          intro p hp
          have hne : p.1 ≠ name := by
            intro hc
            exact hnodup.1 (hc ▸ List.mem_map_of_mem Prod.fst hp)
          have hp0 := hfresh p (by simp [hp])
          simp [setScope, scopeFind_append, hp0, hne])
    refine ⟨c2, structureDiagnostic c name type false ++ d, ?_, ?_, h3, h4, h5, ?_⟩
    · simp [declareFields, hdecl, h1]
    · rw [h2]; simp [setScope]
    · intro e he
      rcases List.mem_append.1 he with he | he
      · unfold structureDiagnostic at he
        split_ifs at he <;> simp [report] at he
        · subst he; exact Or.inl rfl
        · subst he; exact Or.inr rfl
      · exact h6 e he

/-- C20: for a tag with no registered field table, `openStruct(tag)` reports nothing;
the `declareSymbol` calls for fields of distinct names that follow report no
redefinition; `closeStruct(tag)` then leaves `toplevel` as it was before
`openStruct` and registers under the tag the new scope, which holds exactly
the declared fields in declaration order. A later `openScope` or
`closeScope` changes neither the map of field tables nor the symbols of a
scope that exists. `openStruct` on a tag that has a registered table
reports exactly one `redefinition` diagnostic and leaves the tag without a
table. -/
theorem struct_layout_persists (c : Checker) (tag : String) (fs : List (String × CType))
    (hcount : fieldsCount c.fields tag = 0) (hnodup : (fs.map Prod.fst).Nodup) :
    (∃ c2 d c3, (openStruct c tag).2 = [] ∧
      declareFields (openStruct c tag).1 fs = some (c2, d) ∧
      (∀ e ∈ d, e.format ≠ redefined) ∧
      closeStruct c2 tag = some c3 ∧
      c3.toplevel = c.toplevel ∧
      fieldsFind c3.fields tag = some c.next ∧
      c3.scopes c.next = fs.map (fun p => ⟨p.1, p.2⟩) ∧
      c.next < c3.next) ∧
    (∀ (k : Checker) (id : ScopeId), id < k.next →
      (openScope k).2.fields = k.fields ∧ (openScope k).2.scopes id = k.scopes id ∧
      id < (openScope k).2.next) ∧
    (∀ (k : Checker) (r : ScopeId × Checker), closeScope k = some r →
      r.2.fields = k.fields ∧ r.2.scopes = k.scopes ∧ r.2.next = k.next) ∧
    (∀ k : Checker, fieldsCount k.fields tag > 0 →
      (openStruct k tag).2 = [⟨redefined, tag⟩] ∧
      fieldsCount (openStruct k tag).1.fields tag = 0) := by
  refine ⟨?_, ?_, ?_, ?_⟩
  · obtain ⟨ho1, ho2, ho3, ho4, _⟩ := openScope_toplevel c
    have hopen : openStruct c tag = ((openScope c).2, []) := by
      simp [openStruct, hcount]
    obtain ⟨c2, d, h1, h2, h3, h4, h5, h6⟩ :=
      declareFields_spec fs (openScope c).2 c.next c.toplevel ho1 hnodup (by
        intro p _
        rw [ho2]; simp [setScope, scopeFind])
    have hclose : closeStruct c2 tag =
        some { c2 with toplevel := c.toplevel, fields := fieldsSet c2.fields tag c.next } := by
      simp [closeStruct, closeScope, h3, ho1]
    refine ⟨c2, d, _, by rw [hopen], by rw [hopen]; exact h1, ?_, hclose, rfl,
      fieldsFind_set _ _ _, ?_, ?_⟩
    · intro e he
      have n1 : nonpointer ≠ redefined := by decide
      have n2 : incomplete ≠ redefined := by decide
      rcases h6 e he with h | h <;> rw [h]
      · exact n1
      · exact n2
    · show c2.scopes c.next = _
      rw [h2, ho2]; simp [setScope]
    · show c.next < c2.next
      rw [h5, ho4]; exact Nat.lt_succ_self _
  · intro k id hid
    obtain ⟨_, ho2, ho3, ho4, _⟩ := openScope_toplevel k
    refine ⟨ho3, ?_, ?_⟩
    · rw [ho2]; simp [setScope, Nat.ne_of_lt hid]
    · rw [ho4]; exact Nat.lt_succ_of_lt hid
  · intro k r h
    unfold closeScope at h
    split at h
    · cases h
    · cases h; exact ⟨rfl, rfl, rfl⟩
  · intro k hk
    have hk' : ¬ fieldsCount k.fields tag = 0 := by omega
    obtain ⟨_, _, ho3, _, _⟩ := openScope_toplevel { k with fields := fieldsErase k.fields tag }
    constructor
    · simp [openStruct, hk, report]
    · simp only [openStruct, hk, if_true]
      rw [ho3]
      simp [fieldsCount, fieldsFind_erase]

/-- C20 in the global scope: the body `{ int data; struct node *next; }` of
`struct node` is registered with its two fields in order, and the global scope
is the current scope again. -/
theorem struct_layout_persists_witness :
    ∃ c2 d c3,
      declareFields (openStruct globalScope "node").1
        [("data", Scalar "int" 0), ("next", Scalar "node" 1)] = some (c2, d) ∧
      closeStruct c2 "node" = some c3 ∧
      c3.toplevel = [0] ∧
      fieldsFind c3.fields "node" = some 1 ∧
      c3.scopes 1 = [⟨"data", Scalar "int" 0⟩, ⟨"next", Scalar "node" 1⟩] := by
  obtain ⟨c2, d, c3, _, h2, _, h4, h5, h6, h7, _⟩ :=
    (struct_layout_persists globalScope "node"
      [("data", Scalar "int" 0), ("next", Scalar "node" 1)] rfl (by decide)).1
  exact ⟨c2, d, c3, h2, h4, h5, h6, h7⟩

/-- The view of the field tables that the check functions read agrees with the
checker's map: a tag is found in one exactly when it is found in the other,
with the symbols of the registered scope. -/
theorem fieldTable_find (c : Checker) (name : String) :
    Fields.find c.fieldTable name =
      (fieldsFind c.fields name).map (fun id => Scope.mk (c.scopes id) none) ∧
    Fields.count c.fieldTable name = fieldsCount c.fields name := by
  have h : ∀ l : List (String × ScopeId),
      Fields.find (l.map (fun p => (p.1, Scope.mk (c.scopes p.2) none))) name =
        (fieldsFind l name).map (fun id => Scope.mk (c.scopes id) none) := by
    intro l
    induction l with
    | nil => rfl
    | cons a rest ih =>
      obtain ⟨k, id⟩ := a
      simp only [List.map_cons, Fields.find, fieldsFind]
      split_ifs
      · rfl
      · exact ih
  refine ⟨h c.fields, ?_⟩
  unfold Fields.count fieldsCount Checker.fieldTable
  rw [h c.fields]
  cases fieldsFind c.fields name <;> rfl

/-! ## Scenarios and contracts of the checker -/

theorem isError_of_isFunction (t : CType) (h : t.isFunction = true) : t.isError = false := by
  cases t with
  | mk k s i l p =>
    cases k <;> simp_all [CType.isFunction, CType.isError, CType.kind]

theorem any_not_isValue (args : Parameters) (hv : ∀ a ∈ args, a.isValue = true) :
    args.any (fun t => !t.isValue) = false := by
  rw [List.any_eq_false]
  intro a ha
  simp [hv a ha]

/-- C22: a callee of Function type with a known parameter list, called with value
arguments whose number differs from the number of parameters, makes `checkCall`
return the Error type and report `invalid arguments to called function` once. -/
theorem checkCall_wrong_count (left : CType) (formals args : Parameters)
    (hf : left.isFunction = true) (hp : left.parameters = some (some formals))
    (hv : ∀ a ∈ args, a.isValue = true) (hn : formals.length ≠ args.length) :
    checkCall left args = some (error, [⟨invalidArgs, ""⟩]) := by
  unfold checkCall
  simp [isError_of_isFunction left hf, hf, any_not_isValue args hv, hp, hn, report]

/-- C22 at a function of two parameters called with one argument. -/
theorem checkCall_wrong_count_witness :
    checkCall (Function "int" 0 (some [Scalar "int" 0, Scalar "char" 1])) [Scalar "int" 0] =
      some (error, [⟨invalidArgs, ""⟩]) :=
  checkCall_wrong_count (Function "int" 0 (some [Scalar "int" 0, Scalar "char" 1]))
    [Scalar "int" 0, Scalar "char" 1] [Scalar "int" 0] rfl rfl
    (by intro a ha; simp at ha; subst ha; rfl) (by decide)

theorem isError_of_isScalar (t : CType) (h : t.isScalar = true) : t.isError = false := by
  cases t with
  | mk k s i l p =>
    cases k <;> simp_all [CType.isScalar, CType.isError, CType.kind]

theorem isScalar_of_promote (t : CType) (h : t.promote.isScalar = true) : t.isError = false := by
  cases t with
  | mk k s i l p =>
    cases k <;> simp_all [CType.isScalar, CType.isError, CType.kind, CType.promote, CType.isArray]

theorem isScalar_of_isInteger (t : CType) (h : t.isInteger = true) : t.isScalar = true := by
  unfold CType.isInteger at h
  simp only [Bool.and_eq_true] at h
  exact h.1.1

theorem isScalar_of_isPointer (t : CType) (h : t.isPointer = true) : t.isScalar = true := by
  unfold CType.isPointer at h
  simp only [Bool.and_eq_true] at h
  exact h.1

theorem isInteger_not_isPointer (t : CType) (h : t.isInteger = true) : t.isPointer = false := by
  unfold CType.isInteger at h
  unfold CType.isPointer
  simp only [Bool.and_eq_true, beq_iff_eq] at h
  simp [h.1.2]

theorem promote_Array (s : String) (i n : Nat) : (Array s i n).promote = Scalar s (i + 1) := rfl

theorem isPointer_promote_Array (s : String) (i n : Nat) :
    (Array s i n).promote.isPointer = true := by
  simp [promote_Array, CType.isPointer, Scalar, CType.isScalar, CType.kind, CType.indirection]

/-- C23: `checkAddition` reports nothing and returns the integer type when both
operands promote to integers, the promoted left type when that is a pointer to a
complete type and the right operand promotes to an integer, and the promoted
right type when the left operand promotes to an integer and the right one to a
pointer to a complete type; an array operand counts as the pointer it promotes
to. -/
theorem checkAddition_spec (fields : Fields) (left right : CType) :
    (left.promote.isInteger = true → right.promote.isInteger = true →
      checkAddition fields left right = (integer, [])) ∧
    (left.promote.isPointer = true → isCompletePointer fields left.promote = true →
      right.promote.isInteger = true →
      checkAddition fields left right = (left.promote, [])) ∧
    (left.promote.isInteger = true → right.promote.isPointer = true →
      isCompletePointer fields right.promote = true →
      checkAddition fields left right = (right.promote, [])) ∧
    (∀ s i n, left = Array s i n → isCompletePointer fields (Scalar s (i + 1)) = true →
      right.promote.isInteger = true →
      checkAddition fields left right = (Scalar s (i + 1), [])) ∧
    (∀ s i n, right = Array s i n → left.promote.isInteger = true →
      isCompletePointer fields (Scalar s (i + 1)) = true →
      checkAddition fields left right = (Scalar s (i + 1), [])) := by
  have h2 : left.promote.isPointer = true → isCompletePointer fields left.promote = true →
      right.promote.isInteger = true →
      checkAddition fields left right = (left.promote, []) := by
    intro hp hc hi
    have hl := isScalar_of_promote left (isScalar_of_isPointer _ hp)
    have hr := isScalar_of_promote right (isScalar_of_isInteger _ hi)
    have hni : left.promote.isInteger = false := by
      cases h : left.promote.isInteger
      · rfl
      · rw [isInteger_not_isPointer _ h] at hp; cases hp
    unfold checkAddition
    simp [hl, hr, hp, hc, hi, hni]
  have h3 : left.promote.isInteger = true → right.promote.isPointer = true →
      isCompletePointer fields right.promote = true →
      checkAddition fields left right = (right.promote, []) := by
    intro hi hp hc
    have hl := isScalar_of_promote left (isScalar_of_isInteger _ hi)
    have hr := isScalar_of_promote right (isScalar_of_isPointer _ hp)
    have hni : right.promote.isInteger = false := by
      cases h : right.promote.isInteger
      · rfl
      · rw [isInteger_not_isPointer _ h] at hp; cases hp
    have hv : left.promote.isValue = true := isScalar_of_isInteger _ hi
    unfold checkAddition
    simp [hl, hr, hp, hc, hi, hni, hv]
  refine ⟨?_, h2, h3, ?_, ?_⟩
  · intro hi1 hi2
    have hl := isScalar_of_promote left (isScalar_of_isInteger _ hi1)
    have hr := isScalar_of_promote right (isScalar_of_isInteger _ hi2)
    unfold checkAddition
    simp [hl, hr, hi1, hi2]
  · intro s i n hA hc hi
    subst hA
    exact h2 (isPointer_promote_Array s i n) hc hi
  · intro s i n hA hi hc
    subst hA
    exact h3 hi (isPointer_promote_Array s i n) hc

/-- C23 at `int + char`, at `struct node * + int` with `struct node` defined, and at
`int` plus an array of `int`. -/
theorem checkAddition_spec_witness :
    checkAddition nodeFields (Scalar "int" 0) (Scalar "char" 0) = (integer, []) ∧
    checkAddition nodeFields (Scalar "node" 1) (Scalar "int" 0) = (Scalar "node" 1, []) ∧
    checkAddition nodeFields (Scalar "int" 0) (Array "int" 0 10) = (Scalar "int" 1, []) :=
  ⟨(checkAddition_spec nodeFields (Scalar "int" 0) (Scalar "char" 0)).1 rfl rfl,
    (checkAddition_spec nodeFields (Scalar "node" 1) (Scalar "int" 0)).2.1 rfl rfl rfl,
    (checkAddition_spec nodeFields (Scalar "int" 0) (Array "int" 0 10)).2.2.2.2
      "int" 0 10 rfl rfl rfl⟩

theorem promote_of_isScalar (t : CType) (h : t.isScalar = true) : t.promote = t := by
  cases t with
  | mk k s i l p =>
    cases k <;> simp_all [CType.isScalar, CType.kind, CType.promote, CType.isArray]

theorem isCompatibleWith_specifier (t u : CType) (ht : t.isScalar = true)
    (hu : u.isScalar = true) (h : t.isCompatibleWith u = true) : t.specifier = u.specifier := by
  unfold CType.isCompatibleWith at h
  rw [promote_of_isScalar t ht, promote_of_isScalar u hu] at h
  simp only [Bool.and_eq_true, beq_iff_eq] at h
  exact h.1

/-- C24 (counterexample): with `struct node` not yet defined, subtracting a
`struct node *` from a `struct node **` reports `using pointer to incomplete
type`, although the left operand is a pointer to a complete type. -/
theorem checkSubtraction_right_incomplete :
    checkSubtraction [] (Scalar "node" 2) (Scalar "node" 1) =
      (error, [⟨incompleteType, ""⟩]) ∧
    (Scalar "node" 2).promote.isPointer = true ∧
    isCompletePointer [] (Scalar "node" 2).promote = true := by
  exact ⟨rfl, rfl, rfl⟩

/-- C24 (amended): for non-Error operands `checkSubtraction` succeeds without
diagnostic in exactly three cases: integer minus integer gives the integer type,
a pointer to a complete type minus an integer gives the promoted left type, and
two compatible pointers to complete types give the integer type. In every other
case it returns the Error type with exactly one diagnostic: `using pointer to
incomplete type` when the left operand is a pointer to an incomplete structure
and the right one an integer, or when both are pointers with the same specifier
and at least one of them points to an incomplete structure; `invalid operands to
binary -` otherwise. -/
theorem checkSubtraction_spec (fields : Fields) (left right : CType)
    (hl : left.isError = false) (hr : right.isError = false) :
    (left.promote.isInteger = true → right.promote.isInteger = true →
      checkSubtraction fields left right = (integer, [])) ∧
    (left.promote.isPointer = true → isCompletePointer fields left.promote = true →
      right.promote.isInteger = true →
      checkSubtraction fields left right = (left.promote, [])) ∧
    (left.promote.isPointer = true → right.promote.isPointer = true →
      isCompletePointer fields left.promote = true →
      isCompletePointer fields right.promote = true →
      left.promote.isCompatibleWith right.promote = true →
      checkSubtraction fields left right = (integer, [])) ∧
    ((checkSubtraction fields left right).1.isError = false ↔
      (left.promote.isInteger = true ∧ right.promote.isInteger = true) ∨
      (left.promote.isPointer = true ∧ isCompletePointer fields left.promote = true ∧
        right.promote.isInteger = true) ∨
      (left.promote.isPointer = true ∧ right.promote.isPointer = true ∧
        isCompletePointer fields left.promote = true ∧
        isCompletePointer fields right.promote = true ∧
        left.promote.isCompatibleWith right.promote = true)) ∧
    ((checkSubtraction fields left right).1.isError = true →
      checkSubtraction fields left right =
        (error,
          [if (left.promote.isPointer = true ∧ isCompletePointer fields left.promote = false ∧
                right.promote.isInteger = true) ∨
              (left.promote.isPointer = true ∧ right.promote.isPointer = true ∧
                left.promote.specifier = right.promote.specifier ∧
                (isCompletePointer fields left.promote = false ∨
                  isCompletePointer fields right.promote = false))
            then ⟨incompleteType, ""⟩ else ⟨invalidBinary, "-"⟩])) := by
  have hip1 := isInteger_not_isPointer left.promote
  have hip2 := isInteger_not_isPointer right.promote
  have hsc1 := isScalar_of_isPointer left.promote
  have hsc2 := isScalar_of_isPointer right.promote
  have hcs := isCompatibleWith_specifier left.promote right.promote
  have hne : ∀ t : CType, t.isScalar = true → t.isError = false := isError_of_isScalar
  have hne1 := hne left.promote
  unfold checkSubtraction
  simp only [hl, hr, Bool.or_self, Bool.false_eq_true, if_false, report]
  generalize left.promote = t1 at *
  generalize right.promote = t2 at *
  cases h1 : t1.isInteger <;> cases h2 : t2.isInteger <;> cases h3 : t1.isPointer <;>
    cases h4 : t2.isPointer <;> cases h5 : isCompletePointer fields t1 <;>
    cases h6 : isCompletePointer fields t2 <;> cases h7 : t1.isCompatibleWith t2 <;>
    simp_all [isError_error, isError_integer] <;>
    split_ifs <;> simp [isError_error]

/-- The amended C24 at `struct node ** - struct node *` with `struct node` undefined, at
`int - int *`, and at a pointer to the defined `struct node` minus an array of such
structures. -/
theorem checkSubtraction_spec_witness :
    checkSubtraction [] (Scalar "node" 2) (Scalar "node" 1) =
      (error, [⟨incompleteType, ""⟩]) ∧
    checkSubtraction [] (Scalar "int" 0) (Scalar "int" 1) = (error, [⟨invalidBinary, "-"⟩]) ∧
    checkSubtraction nodeFields (Scalar "node" 1) (Array "node" 0 4) = (integer, []) :=
  ⟨((checkSubtraction_spec [] (Scalar "node" 2) (Scalar "node" 1) rfl rfl).2.2.2.2 rfl).trans
      rfl,
    ((checkSubtraction_spec [] (Scalar "int" 0) (Scalar "int" 1) rfl rfl).2.2.2.2 rfl).trans
      rfl,
    (checkSubtraction_spec nodeFields (Scalar "node" 1) (Array "node" 0 4) rfl rfl).2.2.1
      rfl rfl rfl rfl rfl⟩

/-- C25 (the code departs from the claim): with `struct node` not yet defined,
indexing a `struct node **` with an integer returns the Error type and reports
`using pointer to incomplete type`, although the promoted base is a pointer to
a complete type, the pointer `struct node *`; the claim requires the result
`struct node *` and no diagnostic. -/
theorem checkArray_double_pointer_rejected :
    checkArray [] (Scalar "node" 2) (Scalar "int" 0) = (error, [⟨incompleteType, ""⟩]) ∧
    (Scalar "node" 2).promote.isPointer = true ∧
    isCompletePointer [] (Scalar "node" 2).promote = true ∧
    (Scalar "int" 0).isInteger = true := by
  exact ⟨rfl, rfl, rfl, rfl⟩

theorem equalsList_iff (a : List CType) :
    ∀ b : List CType, CType.equalsList a b = true ↔
      List.Forall₂ (fun x y => CType.equals x y = true) a b := by
  induction a with
  | nil =>
    intro b
    cases b with
    | nil => simp [CType.equalsList]
    | cons y ys => simp [CType.equalsList]
  | cons x xs ih =>
    intro b
    cases b with
    | nil => simp [CType.equalsList]
    | cons y ys => simp [CType.equalsList, ih ys]

theorem equals_mk (k1 k2 : Kind) (s1 s2 : String) (i1 i2 l1 l2 : Nat)
    (p1 p2 : Option (List CType)) :
    (CType.mk k1 s1 i1 l1 p1).equals (CType.mk k2 s2 i2 l2 p2) =
      (if k1 ≠ k2 then false
      else if k1 = Kind.ERROR then true
      else if s1 ≠ s2 then false
      else if i1 ≠ i2 then false
      else if k1 = Kind.SCALAR then true
      else if k1 = Kind.ARRAY then l1 == l2
      else
        match p1, p2 with
        | some a, some b => CType.equalsList a b
        | _, _ => true) := by
  unfold CType.equals
  rfl

/-- C26: `operator==` is true if and only if both types are Error, or they agree in
kind, specifier and indirection and, for arrays, in length and, for functions
and callbacks, a parameter list is null or the two lists have the same length
and pairwise equal elements; `operator!=` is its negation. Arrays of different
lengths are unequal, and two Error types are equal whatever their other
fields. -/
theorem equals_spec (t rhs : CType) :
    (t.equals rhs = true ↔
      (t.isError = true ∧ rhs.isError = true) ∨
      (t.kind = rhs.kind ∧ t.specifier = rhs.specifier ∧ t.indirection = rhs.indirection ∧
        (t.isArray = true → t.length = rhs.length) ∧
        ((t.isFunction = true ∨ t.isCallback = true) →
          t._parameters = none ∨ rhs._parameters = none ∨
          ∃ a b, t._parameters = some a ∧ rhs._parameters = some b ∧
            a.length = b.length ∧
            List.Forall₂ (fun x y => CType.equals x y = true) a b))) ∧
    t.notEquals rhs = (!t.equals rhs) ∧
    (∀ (s : String) (i n m : Nat), n ≠ m → (Array s i n).equals (Array s i m) = false) ∧
    (∀ (s1 s2 : String) (i1 i2 l1 l2 : Nat) (p1 p2 : Option (List CType)),
      (CType.mk Kind.ERROR s1 i1 l1 p1).equals (CType.mk Kind.ERROR s2 i2 l2 p2) = true) := by
  refine ⟨?_, rfl, ?_, ?_⟩
  · obtain ⟨k1, s1, i1, l1, p1⟩ := t
    obtain ⟨k2, s2, i2, l2, p2⟩ := rhs
    rw [equals_mk]
    simp only [CType.isError, CType.isArray, CType.isFunction, CType.isCallback, CType.kind,
      CType.specifier, CType.indirection, CType.length, CType._parameters, beq_iff_eq]
    by_cases hk : k1 = k2
    · subst hk
      by_cases hs : s1 = s2
      · subst hs
        by_cases hi : i1 = i2
        · subst hi
          cases k1 <;> cases p1 <;> cases p2 <;>
            simp [equalsList_iff] <;>
            exact fun h => h.length_eq
        · cases k1 <;> simp [hi]
      · cases k1 <;> simp [hs]
    · simp only [hk, ne_eq, not_false_eq_true, if_true, Bool.false_eq_true, false_and,
        or_false, false_iff, not_and]
      intro h1 h2
      exact hk (h1.trans h2.symm)
  · intro s i n m hnm
    unfold Array CType.equals
    simp [hnm]
  · intro s1 s2 i1 i2 l1 l2 p1 p2
    unfold CType.equals
    simp

/-- C26 at two integer scalars, at arrays of lengths 4 and 5, at two Error types that
differ in every other field, and at functions with parameter lists of different
lengths. -/
theorem equals_spec_witness :
    (Scalar "int" 0).equals (Scalar "int" 0) = true ∧
    (Array "int" 0 4).equals (Array "int" 0 5) = false ∧
    error.equals (CType.mk Kind.ERROR "int" 3 7 none) = true ∧
    (Function "int" 0 (some [Scalar "int" 0])).equals
      (Function "int" 0 (some [Scalar "int" 0, Scalar "int" 0])) = false :=
  ⟨(equals_spec (Scalar "int" 0) (Scalar "int" 0)).1.2
      (Or.inr ⟨rfl, rfl, rfl, fun h => absurd h (by decide),
        fun h => absurd h (by decide)⟩),
    (equals_spec error error).2.2.1 "int" 0 4 5 (by decide),
    (equals_spec error error).2.2.2 "error" "int" 0 3 0 7 none none,
    by
      have h := (equals_spec (Function "int" 0 (some [Scalar "int" 0]))
        (Function "int" 0 (some [Scalar "int" 0, Scalar "int" 0]))).1
      cases hb : (Function "int" 0 (some [Scalar "int" 0])).equals
        (Function "int" 0 (some [Scalar "int" 0, Scalar "int" 0]))
      · rfl
      · rcases h.1 hb with h1 | ⟨_, _, _, _, h2⟩
        · exact absurd h1.1 (by decide)
        · rcases h2 (Or.inl rfl) with h3 | h3 | ⟨a, b, ha, hb2, hlen, _⟩
          · cases h3
          · cases h3
          · cases ha; cases hb2; cases hlen⟩

/-! ### Structures that become complete -/

theorem declareSymbol_total (c : Checker) (top : ScopeId) (rest : List ScopeId)
    (name : String) (type : CType) (isParameter : Bool) (htop : c.toplevel = top :: rest) :
    ∃ c1 d, declareSymbol c name type isParameter = some (c1, d) ∧
      c1.toplevel = c.toplevel ∧ c1.fields = c.fields ∧ c1.outermost = c.outermost ∧
      (c1.scopes = c.scopes ∨
        (scopeFind (c.scopes top) name = none ∧
          c1.scopes = setScope c.scopes top (c.scopes top ++ [⟨name, type⟩]))) := by
  cases hfind : scopeFind (c.scopes top) name with
  | none =>
    exact ⟨_, _, declareSymbol_fresh c top rest name type isParameter htop hfind,
      rfl, rfl, rfl, Or.inr ⟨rfl, rfl⟩⟩
  | some symbol =>
    unfold declareSymbol
    simp only [htop, hfind]
    split_ifs
    · exact ⟨c, _, rfl, htop, rfl, rfl, Or.inl rfl⟩
    · exact ⟨c, _, rfl, htop, rfl, rfl, Or.inl rfl⟩
    · exact ⟨c, _, rfl, htop, rfl, rfl, Or.inl rfl⟩

theorem declareFields_total (fs : List (String × CType)) :
    ∀ (c : Checker) (top : ScopeId) (rest : List ScopeId), c.toplevel = top :: rest →
      ∃ c2 d, declareFields c fs = some (c2, d) ∧ c2.toplevel = c.toplevel ∧
        c2.fields = c.fields := by
  induction fs with
  | nil =>
    intro c top rest _
    exact ⟨c, [], rfl, rfl, rfl⟩
  | cons a tail ih =>
    intro c top rest htop
    obtain ⟨name, type⟩ := a
    obtain ⟨c1, d1, h1, h2, h3, _, _⟩ := declareSymbol_total c top rest name type false htop
    obtain ⟨c2, d2, h4, h5, h6⟩ := ih c1 top rest (h2.trans htop)
    refine ⟨c2, d1 ++ d2, ?_, h5.trans h2, h6.trans h3⟩
    simp [declareFields, h1, h4]

theorem openStruct_toplevel (c : Checker) (name : String) :
    ∃ top, (openStruct c name).1.toplevel = top :: c.toplevel := by
  unfold openStruct
  split_ifs
  · exact ⟨_, (openScope_toplevel _).1⟩
  · exact ⟨_, (openScope_toplevel _).1⟩

/-- C21: while the tag `T` has no registered field table, `checkDeref` applied to
a pointer of indirection 1 to `struct T` returns the Error type and reports
exactly `using pointer to incomplete type`; after `openStruct(T)`, the field
declarations of the body, whatever they are, and `closeStruct(T)`, `checkDeref`
applied to the same type reports nothing and returns `struct T` by value. -/
theorem deref_incomplete_then_complete (c : Checker) (T : String)
    (fs : List (String × CType)) (hcount : fieldsCount c.fields T = 0)
    (hint : T ≠ "int") (hchar : T ≠ "char") :
    checkDeref c.fieldTable (Scalar T 1) = (error, [⟨incompleteType, ""⟩]) ∧
    ∃ c2 d c3, declareFields (openStruct c T).1 fs = some (c2, d) ∧
      closeStruct c2 T = some c3 ∧
      checkDeref c3.fieldTable (Scalar T 1) = (Scalar T 0, []) := by
  constructor
  · have h := (fieldTable_find c T).2
    rw [hcount] at h
    simp [checkDeref, isCompletePointer, Scalar, CType.isError, CType.promote, CType.isArray,
      CType.isPointer, CType.isScalar, CType.isStruct, CType.kind, CType.indirection,
      CType.specifier, h, hint, hchar, report]
  · obtain ⟨top, htop⟩ := openStruct_toplevel c T
    obtain ⟨c2, d, h1, h2, _⟩ := declareFields_total fs (openStruct c T).1 top c.toplevel htop
    have hclose : closeStruct c2 T =
        some { c2 with toplevel := c.toplevel, fields := fieldsSet c2.fields T top } := by
      simp [closeStruct, closeScope, h2, htop]
    refine ⟨c2, d, _, h1, hclose, ?_⟩
    have h := (fieldTable_find
      { c2 with toplevel := c.toplevel, fields := fieldsSet c2.fields T top } T).2
    have hc : fieldsCount (fieldsSet c2.fields T top) T = 1 := by
      simp [fieldsCount, fieldsFind_set]
    simp only [hc] at h
    simp [checkDeref, isCompletePointer, Scalar, CType.isError, CType.promote, CType.isArray,
      CType.isPointer, CType.isScalar, CType.kind, CType.indirection,
      CType.specifier, h]

/-- C21 for `struct node { int data; struct node *next; }` in the global scope. -/
theorem deref_incomplete_then_complete_witness :
    checkDeref globalScope.fieldTable (Scalar "node" 1) = (error, [⟨incompleteType, ""⟩]) ∧
    ∃ c2 d c3, declareFields (openStruct globalScope "node").1
        [("data", Scalar "int" 0), ("next", Scalar "node" 1)] = some (c2, d) ∧
      closeStruct c2 "node" = some c3 ∧
      checkDeref c3.fieldTable (Scalar "node" 1) = (Scalar "node" 0, []) :=
  deref_incomplete_then_complete globalScope "node"
    [("data", Scalar "int" 0), ("next", Scalar "node" 1)] rfl (by decide) (by decide)

theorem countName_remove_le (l : Symbols) (name other : String) :
    countName (scopeRemove l name) other ≤ countName l other := by
  induction l with
  | nil => simp [scopeRemove]
  | cons a rest ih =>
    unfold scopeRemove
    by_cases h : (name == a.name) = true
    · simp only [h, if_true]
      unfold countName
      rw [List.filter_cons]
      split_ifs
      · simp
      · exact Nat.le_refl _
    · simp only [h, if_false, Bool.false_eq_true]
      unfold countName at ih ⊢
      rw [List.filter_cons, List.filter_cons]
      split_ifs
      · simpa using ih
      · exact ih

theorem distinct_insert (l : Symbols) (s : Symbol)
    (h : ∀ name, countName l name ≤ 1) (hfresh : scopeFind l s.name = none) :
    ∀ name, countName (l ++ [s]) name ≤ 1 := by
  intro name
  rw [countName_append]
  split_ifs with hn
  · have : name = s.name := by simpa using hn
    rw [this, (scopeFind_none_iff l s.name).1 hfresh]
  · exact h name

theorem distinct_setScope (c : Checker) (id : ScopeId) (symbols : Symbols)
    (hd : DistinctNames c) (h : ∀ name, countName symbols name ≤ 1) :
    ∀ (x : ScopeId) (name : String), countName (setScope c.scopes id symbols x) name ≤ 1 := by
  intro x name
  unfold setScope
  split_ifs
  · exact h name
  · exact hd x name

theorem openScope_distinct (c : Checker) (hd : DistinctNames c) :
    DistinctNames (openScope c).2 := by
  intro id name
  rw [(openScope_toplevel c).2.1]
  exact distinct_setScope c c.next [] hd (fun _ => Nat.zero_le _) id name

theorem openScope_outermost (c : Checker) : (openScope c).2.outermost ≠ none := by
  rw [(openScope_toplevel c).2.2.2.2]
  split_ifs with h
  · simp
  · exact h

theorem openStruct_spec (c : Checker) (name : String) :
    (openStruct c name).1.toplevel = c.next :: c.toplevel ∧
    (openStruct c name).1.scopes = setScope c.scopes c.next [] ∧
    (openStruct c name).1.outermost ≠ none := by
  unfold openStruct
  split_ifs
  · exact ⟨(openScope_toplevel _).1, (openScope_toplevel _).2.1, openScope_outermost _⟩
  · exact ⟨(openScope_toplevel _).1, (openScope_toplevel _).2.1, openScope_outermost _⟩

theorem closeScope_spec (c : Checker) (top : ScopeId) (rest : List ScopeId)
    (htop : c.toplevel = top :: rest) :
    closeScope c = some (top, { c with toplevel := rest }) := by
  simp [closeScope, htop]

theorem closeStruct_spec (c : Checker) (name : String) (top : ScopeId) (rest : List ScopeId)
    (htop : c.toplevel = top :: rest) :
    closeStruct c name =
      some { c with toplevel := rest, fields := fieldsSet c.fields name top } := by
  simp [closeStruct, closeScope, htop]

theorem checkIdentifier_total (c : Checker) (top : ScopeId) (rest : List ScopeId)
    (name : String) (htop : c.toplevel = top :: rest) :
    ∃ s c1 d, checkIdentifier c name = some (s, c1, d) ∧
      c1.toplevel = c.toplevel ∧ c1.outermost = c.outermost ∧
      (c1.scopes = c.scopes ∨
        (scopeFind (c.scopes top) name = none ∧
          c1.scopes = setScope c.scopes top (c.scopes top ++ [⟨name, error⟩]))) := by
  cases hl : scopeLookup c.scopes c.toplevel name with
  | some symbol =>
    have hci : checkIdentifier c name = some (symbol, c, []) := by
      unfold checkIdentifier
      simp only [htop]
      rw [htop] at hl
      simp only [hl]
    exact ⟨symbol, c, [], hci, rfl, rfl, Or.inl rfl⟩
  | none =>
    have hfind : scopeFind (c.scopes top) name = none := by
      rw [htop] at hl
      unfold scopeLookup at hl
      cases hf : scopeFind (c.scopes top) name with
      | none => rfl
      | some s => rw [hf] at hl; cases hl
    have hci : checkIdentifier c name =
        some (⟨name, error⟩,
          { c with scopes := setScope c.scopes top (c.scopes top ++ [⟨name, error⟩]) },
          report undeclared name) := by
      unfold checkIdentifier
      simp only [htop]
      rw [htop] at hl
      simp only [hl, scopeInsert, hfind]
    exact ⟨_, _, _, hci, rfl, rfl, Or.inr ⟨hfind, rfl⟩⟩

theorem distinct_of_scopes (c c1 : Checker) (top : ScopeId) (sym : Symbol)
    (hd : DistinctNames c)
    (h : c1.scopes = c.scopes ∨
      (scopeFind (c.scopes top) sym.name = none ∧
        c1.scopes = setScope c.scopes top (c.scopes top ++ [sym]))) :
    DistinctNames c1 := by
  intro id name
  rcases h with h | ⟨hf, h⟩
  · rw [h]; exact hd id name
  · rw [h]
    exact distinct_setScope c top _ hd (distinct_insert _ sym (hd top) hf) id name

theorem step_invariant (c c1 : Checker) (op : Operation) (hd : DistinctNames c)
    (ho : c.outermost = none → c.toplevel = []) (h : step c op = some c1) :
    DistinctNames c1 ∧ (c1.outermost = none → c1.toplevel = []) := by
  cases op with
  | openScope =>
    simp only [step, Option.some.injEq] at h
    subst h
    exact ⟨openScope_distinct c hd, fun hn => absurd hn (openScope_outermost c)⟩
  | closeScope =>
    cases htop : c.toplevel with
    | nil => simp [step, closeScope, htop] at h
    | cons top rest =>
      simp only [step, closeScope_spec c top rest htop, Option.map_some',
        Option.some.injEq] at h
      subst h
      refine ⟨hd, fun hn => ?_⟩
      have := ho hn
      rw [htop] at this
      cases this
  | openStruct name =>
    simp only [step, Option.some.injEq] at h
    subst h
    obtain ⟨_, h2, h3⟩ := openStruct_spec c name
    refine ⟨?_, fun hn => absurd hn h3⟩
    intro id x
    rw [h2]
    exact distinct_setScope c c.next [] hd (fun _ => Nat.zero_le _) id x
  | closeStruct name =>
    cases htop : c.toplevel with
    | nil => simp [step, closeStruct, closeScope, htop] at h
    | cons top rest =>
      simp only [step, closeStruct_spec c name top rest htop, Option.some.injEq] at h
      subst h
      refine ⟨hd, fun hn => ?_⟩
      have := ho hn
      rw [htop] at this
      cases this
  | declareSymbol name type isParameter =>
    cases htop : c.toplevel with
    | nil => simp [step, declareSymbol, htop] at h
    | cons top rest =>
      obtain ⟨c2, d, h1, h2, _, h4, h5⟩ :=
        declareSymbol_total c top rest name type isParameter htop
      simp only [step, h1, Option.map_some', Option.some.injEq] at h
      subst h
      refine ⟨distinct_of_scopes c c2 top ⟨name, type⟩ hd h5, fun hn => ?_⟩
      rw [h4] at hn
      rw [h2]
      exact ho hn
  | defineFunction name type =>
    cases hout : c.outermost with
    | none => simp [step, defineFunction, hout] at h
    | some out =>
      rw [show step c (Operation.defineFunction name type) =
        (defineFunction c name type).map (fun r => r.2.1) from rfl,
        defineFunction_returns c out name type hout (hd out name)] at h
      simp only [Option.map_some', Option.some.injEq] at h
      subst h
      refine ⟨?_, fun hn => ?_⟩
      · intro id x
        refine distinct_setScope c out _ hd ?_ id x
        refine distinct_insert _ ⟨name, type⟩ ?_ ?_
        · intro y
          exact Nat.le_trans (countName_remove_le _ name y) (hd out y)
        · rw [scopeFind_none_iff, countName_remove]
          have := hd out name
          omega
      · simp only [hout] at hn
        cases hn
  | checkIdentifier name =>
    cases htop : c.toplevel with
    | nil => simp [step, checkIdentifier, htop] at h
    | cons top rest =>
      obtain ⟨s, c2, d, h1, h2, h4, h5⟩ := checkIdentifier_total c top rest name htop
      simp only [step, h1, Option.map_some', Option.some.injEq] at h
      subst h
      refine ⟨distinct_of_scopes c c2 top ⟨name, error⟩ hd h5, fun hn => ?_⟩
      rw [h4] at hn
      rw [h2]
      exact ho hn

theorem step_none (c : Checker) (op : Operation) (hd : DistinctNames c)
    (h : step c op = none) : NullUse c op := by
  cases op with
  | openScope => simp [step] at h
  | closeScope =>
    cases htop : c.toplevel with
    | nil => exact htop
    | cons top rest => simp [step, closeScope_spec c top rest htop] at h
  | openStruct name => simp [step] at h
  | closeStruct name =>
    cases htop : c.toplevel with
    | nil => exact htop
    | cons top rest => simp [step, closeStruct_spec c name top rest htop] at h
  | declareSymbol name type isParameter =>
    cases htop : c.toplevel with
    | nil => exact htop
    | cons top rest =>
      obtain ⟨c2, d, h1, _⟩ := declareSymbol_total c top rest name type isParameter htop
      simp [step, h1] at h
  | defineFunction name type =>
    cases hout : c.outermost with
    | none => exact hout
    | some out =>
      rw [show step c (Operation.defineFunction name type) =
        (defineFunction c name type).map (fun r => r.2.1) from rfl,
        defineFunction_returns c out name type hout (hd out name)] at h
      simp at h
  | checkIdentifier name =>
    cases htop : c.toplevel with
    | nil => exact htop
    | cons top rest =>
      obtain ⟨s, c2, d, h1, _⟩ := checkIdentifier_total c top rest name htop
      simp [step, h1] at h

theorem run_invariant (ops : List Operation) :
    ∀ c c1 : Checker, DistinctNames c → (c.outermost = none → c.toplevel = []) →
      run c ops = some c1 →
      DistinctNames c1 ∧ (c1.outermost = none → c1.toplevel = []) := by
  induction ops with
  | nil =>
    intro c c1 hd ho h
    simp only [run, Option.some.injEq] at h
    subst h
    exact ⟨hd, ho⟩
  | cons op rest ih =>
    intro c c1 hd ho h
    unfold run at h
    cases hs : step c op with
    | none => rw [hs] at h; cases h
    | some c2 =>
      rw [hs] at h
      obtain ⟨hd2, ho2⟩ := step_invariant c c2 op hd ho hs
      exact ih c2 c1 hd2 ho2 h

theorem step_depth (c : Checker) (op : Operation) (d d1 : Nat) (hd : DistinctNames c)
    (ho : c.outermost = none → c.toplevel = []) (hlen : c.toplevel.length = d)
    (h : openDepth d [op] = some d1) :
    ∃ c1, step c op = some c1 ∧ c1.toplevel.length = d1 := by
  have hpos : ∀ x : Option Nat, (if d = 0 then none else x) = some d1 →
      x = some d1 ∧ ∃ top rest, c.toplevel = top :: rest := by
    intro x hx
    split_ifs at hx with h0
    refine ⟨hx, ?_⟩
    cases htop : c.toplevel with
    | nil => rw [htop] at hlen; exact absurd hlen.symm h0
    | cons top rest => exact ⟨top, rest, rfl⟩
  cases op with
  | openScope =>
    simp only [openDepth, Option.some.injEq] at h
    refine ⟨_, rfl, ?_⟩
    rw [(openScope_toplevel c).1, List.length_cons, hlen, h]
  | closeScope =>
    simp only [openDepth] at h
    obtain ⟨h1, top, rest, htop⟩ := hpos _ h
    simp only [Option.some.injEq] at h1
    refine ⟨{ c with toplevel := rest },
      by simp only [step, closeScope_spec c top rest htop, Option.map_some'], ?_⟩
    show rest.length = d1
    rw [htop, List.length_cons] at hlen
    omega
  | openStruct name =>
    simp only [openDepth, Option.some.injEq] at h
    refine ⟨_, rfl, ?_⟩
    rw [(openStruct_spec c name).1, List.length_cons, hlen, h]
  | closeStruct name =>
    simp only [openDepth] at h
    obtain ⟨h1, top, rest, htop⟩ := hpos _ h
    simp only [Option.some.injEq] at h1
    refine ⟨{ c with toplevel := rest, fields := fieldsSet c.fields name top },
      by simp only [step, closeStruct_spec c name top rest htop], ?_⟩
    show rest.length = d1
    rw [htop, List.length_cons] at hlen
    omega
  | declareSymbol name type isParameter =>
    simp only [openDepth] at h
    obtain ⟨h1, top, rest, htop⟩ := hpos _ h
    simp only [Option.some.injEq] at h1
    obtain ⟨c2, d, h2, h3, _⟩ := declareSymbol_total c top rest name type isParameter htop
    exact ⟨c2, by simp only [step, h2, Option.map_some'], by rw [h3, hlen, h1]⟩
  | defineFunction name type =>
    simp only [openDepth] at h
    obtain ⟨h1, top, rest, htop⟩ := hpos _ h
    simp only [Option.some.injEq] at h1
    cases hout : c.outermost with
    | none =>
      have := ho hout
      rw [htop] at this
      cases this
    | some out =>
      have hs : step c (Operation.defineFunction name type) =
          (defineFunction c name type).map (fun r => r.2.1) := rfl
      rw [defineFunction_returns c out name type hout (hd out name)] at hs
      exact ⟨_, hs, hlen.trans h1⟩
  | checkIdentifier name =>
    simp only [openDepth] at h
    obtain ⟨h1, top, rest, htop⟩ := hpos _ h
    simp only [Option.some.injEq] at h1
    obtain ⟨s, c2, d, h2, h3, _⟩ := checkIdentifier_total c top rest name htop
    exact ⟨c2, by simp only [step, h2, Option.map_some'], by rw [h3, hlen, h1]⟩

theorem openDepth_cons (op : Operation) (ops : List Operation) (d d1 : Nat)
    (h : openDepth d (op :: ops) = some d1) :
    ∃ d2, openDepth d [op] = some d2 ∧ openDepth d2 ops = some d1 := by
  cases op <;> simp only [openDepth] at h ⊢ <;>
    first
    | exact ⟨_, rfl, h⟩
    | (split_ifs at h ⊢ with h0; exact ⟨_, rfl, h⟩)

theorem run_depth (ops : List Operation) :
    ∀ (c : Checker) (d d1 : Nat), DistinctNames c →
      (c.outermost = none → c.toplevel = []) → c.toplevel.length = d →
      openDepth d ops = some d1 →
      ∃ c1, run c ops = some c1 ∧ c1.toplevel.length = d1 := by
  induction ops with
  | nil =>
    intro c d d1 _ _ hlen h
    simp only [openDepth, Option.some.injEq] at h
    exact ⟨c, rfl, hlen.trans h⟩
  | cons op rest ih =>
    intro c d d1 hd ho hlen h
    obtain ⟨d2, h1, h2⟩ := openDepth_cons op rest d d1 h
    obtain ⟨c2, hs, hlen2⟩ := step_depth c op d d2 hd ho hlen h1
    obtain ⟨hd2, ho2⟩ := step_invariant c c2 op hd ho hs
    obtain ⟨c1, hr, hl1⟩ := ih c2 d2 d1 hd2 ho2 hlen2 h2
    exact ⟨c1, by simp only [run, hs, hr], hl1⟩

theorem nodup_of_countName (l : Symbols) (h : ∀ name, countName l name ≤ 1) :
    (l.map Symbol.name).Nodup := by
  induction l with
  | nil => simp
  | cons a rest ih =>
    rw [List.map_cons, List.nodup_cons]
    constructor
    · intro hmem
      obtain ⟨s, hs, hname⟩ := List.mem_map.1 hmem
      have h1 := h a.name
      unfold countName at h1
      rw [List.filter_cons] at h1
      simp only [beq_self_eq_true, if_true, List.length_cons] at h1
      have : s ∈ rest.filter (fun s => a.name == s.name) := by
        rw [List.mem_filter]
        exact ⟨hs, by simp [hname]⟩
      have hpos := List.length_pos_of_mem this
      omega
    · apply ih
      intro name
      have h1 := h name
      unfold countName at h1 ⊢
      rw [List.filter_cons] at h1
      split_ifs at h1
      · simp only [List.length_cons] at h1
        omega
      · exact h1

theorem distinct_empty : DistinctNames Checker.empty := by
  intro id name
  exact Nat.zero_le _

/-- C27: no scope ever holds two symbols of the same name. From the empty state,
after every sequence of `openScope`, `closeScope`, `openStruct`, `closeStruct`,
`declareSymbol`, `defineFunction` and `checkIdentifier` calls that runs without
using a null pointer, every scope object, so every scope on the stack and
every registered field scope, has pairwise distinct symbol names, and the next
call, whatever it is, stops only if it uses a null pointer: the assertion of
`insert` holds. A sequence that makes every call but `openScope` and
`openStruct` while a scope is open, so that no scope is closed more often than
opened, does run, and leaves open the scopes it did not close. -/
theorem scopes_distinct_names (ops : List Operation) :
    (∀ c, run Checker.empty ops = some c →
      (∀ id, ((c.scopes id).map Symbol.name).Nodup) ∧
      (∀ op, step c op = none → NullUse c op)) ∧
    (∀ depth, openDepth 0 ops = some depth →
      ∃ c, run Checker.empty ops = some c ∧ c.toplevel.length = depth) := by
  constructor
  · intro c h
    obtain ⟨hd, _⟩ := run_invariant ops Checker.empty c distinct_empty (fun _ => rfl) h
    exact ⟨fun id => nodup_of_countName _ (hd id), fun op => step_none c op hd⟩
  · intro depth h
    exact run_depth ops Checker.empty 0 depth distinct_empty (fun _ => rfl) rfl h

/-- C27 at the calls of a small translation unit: they run, the global scope is the one
left open, every scope has pairwise distinct names and a further declaration
does not stop. -/
theorem scopes_distinct_names_witness :
    ∃ c, run Checker.empty sampleCalls = some c ∧ c.toplevel.length = 1 ∧
      (∀ id, ((c.scopes id).map Symbol.name).Nodup) ∧
      (∀ name type, step c (Operation.declareSymbol name type false) ≠ none) := by
  obtain ⟨c, h1, h2⟩ := (scopes_distinct_names sampleCalls).2 1 rfl
  obtain ⟨h3, h4⟩ := (scopes_distinct_names sampleCalls).1 c h1
  refine ⟨c, h1, h2, h3, ?_⟩
  intro name type hn
  have h5 : c.toplevel = [] := h4 _ hn
  rw [h5] at h2
  cases h2

/-! ## Properties of `Call::generate` -/

theorem generate_Call_eq (m : Machine) (id : NodeId) (expr : Expression)
    (args : List Expression) (st : GenState) :
    generate m (Expression.Call id expr args) st =
      (generateNested m args st).bind (fun st1 =>
        (pushArguments m args (alignCall m st1 (argumentBytes m args)).2).bind
          (callTail m id expr (alignCall m st1 (argumentBytes m args)).1)) := by
  rfl

theorem generateNested_cons (m : Machine) (a : Expression) (rest : List Expression)
    (st : GenState) :
    generateNested m (a :: rest) st =
      (generateNested m rest st).bind (fun st1 =>
        if m.STACK_ALIGNMENT ≠ m.SIZEOF_REG ∧ m.hasCall a.id = true then generate m a st1
        else some st1) := by
  rfl

theorem pushArguments_cons (m : Machine) (a : Expression) (rest : List Expression)
    (st : GenState) :
    pushArguments m (a :: rest) st =
      (pushArguments m rest st).bind (fun st1 =>
        (if m.STACK_ALIGNMENT = m.SIZEOF_REG ∨ m.hasCall a.id = false then generate m a st1
          else some st1).bind (pushArgument m a)) := by
  rfl

theorem runSteps_append (m : Machine) (args : List Expression) (l1 l2 : List CallStep) :
    ∀ st, runSteps m args (l1 ++ l2) st = (runSteps m args l1 st).bind (runSteps m args l2) := by
  induction l1 with
  | nil => intro st; rfl
  | cons s rest ih =>
    intro st
    simp only [List.cons_append, runSteps]
    cases runStep m args s st with
    | none => rfl
    | some st1 => exact ih st1

theorem get_middle (pre : List Expression) (a : Expression) (rest : List Expression) :
    (pre ++ a :: rest).get? pre.length = some a := by
  induction pre with
  | nil => rfl
  | cons x xs ih => simpa using ih

theorem generateNested_steps (m : Machine) (suf : List Expression) :
    ∀ (pre : List Expression) (st : GenState),
      generateNested m suf st = runSteps m (pre ++ suf) (prePass m pre.length suf) st := by
  induction suf with
  | nil => intro pre st; rfl
  | cons a rest ih =>
    intro pre st
    have h := ih (pre ++ [a]) st
    rw [List.append_assoc, List.length_append] at h
    rw [generateNested_cons, prePass, runSteps_append, h]
    simp only [List.singleton_append, List.length_singleton]
    congr 1
    funext st1
    split_ifs
    · simp only [runSteps, runStep, get_middle]
      cases generate m a st1 <;> rfl
    · rfl

theorem pushArguments_steps (m : Machine) (suf : List Expression) :
    ∀ (pre : List Expression) (st : GenState),
      pushArguments m suf st = runSteps m (pre ++ suf) (pushPass m pre.length suf) st := by
  induction suf with
  | nil => intro pre st; rfl
  | cons a rest ih =>
    intro pre st
    have h := ih (pre ++ [a]) st
    rw [List.append_assoc, List.length_append] at h
    rw [pushArguments_cons, pushPass, runSteps_append, h]
    simp only [List.singleton_append, List.length_singleton]
    congr 1
    funext st1
    split_ifs
    · simp only [List.cons_append, List.nil_append, runSteps, runStep, get_middle]
      cases generate m a st1 with
      | none => rfl
      | some st2 =>
        simp only [Option.some_bind]
        cases pushArgument m a st2 <;> rfl
    · simp only [List.nil_append, runSteps, runStep, get_middle, Option.some_bind]
      cases pushArgument m a st1 <;> rfl

theorem count_generate (m : Machine) (args : List Expression) :
    ∀ i0 i : Nat,
      (prePass m i0 args ++ pushPass m i0 args).count (CallStep.generate i) =
        if i0 ≤ i ∧ i < i0 + args.length then 1 else 0 := by
  induction args with
  | nil =>
    intro i0 i
    simp only [prePass, pushPass, List.append_nil, List.count_nil, List.length_nil]
    split_ifs <;> omega
  | cons a rest ih =>
    intro i0 i
    have h := ih (i0 + 1) i
    rw [List.count_append] at h
    simp only [prePass, pushPass, List.count_append, List.length_cons]
    by_cases hc : m.STACK_ALIGNMENT = m.SIZEOF_REG <;> cases hh : m.hasCall a.id <;>
      by_cases hi : i = i0 <;>
      simp [hc, hi, List.count_cons, List.count_nil] at h ⊢ <;>
      (try split_ifs at h ⊢) <;> omega

theorem prePass_index (m : Machine) (args : List Expression) :
    ∀ i0 : Nat, ∀ s ∈ prePass m i0 args, s.isPush = false ∧ i0 ≤ s.index := by
  induction args with
  | nil => intro i0 s hs; simp [prePass] at hs
  | cons a rest ih =>
    intro i0 s hs
    simp only [prePass, List.mem_append] at hs
    rcases hs with hs | hs
    · obtain ⟨h1, h2⟩ := ih (i0 + 1) s hs
      exact ⟨h1, by omega⟩
    · split_ifs at hs
      · simp only [List.mem_singleton] at hs
        subst hs
        exact ⟨rfl, Nat.le_refl _⟩
      · simp at hs

theorem prePass_descending (m : Machine) (args : List Expression) :
    ∀ i0 : Nat, (prePass m i0 args).Pairwise (fun s t => t.index < s.index) := by
  induction args with
  | nil => intro i0; simp [prePass]
  | cons a rest ih =>
    intro i0
    simp only [prePass]
    rw [List.pairwise_append]
    refine ⟨ih (i0 + 1), ?_, ?_⟩
    · split_ifs <;> simp
    · intro s hs t ht
      have h1 := (prePass_index m rest (i0 + 1) s hs).2
      split_ifs at ht
      · simp only [List.mem_singleton] at ht
        subst ht
        exact h1
      · simp at ht

theorem pushPass_pushes (m : Machine) (args : List Expression) :
    ∀ i0 : Nat, (pushPass m i0 args).filter CallStep.isPush =
      (List.range' i0 args.length).reverse.map CallStep.push := by
  induction args with
  | nil => intro i0; rfl
  | cons a rest ih =>
    intro i0
    simp only [pushPass, List.filter_append, ih (i0 + 1), List.length_cons, List.range'_succ,
      List.reverse_cons, List.map_append]
    split_ifs <;> simp [List.filter_cons, CallStep.isPush]

theorem pushPass_adjacent (m : Machine) (args : List Expression) :
    ∀ i0 i : Nat, CallStep.generate i ∈ pushPass m i0 args →
      ∃ l1 l2, pushPass m i0 args = l1 ++ CallStep.generate i :: CallStep.push i :: l2 := by
  induction args with
  | nil => intro i0 i h; simp [pushPass] at h
  | cons a rest ih =>
    intro i0 i h
    simp only [pushPass, List.mem_append] at h ⊢
    rcases h with h | h | h
    · obtain ⟨l1, l2, hl⟩ := ih (i0 + 1) i h
      rw [hl]
      exact ⟨l1, l2 ++ ((if m.STACK_ALIGNMENT = m.SIZEOF_REG ∨ m.hasCall a.id = false then
        [CallStep.generate i0] else []) ++ [CallStep.push i0]), by simp⟩
    · split_ifs at h ⊢
      · simp only [List.mem_singleton, CallStep.generate.injEq] at h
        subst h
        exact ⟨pushPass m (i + 1) rest, [], by simp⟩
      · simp at h
    · simp at h

theorem pushArgument_out (m : Machine) (a : Expression) (st st' : GenState)
    (h : pushArgument m a st = some st') :
    ∃ t, st'.out = st.out ++ ["\tpushl\t" ++ t] := by
  unfold pushArgument at h
  cases hw : writeExpression m st a with
  | none => simp [hw] at h
  | some p =>
    obtain ⟨t, st1⟩ := p
    simp only [hw, Option.bind_eq_bind, Option.some_bind, Option.some.injEq] at h
    subst h
    refine ⟨t, ?_⟩
    rw [(assign_frame _ _ _).1]
    simp [emit, (writeExpression_frame m st st1 a t hw).2.2.2.2.1]

/-- C30: for every call, whatever the has-call flags of its arguments and whether or
not `STACK_ALIGNMENT` equals `SIZEOF_REG`, `Call::generate` is the pre-pass,
the alignment, the push pass and then the part that emits the call
instruction. In the two passes together `generate` is invoked exactly once on
every argument; the pre-pass holds no push and visits the arguments by
descending index; the push pass holds exactly one push per argument, by
descending index, a `generate` of the push pass is immediately followed by the
push of the same argument, and every push writes one `pushl` line. -/
theorem call_argument_order (m : Machine) (id : NodeId) (expr : Expression)
    (args : List Expression) (st : GenState) :
    generate m (Expression.Call id expr args) st =
      (runSteps m args (prePass m 0 args) st).bind (fun st1 =>
        (runSteps m args (pushPass m 0 args)
            (alignCall m st1 (argumentBytes m args)).2).bind
          (callTail m id expr (alignCall m st1 (argumentBytes m args)).1)) ∧
    (∀ i, i < args.length →
      (prePass m 0 args ++ pushPass m 0 args).count (CallStep.generate i) = 1) ∧
    (∀ s ∈ prePass m 0 args, s.isPush = false) ∧
    (prePass m 0 args).Pairwise (fun s t => t.index < s.index) ∧
    (pushPass m 0 args).filter CallStep.isPush =
      (List.range args.length).reverse.map CallStep.push ∧
    (∀ i, CallStep.generate i ∈ pushPass m 0 args →
      ∃ l1 l2, pushPass m 0 args = l1 ++ CallStep.generate i :: CallStep.push i :: l2) ∧
    (∀ a s s', pushArgument m a s = some s' → ∃ t, s'.out = s.out ++ ["\tpushl\t" ++ t]) := by
  refine ⟨?_, ?_, ?_, prePass_descending m args 0, ?_, pushPass_adjacent m args 0,
    pushArgument_out m⟩
  · rw [generate_Call_eq]
    have h1 := generateNested_steps m args [] st
    simp only [List.nil_append, List.length_nil] at h1
    rw [h1]
    congr 1
    funext st1
    have h2 := pushArguments_steps m args [] (alignCall m st1 (argumentBytes m args)).2
    simp only [List.nil_append, List.length_nil] at h2
    rw [h2]
  · intro i hi
    rw [count_generate]
    simp [hi]
  · intro s hs
    exact (prePass_index m args 0 s hs).1
  · rw [pushPass_pushes, List.range_eq_range']

/-- C30 at the call `f(x, g(), 1, h())` on a machine with 16-byte alignment: the
pre-pass generates `h()` and `g()`, the push pass pushes `h()`, generates and
pushes `1`, pushes `g()`, generates and pushes `x`. -/
theorem call_argument_order_witness :
    prePass alignedMachine 0 fourArguments = [CallStep.generate 3, CallStep.generate 1] ∧
    pushPass alignedMachine 0 fourArguments =
      [CallStep.push 3, CallStep.generate 2, CallStep.push 2, CallStep.push 1,
        CallStep.generate 0, CallStep.push 0] ∧
    (prePass alignedMachine 0 fourArguments ++ pushPass alignedMachine 0 fourArguments).count
      (CallStep.generate 1) = 1 ∧
    (pushPass alignedMachine 0 fourArguments).filter CallStep.isPush =
      [CallStep.push 3, CallStep.push 2, CallStep.push 1, CallStep.push 0] :=
  ⟨by decide, by decide,
    (call_argument_order alignedMachine 0 (Expression.Identifier 7 "f" 0) fourArguments
      (GenState.initial 0 "main")).2.1 1 (by decide),
    (call_argument_order alignedMachine 0 (Expression.Identifier 7 "f" 0) fourArguments
      (GenState.initial 0 "main")).2.2.2.2.1⟩

theorem align_spec (m : Machine) (n : Nat) (hpos : 0 < m.STACK_ALIGNMENT) :
    0 ≤ align m n ∧ (n + (align m n).toNat) % m.STACK_ALIGNMENT = 0 ∧
    (align m n = 0 ↔ n % m.STACK_ALIGNMENT = 0) := by
  unfold align
  have hmod : ((n : Int) % (m.STACK_ALIGNMENT : Int)) = ((n % m.STACK_ALIGNMENT : Nat) : Int) :=
    (Int.natCast_mod n m.STACK_ALIGNMENT).symm
  have hlt : n % m.STACK_ALIGNMENT < m.STACK_ALIGNMENT := Nat.mod_lt _ hpos
  simp only [Int.natAbs_ofNat, hmod]
  by_cases h0 : n % m.STACK_ALIGNMENT = 0
  · simp [h0]
  · have hne : ¬ ((n % m.STACK_ALIGNMENT : Nat) : Int) = 0 := by exact_mod_cast h0
    simp only [hne, if_false, h0, iff_false]
    have hsub : (m.STACK_ALIGNMENT : Int) - ((n % m.STACK_ALIGNMENT : Nat) : Int) =
        ((m.STACK_ALIGNMENT - n % m.STACK_ALIGNMENT : Nat) : Int) := by
      rw [Int.ofNat_sub (Nat.le_of_lt hlt)]
    rw [hsub]
    refine ⟨Int.natCast_nonneg _, ?_, ?_⟩
    · rw [Int.toNat_natCast]
      have hd := Nat.div_add_mod n m.STACK_ALIGNMENT
      have : n + (m.STACK_ALIGNMENT - n % m.STACK_ALIGNMENT) =
          m.STACK_ALIGNMENT * (n / m.STACK_ALIGNMENT + 1) := by
        rw [Nat.mul_add, Nat.mul_one]
        omega
      rw [this, Nat.mul_mod_right]
    · intro hc
      have : (m.STACK_ALIGNMENT - n % m.STACK_ALIGNMENT : Nat) = 0 := by exact_mod_cast hc
      omega

theorem argumentBytes_four (m : Machine) (args : List Expression)
    (hsize : ∀ a ∈ args, m.size (m.type a.id) = 4) :
    argumentBytes m args = 4 * args.length := by
  induction args with
  | nil => rfl
  | cons a rest ih =>
    have h1 := hsize a (by simp)
    have h2 := ih (fun x hx => hsize x (by simp [hx]))
    unfold argumentBytes at h2 ⊢
    simp only [List.map_cons, List.sum_cons, h1, h2, List.length_cons]
    omega

theorem callEnd_out (st : GenState) (id : NodeId) (numBytes : Nat) :
    (callEnd st id numBytes).out =
      st.out ++ (if numBytes = 0 then []
        else ["\taddl\t$" ++ toString numBytes ++ ", %esp"]) := by
  unfold callEnd
  rw [(assign_frame _ _ _).1]
  by_cases h : numBytes = 0
  · simp [h]
  · have : numBytes > 0 := Nat.pos_of_ne_zero h
    simp [h, this, emit]

theorem alignCall_spec (m : Machine) (st : GenState) (n : Nat) :
    (alignCall m st n).1 = n + (align m n).toNat ∧
    (alignCall m st n).2 =
      (if align m n = 0 then st
        else emit st ("\tsubl\t$" ++ toString (align m n) ++ ", %esp")) := by
  unfold alignCall
  by_cases h : align m n = 0
  · simp [h]
  · simp [h]

theorem callTail_out (m : Machine) (id : NodeId) (expr : Expression) (numBytes : Nat)
    (st3 st' : GenState) (h : callTail m id expr numBytes st3 = some st') :
    ∃ (s : GenState) (pre : List String) (t : String),
      (s.out = pre ++ ["\tcall\t" ++ t] ∨ s.out = pre ++ ["\tcall\t*" ++ t]) ∧
      st' = callEnd s id numBytes := by
  unfold callTail at h
  cases h4 : spillAll m st3 with
  | none => simp [h4] at h
  | some st4 =>
    simp only [h4, Option.bind_eq_bind, Option.some_bind] at h
    split_ifs at h
    · cases h5 : generate m expr st4 with
      | none => simp [h5] at h
      | some st5 =>
        cases h6 : loadIfNeeded m st5 expr with
        | none => simp [h5, h6] at h
        | some st6 =>
          cases h7 : writeExpression m st6 expr with
          | none => simp [h5, h6, h7] at h
          | some p =>
            obtain ⟨t, st7⟩ := p
            simp only [h5, h6, h7, Option.some_bind, Option.some.injEq] at h
            refine ⟨_, st7.out, t, Or.inr ?_, h.symm⟩
            rw [(assign_frame _ _ _).1]
            rfl
    · cases h5 : writeExpression m st4 expr with
      | none => simp [h5] at h
      | some p =>
        obtain ⟨t, st5⟩ := p
        simp only [h5, Option.some_bind, Option.some.injEq] at h
        exact ⟨_, st5.out, t, Or.inl rfl, h.symm⟩

/-- C29 (counterexample): on a machine with 4-byte stack alignment, the call `f(c)`
with an argument of size 1 emits `subl $3`, one `pushl` and `addl $4`: 7 bytes
are taken from the stack pointer and 4 are given back. -/
theorem call_unbalanced_char_argument :
    (generate charMachine callWithChar (GenState.initial (-4) "main")).map
        (fun st => st.out) =
      some ["\tsubl\t$3, %esp", "\tpushl\t-4(%ebp)", "\tcall\tf", "\taddl\t$4, %esp"] ∧
    3 + 4 * 1 ≠ 4 := by
  constructor <;> decide

/-- C29 (amended): when every argument of the call has a type of size 4 and
`STACK_ALIGNMENT` is positive, the stack-pointer adjustments of `Call::generate`
balance. With `pad = align(numBytes)` for the sum `numBytes` of the argument
sizes: a `subl` of `pad` bytes is emitted exactly when `pad` is not zero, the
push pass holds one push, of 4 bytes, per argument, the byte count handed to
the end of the call is `pad + 4 * n`, which is a multiple of `STACK_ALIGNMENT`,
and right after the call instruction an `addl` of that count is emitted
exactly when it is not zero. -/
theorem call_stack_balance (m : Machine) (id : NodeId) (expr : Expression)
    (args : List Expression) (st : GenState)
    (hsize : ∀ a ∈ args, m.size (m.type a.id) = 4) (hpos : 0 < m.STACK_ALIGNMENT) :
    0 ≤ align m (argumentBytes m args) ∧
    ((align m (argumentBytes m args)).toNat + 4 * args.length) % m.STACK_ALIGNMENT = 0 ∧
    generate m (Expression.Call id expr args) st =
      (generateNested m args st).bind (fun st1 =>
        (runSteps m args (pushPass m 0 args)
          (if align m (argumentBytes m args) = 0 then st1
            else emit st1
              ("\tsubl\t$" ++ toString (align m (argumentBytes m args)) ++ ", %esp"))).bind
          (callTail m id expr ((align m (argumentBytes m args)).toNat + 4 * args.length))) ∧
    ((pushPass m 0 args).filter CallStep.isPush).length = args.length ∧
    (∀ a s s', pushArgument m a s = some s' → ∃ t, s'.out = s.out ++ ["\tpushl\t" ++ t]) ∧
    (∀ st3 st',
      callTail m id expr ((align m (argumentBytes m args)).toNat + 4 * args.length) st3 =
        some st' →
      ∃ (s : GenState) (pre : List String) (t : String),
      (s.out = pre ++ ["\tcall\t" ++ t] ∨ s.out = pre ++ ["\tcall\t*" ++ t]) ∧
        st'.out = s.out ++
          (if (align m (argumentBytes m args)).toNat + 4 * args.length = 0 then []
            else ["\taddl\t$" ++
              toString ((align m (argumentBytes m args)).toNat + 4 * args.length) ++
              ", %esp"])) := by
  have hb := argumentBytes_four m args hsize
  obtain ⟨ha1, ha2, _⟩ := align_spec m (argumentBytes m args) hpos
  refine ⟨ha1, ?_, ?_, ?_, pushArgument_out m, ?_⟩
  · rw [Nat.add_comm, ← hb]
    exact ha2
  · rw [generate_Call_eq]
    congr 1
    funext st1
    obtain ⟨h1, h2⟩ := alignCall_spec m st1 (argumentBytes m args)
    have h3 := pushArguments_steps m args [] (alignCall m st1 (argumentBytes m args)).2
    simp only [List.nil_append, List.length_nil] at h3
    rw [h3, h2, h1, Nat.add_comm, hb]
  · rw [pushPass_pushes]
    simp
  · intro st3 st' h
    obtain ⟨s, pre, t, h1, h2⟩ := callTail_out m id expr _ st3 st' h
    refine ⟨s, pre, t, h1, ?_⟩
    rw [h2, callEnd_out]

/-- The amended C29 at the call `f(9)` on the machine with 16-byte alignment: 12
bytes of padding and one push, 16 bytes in all. -/
theorem call_stack_balance_witness :
    ((align alignedMachine (argumentBytes alignedMachine [Expression.Number 1 9])).toNat +
      4 * [Expression.Number 1 9].length) % alignedMachine.STACK_ALIGNMENT = 0 ∧
    align alignedMachine (argumentBytes alignedMachine [Expression.Number 1 9]) = 12 ∧
    (generate alignedMachine
        (Expression.Call 3 (Expression.Identifier 2 "f" 0) [Expression.Number 1 9])
        (GenState.initial 0 "main")).map (fun st => st.out) =
      some ["\tsubl\t$12, %esp", "\tpushl\t$9", "\tcall\tf", "\taddl\t$16, %esp"] :=
  ⟨(call_stack_balance alignedMachine 3 (Expression.Identifier 2 "f" 0)
      [Expression.Number 1 9] (GenState.initial 0 "main")
      (by intro a ha; rfl) (by decide)).2.1,
    by decide, by decide⟩

/-! ## Registers across a call -/

theorem consistent_congr (st st' : GenState) (h1 : st'.node = st.node)
    (h2 : st'.register = st.register) (h : Consistent st) : Consistent st' := by
  intro r n
  rw [h1, h2]
  exact h r n

theorem emit_consistent (st : GenState) (line : String) (h : Consistent st) :
    Consistent (emit st line) :=
  consistent_congr st _ rfl rfl h

theorem writeExpression_consistent (m : Machine) (st st2 : GenState) (e : Expression)
    (text : String) (hw : writeExpression m st e = some (text, st2)) (h : Consistent st) :
    Consistent st2 :=
  consistent_congr st st2 (writeExpression_frame m st st2 e text hw).1
    (writeExpression_frame m st st2 e text hw).2.1 h

theorem load_consistent (m : Machine) (st st' : GenState) (expr : Option Expression)
    (reg : Register) (hl : load m st expr reg = some st') (h : Consistent st) :
    Consistent st' := by
  unfold load at hl
  split_ifs at hl
  · have h1 : Consistent (match st.node reg with
        | some old => spill m st reg old
        | none => st) := by
      cases st.node reg with
      | none => exact h
      | some old => exact consistent_congr st _ rfl rfl h
    cases expr with
    | none =>
      simp only [Option.some.injEq] at hl
      subst hl
      exact assign_consistent_aux _ _ _ h1
    | some e =>
      simp only at hl
      split at hl
      · rename_i text st2 hw
        simp only [Option.some.injEq] at hl
        subst hl
        apply assign_consistent_aux
        exact consistent_congr st2 _ rfl rfl (writeExpression_consistent m _ st2 e text hw h1)
      · cases hl
  · cases hl
    exact h

theorem getreg_consistent (m : Machine) (st st' : GenState) (reg : Register)
    (hg : getreg m st = some (reg, st')) (h : Consistent st) : Consistent st' := by
  unfold getreg at hg
  split at hg
  · cases hg; exact h
  · split at hg
    · rename_i st1 hl
      cases hg
      exact load_consistent m st st' none Register.eax hl h
    · cases hg

theorem loadIfNeeded_consistent (m : Machine) (st st' : GenState) (e : Expression)
    (hl : loadIfNeeded m st e = some st') (h : Consistent st) : Consistent st' := by
  unfold loadIfNeeded at hl
  split at hl
  · cases hl; exact h
  · split at hl
    · rename_i reg st1 hg
      exact load_consistent m st1 st' (some e) reg hl (getreg_consistent m st st1 reg hg h)
    · cases hl

theorem computeTail_consistent (m : Machine) (st st' : GenState) (result : NodeId)
    (left right : Expression) (opcode : String)
    (ht : computeTail m st result left right opcode = some st') (h : Consistent st) :
    Consistent st' := by
  unfold computeTail at ht
  simp only [Option.bind_eq_bind, Option.bind_eq_some] at ht
  obtain ⟨st1, h1, ⟨r, st2⟩, h2, ⟨l, st3⟩, h3, h4⟩ := ht
  simp only [Option.some.injEq] at h4
  subst h4
  have c1 := loadIfNeeded_consistent m st st1 left h1 h
  have c2 := writeExpression_consistent m st1 st2 right r h2 c1
  have c3 := writeExpression_consistent m st2 st3 left l h3 c2
  exact assign_consistent_aux _ _ _ (assign_consistent_aux _ _ _ (emit_consistent _ _ c3))

theorem divideTail_consistent (m : Machine) (st st' : GenState) (result : NodeId)
    (left right : Expression) (reg : Register)
    (ht : divideTail m st result left right reg = some st') (h : Consistent st) :
    Consistent st' := by
  unfold divideTail at ht
  simp only [Option.bind_eq_bind, Option.bind_eq_some] at ht
  obtain ⟨st1, h1, st2, h2, st3, h3, ⟨r, st5⟩, h5, h6⟩ := ht
  simp only [Option.some.injEq] at h6
  subst h6
  have c1 := load_consistent m st st1 _ _ h1 h
  have c2 := load_consistent m st1 st2 _ _ h2 c1
  have c3 : Consistent st3 := by
    split at h3
    · exact load_consistent m st2 st3 _ _ h3 c2
    · cases h3; exact c2
  have c5 := writeExpression_consistent m _ st5 right r h5 (emit_consistent st3 _ c3)
  exact assign_consistent_aux _ _ _ (assign_consistent_aux _ _ _
    (assign_consistent_aux _ _ _ (emit_consistent _ _ c5)))

theorem compareTail_consistent (m : Machine) (st st' : GenState) (result : NodeId)
    (left right : Expression) (opcode : String)
    (ht : compareTail m st result left right opcode = some st') (h : Consistent st) :
    Consistent st' := by
  unfold compareTail at ht
  simp only [Option.bind_eq_bind, Option.bind_eq_some] at ht
  obtain ⟨st1, h1, ⟨r, st2⟩, h2, ⟨l, st3⟩, h3, reg, _, h5⟩ := ht
  simp only [Option.some.injEq] at h5
  subst h5
  have c1 := loadIfNeeded_consistent m st st1 left h1 h
  have c2 := writeExpression_consistent m st1 st2 right r h2 c1
  have c3 := writeExpression_consistent m st2 st3 left l h3 c2
  exact assign_consistent_aux _ _ _
    (emit_consistent _ _ (emit_consistent _ _ (emit_consistent _ _ c3)))

theorem castTail_consistent (m : Machine) (st st' : GenState) (result : NodeId)
    (expr : Expression) (ht : castTail m st result expr = some st') (h : Consistent st) :
    Consistent st' := by
  unfold castTail at ht
  simp only [Option.bind_eq_bind, Option.bind_eq_some] at ht
  obtain ⟨st1, h1, st2, h2, h3⟩ := ht
  simp only [Option.some.injEq] at h3
  subst h3
  have c1 := loadIfNeeded_consistent m st st1 expr h1 h
  have c2 : Consistent st2 := by
    split_ifs at h2
    · simp only [Option.bind_eq_some] at h2
      obtain ⟨⟨t, s2⟩, hw, reg, _, h4⟩ := h2
      simp only [Option.some.injEq] at h4
      subst h4
      exact emit_consistent _ _ (writeExpression_consistent m st1 s2 expr t hw c1)
    · cases h2; exact c1
  exact assign_consistent_aux _ _ _ c2

theorem notTail_consistent (m : Machine) (st st' : GenState) (result : NodeId)
    (expr : Expression) (ht : notTail m st result expr = some st') (h : Consistent st) :
    Consistent st' := by
  unfold notTail at ht
  simp only [Option.bind_eq_bind, Option.bind_eq_some] at ht
  obtain ⟨st1, h1, ⟨t, st2⟩, h2, reg, _, ⟨t2, st5⟩, h5, h6⟩ := ht
  simp only [Option.some.injEq] at h6
  subst h6
  have c1 := loadIfNeeded_consistent m st st1 expr h1 h
  have c2 := writeExpression_consistent m st1 st2 expr t h2 c1
  have c5 := writeExpression_consistent m _ st5 expr t2 h5
    (emit_consistent _ _ (emit_consistent _ _ c2))
  exact assign_consistent_aux _ _ _ (emit_consistent _ _ c5)

theorem negateTail_consistent (m : Machine) (st st' : GenState) (result : NodeId)
    (expr : Expression) (ht : negateTail m st result expr = some st') (h : Consistent st) :
    Consistent st' := by
  unfold negateTail at ht
  simp only [Option.bind_eq_bind, Option.bind_eq_some] at ht
  obtain ⟨st1, h1, ⟨t, st2⟩, h2, h3⟩ := ht
  simp only [Option.some.injEq] at h3
  subst h3
  have c1 := loadIfNeeded_consistent m st st1 expr h1 h
  have c2 := writeExpression_consistent m st1 st2 expr t h2 c1
  exact assign_consistent_aux _ _ _ (emit_consistent _ _ c2)

theorem dereferenceTail_consistent (m : Machine) (st st' : GenState) (result : NodeId)
    (expr : Expression) (ht : dereferenceTail m st result expr = some st')
    (h : Consistent st) : Consistent st' := by
  unfold dereferenceTail at ht
  simp only [Option.bind_eq_bind, Option.bind_eq_some] at ht
  obtain ⟨st1, h1, ⟨t, st2⟩, h2, ⟨t2, st3⟩, h3, h4⟩ := ht
  simp only [Option.some.injEq] at h4
  subst h4
  have c1 := loadIfNeeded_consistent m st st1 expr h1 h
  have c2 := writeExpression_consistent m st1 st2 expr t h2 c1
  have c3 := writeExpression_consistent m st2 st3 expr t2 h3 c2
  exact assign_consistent_aux _ _ _ (emit_consistent _ _ c3)

theorem testTail_consistent (m : Machine) (st st' : GenState) (e : Expression)
    (label : Nat) (ifTrue : Bool) (ht : testTail m st e label ifTrue = some st')
    (h : Consistent st) : Consistent st' := by
  unfold testTail at ht
  simp only [Option.bind_eq_bind, Option.bind_eq_some] at ht
  obtain ⟨st1, h1, ⟨t, st2⟩, h2, h3⟩ := ht
  simp only [Option.some.injEq] at h3
  subst h3
  have c1 := loadIfNeeded_consistent m st st1 e h1 h
  have c2 := writeExpression_consistent m st1 st2 e t h2 c1
  exact assign_consistent_aux _ _ _ (emit_consistent _ _ (emit_consistent _ _ c2))

theorem lessThanTestTail_consistent (m : Machine) (st st' : GenState)
    (left right : Expression) (label : Nat) (ifTrue : Bool)
    (ht : lessThanTestTail m st left right label ifTrue = some st') (h : Consistent st) :
    Consistent st' := by
  unfold lessThanTestTail at ht
  simp only [Option.bind_eq_bind, Option.bind_eq_some] at ht
  obtain ⟨st1, h1, ⟨r, st2⟩, h2, ⟨l, st3⟩, h3, h4⟩ := ht
  simp only [Option.some.injEq] at h4
  subst h4
  have c1 := loadIfNeeded_consistent m st st1 left h1 h
  have c2 := writeExpression_consistent m st1 st2 right r h2 c1
  have c3 := writeExpression_consistent m st2 st3 left l h3 c2
  exact assign_consistent_aux _ _ _ (assign_consistent_aux _ _ _
    (emit_consistent _ _ (emit_consistent _ _ c3)))

theorem logicalTail_consistent (m : Machine) (st st' : GenState) (result : NodeId)
    (right : Expression) (next : Nat) (ht : logicalTail m st result right next = some st')
    (h : Consistent st) : Consistent st' := by
  unfold logicalTail at ht
  simp only [Option.bind_eq_bind, Option.bind_eq_some] at ht
  obtain ⟨st1, h1, ⟨t, st2⟩, h2, reg, _, ⟨t2, st6⟩, h6, h7⟩ := ht
  simp only [Option.some.injEq] at h7
  subst h7
  have c1 := loadIfNeeded_consistent m st st1 right h1 h
  have c2 := writeExpression_consistent m st1 st2 right t h2 c1
  have c6 := writeExpression_consistent m _ st6 right t2 h6
    (emit_consistent _ _ (emit_consistent _ _ (emit_consistent _ _ c2)))
  exact assign_consistent_aux _ _ _ (emit_consistent _ _ c6)

theorem spillAll_consistent (m : Machine) (st st' : GenState)
    (hs : spillAll m st = some st') (h : Consistent st) : Consistent st' := by
  unfold spillAll at hs
  simp only [Option.bind_eq_bind, Option.bind_eq_some] at hs
  obtain ⟨st1, h1, st2, h2, h3⟩ := hs
  exact load_consistent m st2 st' _ _ h3
    (load_consistent m st1 st2 _ _ h2 (load_consistent m st st1 _ _ h1 h))

theorem callEnd_consistent (st : GenState) (result : NodeId) (numBytes : Nat)
    (h : Consistent st) : Consistent (callEnd st result numBytes) := by
  unfold callEnd
  apply assign_consistent_aux
  split_ifs
  · exact emit_consistent _ _ h
  · exact h

theorem alignCall_consistent (m : Machine) (st : GenState) (numBytes : Nat)
    (h : Consistent st) : Consistent (alignCall m st numBytes).2 := by
  unfold alignCall
  split_ifs
  · exact emit_consistent _ _ h
  · exact h

theorem addressBase_consistent (m : Machine) (this base : Expression) (acc : Int)
    (st st' : GenState)
    (hg : (getreg m { st with offset := acc }).bind (fun p =>
      (writeExpression m (assign p.2 (some this.id) (some p.1)) base).bind (fun b =>
        (writeExpression m b.2 this).bind (fun t =>
          some (emit t.2 ("\tleal\t" ++ b.1 ++ ", " ++ t.1))))) = some st')
    (h : Consistent st) : Consistent st' := by
  simp only [Option.bind_eq_some] at hg
  obtain ⟨⟨reg, st1⟩, h1, ⟨b, st3⟩, h3, ⟨t, st4⟩, h4, h5⟩ := hg
  simp only [Option.some.injEq] at h5
  subst h5
  have c0 : Consistent { st with offset := acc } := consistent_congr st _ rfl rfl h
  have c1 := getreg_consistent m _ st1 reg h1 c0
  have c3 := writeExpression_consistent m _ st3 base b h3 (assign_consistent_aux _ _ _ c1)
  exact emit_consistent _ _ (writeExpression_consistent m st3 st4 this t h4 c3)

theorem fieldBase_consistent (m : Machine) (this expr0 base : Expression) (acc : Int)
    (st st' : GenState)
    (hg : (getreg m st).bind (fun p =>
      (writeExpression m (assign p.2 (some expr0.id) (some p.1)) base).bind (fun b =>
        (writeExpression m b.2 this).bind (fun t =>
          some (emit t.2
            ((if m.size (m.type this.id) = 4 then "\tmovl\t" else "\tmovb\t") ++ b.1 ++ ", " ++
              toString acc ++ "+" ++ t.1))))) = some st')
    (h : Consistent st) : Consistent st' := by
  simp only [Option.bind_eq_some] at hg
  obtain ⟨⟨reg, st1⟩, h1, ⟨b, st3⟩, h3, ⟨t, st4⟩, h4, h5⟩ := hg
  simp only [Option.some.injEq] at h5
  subst h5
  have c1 := getreg_consistent m _ st1 reg h1 h
  have c3 := writeExpression_consistent m _ st3 base b h3 (assign_consistent_aux _ _ _ c1)
  exact emit_consistent _ _ (writeExpression_consistent m st3 st4 this t h4 c3)

mutual

theorem generate_consistent (m : Machine) :
    ∀ (e : Expression) (st st' : GenState), generate m e st = some st' → Consistent st →
      Consistent st'
  | Expression.Identifier _ _ _, st, st', hg, h => by
    have hg' : some st = some st' := hg
    cases hg'; exact h
  | Expression.Number _ _, st, st', hg, h => by
    have hg' : some st = some st' := hg
    cases hg'; exact h
  | Expression.String _ _, st, st', hg, h => by
    have hg' : some st = some st' := hg
    cases hg'; exact h
  | Expression.Call id expr args, st, st', hg, h => by
    have hg' : (generateNested m args st).bind (fun st1 =>
        (pushArguments m args (alignCall m st1 (argumentBytes m args)).2).bind (fun st3 =>
          (spillAll m st3).bind (fun st4 =>
            if (m.type expr.id).isCallback then
              (generate m expr st4).bind (fun st5 =>
                (loadIfNeeded m st5 expr).bind (fun st6 =>
                  (writeExpression m st6 expr).bind (fun p =>
                    some (callEnd (assign (emit p.2 ("\tcall\t*" ++ p.1)) (some expr.id) none)
                      id (alignCall m st1 (argumentBytes m args)).1))))
            else
              (writeExpression m st4 expr).bind (fun p =>
                some (callEnd (emit p.2 ("\tcall\t" ++ p.1)) id
                  (alignCall m st1 (argumentBytes m args)).1))))) = some st' := hg
    simp only [Option.bind_eq_some] at hg'
    obtain ⟨st1, h1, st3, h3, st4, h4, h5⟩ := hg'
    have c1 := generateNested_consistent m args st st1 h1 h
    have c3 := pushArguments_consistent m args _ st3 h3 (alignCall_consistent m st1 _ c1)
    have c4 := spillAll_consistent m st3 st4 h4 c3
    split_ifs at h5
    · simp only [Option.bind_eq_some] at h5
      obtain ⟨st5, h6, st6, h7, ⟨t, st7⟩, h8, h9⟩ := h5
      simp only [Option.some.injEq] at h9
      subst h9
      have c5 := generate_consistent m expr st4 st5 h6 c4
      have c6 := loadIfNeeded_consistent m st5 st6 expr h7 c5
      have c7 := writeExpression_consistent m st6 st7 expr t h8 c6
      exact callEnd_consistent _ _ _ (assign_consistent_aux _ _ _ (emit_consistent _ _ c7))
    · simp only [Option.bind_eq_some] at h5
      obtain ⟨⟨t, st5⟩, h8, h9⟩ := h5
      simp only [Option.some.injEq] at h9
      subst h9
      have c5 := writeExpression_consistent m st4 st5 expr t h8 c4
      exact callEnd_consistent _ _ _ (emit_consistent _ _ c5)
  | Expression.Field id expr fieldOffset, st, st', hg, h =>
    generateField_consistent m (Expression.Field id expr fieldOffset) expr expr 0 st st' hg h
  | Expression.Address id expr, st, st', hg, h =>
    generateAddress_consistent m (Expression.Address id expr) expr 0 st st' hg h
  | Expression.Not id expr, st, st', hg, h => by
    have hg' : (generate m expr st).bind (fun st1 => notTail m st1 id expr) = some st' := hg
    simp only [Option.bind_eq_some] at hg'
    obtain ⟨st1, h1, h2⟩ := hg'
    exact notTail_consistent m st1 st' id expr h2 (generate_consistent m expr st st1 h1 h)
  | Expression.Negate id expr, st, st', hg, h => by
    have hg' : (generate m expr st).bind (fun st1 => negateTail m st1 id expr) = some st' := hg
    simp only [Option.bind_eq_some] at hg'
    obtain ⟨st1, h1, h2⟩ := hg'
    exact negateTail_consistent m st1 st' id expr h2 (generate_consistent m expr st st1 h1 h)
  | Expression.Dereference id expr, st, st', hg, h => by
    have hg' : (generate m expr st).bind (fun st1 => dereferenceTail m st1 id expr) = some st' := hg
    simp only [Option.bind_eq_some] at hg'
    obtain ⟨st1, h1, h2⟩ := hg'
    exact dereferenceTail_consistent m st1 st' id expr h2 (generate_consistent m expr st st1 h1 h)
  | Expression.Cast id expr, st, st', hg, h => by
    have hg' : (generate m expr st).bind (fun st1 => castTail m st1 id expr) = some st' := hg
    simp only [Option.bind_eq_some] at hg'
    obtain ⟨st1, h1, h2⟩ := hg'
    exact castTail_consistent m st1 st' id expr h2 (generate_consistent m expr st st1 h1 h)
  | Expression.Multiply id left right, st, st', hg, h => by
    have hg' : (generate m left st).bind (fun st1 =>
        (generate m right st1).bind (fun st2 => computeTail m st2 id left right "imull")) =
        some st' := hg
    simp only [Option.bind_eq_some] at hg'
    obtain ⟨st1, h1, st2, h2, h3⟩ := hg'
    exact computeTail_consistent m st2 st' id left right _ h3
      (generate_consistent m right st1 st2 h2 (generate_consistent m left st st1 h1 h))
  | Expression.Divide id left right, st, st', hg, h => by
    have hg' : (generate m left st).bind (fun st1 =>
        (generate m right st1).bind (fun st2 => divideTail m st2 id left right Register.eax)) =
        some st' := hg
    simp only [Option.bind_eq_some] at hg'
    obtain ⟨st1, h1, st2, h2, h3⟩ := hg'
    exact divideTail_consistent m st2 st' id left right _ h3
      (generate_consistent m right st1 st2 h2 (generate_consistent m left st st1 h1 h))
  | Expression.Remainder id left right, st, st', hg, h => by
    have hg' : (generate m left st).bind (fun st1 =>
        (generate m right st1).bind (fun st2 => divideTail m st2 id left right Register.edx)) =
        some st' := hg
    simp only [Option.bind_eq_some] at hg'
    obtain ⟨st1, h1, st2, h2, h3⟩ := hg'
    exact divideTail_consistent m st2 st' id left right _ h3
      (generate_consistent m right st1 st2 h2 (generate_consistent m left st st1 h1 h))
  | Expression.Add id left right, st, st', hg, h => by
    have hg' : (generate m left st).bind (fun st1 =>
        (generate m right st1).bind (fun st2 => computeTail m st2 id left right "addl")) =
        some st' := hg
    simp only [Option.bind_eq_some] at hg'
    obtain ⟨st1, h1, st2, h2, h3⟩ := hg'
    exact computeTail_consistent m st2 st' id left right _ h3
      (generate_consistent m right st1 st2 h2 (generate_consistent m left st st1 h1 h))
  | Expression.Subtract id left right, st, st', hg, h => by
    have hg' : (generate m left st).bind (fun st1 =>
        (generate m right st1).bind (fun st2 => computeTail m st2 id left right "subl")) =
        some st' := hg
    simp only [Option.bind_eq_some] at hg'
    obtain ⟨st1, h1, st2, h2, h3⟩ := hg'
    exact computeTail_consistent m st2 st' id left right _ h3
      (generate_consistent m right st1 st2 h2 (generate_consistent m left st st1 h1 h))
  | Expression.LessThan id left right, st, st', hg, h => by
    have hg' : (generate m left st).bind (fun st1 =>
        (generate m right st1).bind (fun st2 => compareTail m st2 id left right "setl")) =
        some st' := hg
    simp only [Option.bind_eq_some] at hg'
    obtain ⟨st1, h1, st2, h2, h3⟩ := hg'
    exact compareTail_consistent m st2 st' id left right _ h3
      (generate_consistent m right st1 st2 h2 (generate_consistent m left st st1 h1 h))
  | Expression.GreaterThan id left right, st, st', hg, h => by
    have hg' : (generate m left st).bind (fun st1 =>
        (generate m right st1).bind (fun st2 => compareTail m st2 id left right "setg")) =
        some st' := hg
    simp only [Option.bind_eq_some] at hg'
    obtain ⟨st1, h1, st2, h2, h3⟩ := hg'
    exact compareTail_consistent m st2 st' id left right _ h3
      (generate_consistent m right st1 st2 h2 (generate_consistent m left st st1 h1 h))
  | Expression.LessOrEqual id left right, st, st', hg, h => by
    have hg' : (generate m left st).bind (fun st1 =>
        (generate m right st1).bind (fun st2 => compareTail m st2 id left right "setle")) =
        some st' := hg
    simp only [Option.bind_eq_some] at hg'
    obtain ⟨st1, h1, st2, h2, h3⟩ := hg'
    exact compareTail_consistent m st2 st' id left right _ h3
      (generate_consistent m right st1 st2 h2 (generate_consistent m left st st1 h1 h))
  | Expression.GreaterOrEqual id left right, st, st', hg, h => by
    have hg' : (generate m left st).bind (fun st1 =>
        (generate m right st1).bind (fun st2 => compareTail m st2 id left right "setge")) =
        some st' := hg
    simp only [Option.bind_eq_some] at hg'
    obtain ⟨st1, h1, st2, h2, h3⟩ := hg'
    exact compareTail_consistent m st2 st' id left right _ h3
      (generate_consistent m right st1 st2 h2 (generate_consistent m left st st1 h1 h))
  | Expression.Equal id left right, st, st', hg, h => by
    have hg' : (generate m left st).bind (fun st1 =>
        (generate m right st1).bind (fun st2 => compareTail m st2 id left right "sete")) =
        some st' := hg
    simp only [Option.bind_eq_some] at hg'
    obtain ⟨st1, h1, st2, h2, h3⟩ := hg'
    exact compareTail_consistent m st2 st' id left right _ h3
      (generate_consistent m right st1 st2 h2 (generate_consistent m left st st1 h1 h))
  | Expression.NotEqual id left right, st, st', hg, h => by
    have hg' : (generate m left st).bind (fun st1 =>
        (generate m right st1).bind (fun st2 => compareTail m st2 id left right "setne")) =
        some st' := hg
    simp only [Option.bind_eq_some] at hg'
    obtain ⟨st1, h1, st2, h2, h3⟩ := hg'
    exact compareTail_consistent m st2 st' id left right _ h3
      (generate_consistent m right st1 st2 h2 (generate_consistent m left st st1 h1 h))
  | Expression.LogicalAnd id left right, st, st', hg, h => by
    rw [generate_LogicalAnd] at hg
    simp only [Option.bind_eq_some] at hg
    obtain ⟨st1, h1, st2, h2, h3⟩ := hg
    have c0 : Consistent (newLabel st).2 := consistent_congr st _ rfl rfl h
    have c1 : Consistent st1 := by
      cases left with
      | LessThan i a b =>
        have h1' : (generate m a (newLabel st).2).bind (fun s1 =>
            (generate m b s1).bind (fun s2 =>
              lessThanTestTail m s2 a b (newLabel st).1 false)) = some st1 := h1
        simp only [Option.bind_eq_some] at h1'
        obtain ⟨s1, g1, s2, g2, g3⟩ := h1'
        exact lessThanTestTail_consistent m s2 st1 a b _ _ g3
          (generate_consistent m b s1 s2 g2 (generate_consistent m a _ s1 g1 c0))
      | _ =>
        simp only [test, Option.bind_eq_bind, Option.bind_eq_some] at h1
        obtain ⟨s1, g1, g2⟩ := h1
        exact testTail_consistent m s1 st1 _ _ _ g2 (generate_consistent m _ _ s1 g1 c0)
    exact logicalTail_consistent m st2 st' id right _ h3
      (generate_consistent m right st1 st2 h2 c1)
  | Expression.LogicalOr id left right, st, st', hg, h => by
    rw [generate_LogicalOr] at hg
    simp only [Option.bind_eq_some] at hg
    obtain ⟨st1, h1, st2, h2, h3⟩ := hg
    have c0 : Consistent (newLabel st).2 := consistent_congr st _ rfl rfl h
    have c1 : Consistent st1 := by
      cases left with
      | LessThan i a b =>
        have h1' : (generate m a (newLabel st).2).bind (fun s1 =>
            (generate m b s1).bind (fun s2 =>
              lessThanTestTail m s2 a b (newLabel st).1 true)) = some st1 := h1
        simp only [Option.bind_eq_some] at h1'
        obtain ⟨s1, g1, s2, g2, g3⟩ := h1'
        exact lessThanTestTail_consistent m s2 st1 a b _ _ g3
          (generate_consistent m b s1 s2 g2 (generate_consistent m a _ s1 g1 c0))
      | _ =>
        simp only [test, Option.bind_eq_bind, Option.bind_eq_some] at h1
        obtain ⟨s1, g1, g2⟩ := h1
        exact testTail_consistent m s1 st1 _ _ _ g2 (generate_consistent m _ _ s1 g1 c0)
    exact logicalTail_consistent m st2 st' id right _ h3
      (generate_consistent m right st1 st2 h2 c1)

theorem generateNested_consistent (m : Machine) :
    ∀ (args : List Expression) (st st' : GenState), generateNested m args st = some st' →
      Consistent st → Consistent st'
  | [], st, st', hg, h => by
    have hg' : some st = some st' := hg
    cases hg'; exact h
  | a :: rest, st, st', hg, h => by
    have hg' : (generateNested m rest st).bind (fun st1 =>
        if m.STACK_ALIGNMENT ≠ m.SIZEOF_REG ∧ m.hasCall a.id = true then generate m a st1
        else some st1) = some st' := hg
    simp only [Option.bind_eq_some] at hg'
    obtain ⟨st1, h1, h2⟩ := hg'
    have c1 := generateNested_consistent m rest st st1 h1 h
    split_ifs at h2
    · exact generate_consistent m a st1 st' h2 c1
    · cases h2; exact c1

theorem pushArguments_consistent (m : Machine) :
    ∀ (args : List Expression) (st st' : GenState), pushArguments m args st = some st' →
      Consistent st → Consistent st'
  | [], st, st', hg, h => by
    have hg' : some st = some st' := hg
    cases hg'; exact h
  | a :: rest, st, st', hg, h => by
    have hg' : (pushArguments m rest st).bind (fun st1 =>
        (if m.STACK_ALIGNMENT = m.SIZEOF_REG ∨ m.hasCall a.id = false then generate m a st1
          else some st1).bind (fun st2 =>
          (writeExpression m st2 a).bind (fun p =>
            some (assign (emit p.2 ("\tpushl\t" ++ p.1)) (some a.id) none)))) = some st' := hg
    simp only [Option.bind_eq_some] at hg'
    obtain ⟨st1, h1, st2, h2, ⟨t, st3⟩, h3, h4⟩ := hg'
    simp only [Option.some.injEq] at h4
    subst h4
    have c1 := pushArguments_consistent m rest st st1 h1 h
    have c2 : Consistent st2 := by
      split_ifs at h2
      · exact generate_consistent m a st1 st2 h2 c1
      · cases h2; exact c1
    have c3 := writeExpression_consistent m st2 st3 a t h3 c2
    exact assign_consistent_aux _ _ _ (emit_consistent _ _ c3)

theorem generateAddress_consistent (m : Machine) (this : Expression) :
    ∀ (e : Expression) (acc : Int) (st st' : GenState),
      generateAddress m this e acc st = some st' → Consistent st → Consistent st'
  | Expression.Field _ expr fieldOffset, acc, st, st', hg, h =>
    generateAddress_consistent m this expr (acc + fieldOffset) st st' hg h
  | Expression.Dereference _ ptr, acc, st, st', hg, h => by
    have hg' : (generate m ptr { st with offset := acc }).bind (fun st1 =>
        (loadIfNeeded m st1 ptr).bind (fun st2 =>
          some (assign st2 (some this.id) (st2.register ptr.id)))) = some st' := hg
    simp only [Option.bind_eq_some] at hg'
    obtain ⟨st1, h1, st2, h2, h3⟩ := hg'
    simp only [Option.some.injEq] at h3
    subst h3
    have c0 : Consistent { st with offset := acc } := consistent_congr st _ rfl rfl h
    exact assign_consistent_aux _ _ _
      (loadIfNeeded_consistent m st1 st2 ptr h2 (generate_consistent m ptr _ st1 h1 c0))
  | Expression.Identifier i n o, acc, st, st', hg, h =>
    addressBase_consistent m this (Expression.Identifier i n o) acc st st' hg h
  | Expression.Number i v, acc, st, st', hg, h =>
    addressBase_consistent m this (Expression.Number i v) acc st st' hg h
  | Expression.String i v, acc, st, st', hg, h =>
    addressBase_consistent m this (Expression.String i v) acc st st' hg h
  | Expression.Call i e l, acc, st, st', hg, h =>
    addressBase_consistent m this (Expression.Call i e l) acc st st' hg h
  | Expression.Not i e, acc, st, st', hg, h =>
    addressBase_consistent m this (Expression.Not i e) acc st st' hg h
  | Expression.Negate i e, acc, st, st', hg, h =>
    addressBase_consistent m this (Expression.Negate i e) acc st st' hg h
  | Expression.Address i e, acc, st, st', hg, h =>
    addressBase_consistent m this (Expression.Address i e) acc st st' hg h
  | Expression.Cast i e, acc, st, st', hg, h =>
    addressBase_consistent m this (Expression.Cast i e) acc st st' hg h
  | Expression.Multiply i l r, acc, st, st', hg, h =>
    addressBase_consistent m this (Expression.Multiply i l r) acc st st' hg h
  | Expression.Divide i l r, acc, st, st', hg, h =>
    addressBase_consistent m this (Expression.Divide i l r) acc st st' hg h
  | Expression.Remainder i l r, acc, st, st', hg, h =>
    addressBase_consistent m this (Expression.Remainder i l r) acc st st' hg h
  | Expression.Add i l r, acc, st, st', hg, h =>
    addressBase_consistent m this (Expression.Add i l r) acc st st' hg h
  | Expression.Subtract i l r, acc, st, st', hg, h =>
    addressBase_consistent m this (Expression.Subtract i l r) acc st st' hg h
  | Expression.LessThan i l r, acc, st, st', hg, h =>
    addressBase_consistent m this (Expression.LessThan i l r) acc st st' hg h
  | Expression.GreaterThan i l r, acc, st, st', hg, h =>
    addressBase_consistent m this (Expression.GreaterThan i l r) acc st st' hg h
  | Expression.LessOrEqual i l r, acc, st, st', hg, h =>
    addressBase_consistent m this (Expression.LessOrEqual i l r) acc st st' hg h
  | Expression.GreaterOrEqual i l r, acc, st, st', hg, h =>
    addressBase_consistent m this (Expression.GreaterOrEqual i l r) acc st st' hg h
  | Expression.Equal i l r, acc, st, st', hg, h =>
    addressBase_consistent m this (Expression.Equal i l r) acc st st' hg h
  | Expression.NotEqual i l r, acc, st, st', hg, h =>
    addressBase_consistent m this (Expression.NotEqual i l r) acc st st' hg h
  | Expression.LogicalAnd i l r, acc, st, st', hg, h =>
    addressBase_consistent m this (Expression.LogicalAnd i l r) acc st st' hg h
  | Expression.LogicalOr i l r, acc, st, st', hg, h =>
    addressBase_consistent m this (Expression.LogicalOr i l r) acc st st' hg h

theorem generateField_consistent (m : Machine) (this expr0 : Expression) :
    ∀ (e : Expression) (acc : Int) (st st' : GenState),
      generateField m this expr0 e acc st = some st' → Consistent st → Consistent st'
  | Expression.Field _ expr fieldOffset, acc, st, st', hg, h =>
    generateField_consistent m this expr0 expr (acc + fieldOffset) st st' hg h
  | Expression.Dereference _ ptr, acc, st, st', hg, h => by
    have hg' : (generate m ptr st).bind (fun st1 =>
        (loadIfNeeded m st1 ptr).bind (fun st2 =>
          (getreg m st2).bind (fun p =>
            (writeExpression m (assign p.2 (some this.id) (some p.1)) ptr).bind (fun q =>
              (writeExpression m q.2 this).bind (fun t =>
                some (emit t.2
                  ((if m.size (m.type this.id) = 4 then "\tmovl\t" else "\tmovb\t") ++
                    q.1 ++ ", " ++ toString acc ++ "+(" ++ t.1 ++ ")"))))))) = some st' := hg
    simp only [Option.bind_eq_some] at hg'
    obtain ⟨st1, h1, st2, h2, ⟨reg, st3⟩, h3, ⟨q, st5⟩, h5, ⟨t, st6⟩, h6, h7⟩ := hg'
    simp only [Option.some.injEq] at h7
    subst h7
    have c1 := generate_consistent m ptr st st1 h1 h
    have c2 := loadIfNeeded_consistent m st1 st2 ptr h2 c1
    have c3 := getreg_consistent m st2 st3 reg h3 c2
    have c5 := writeExpression_consistent m _ st5 ptr q h5 (assign_consistent_aux _ _ _ c3)
    exact emit_consistent _ _ (writeExpression_consistent m st5 st6 this t h6 c5)
  | Expression.Identifier i n o, acc, st, st', hg, h =>
    fieldBase_consistent m this expr0 (Expression.Identifier i n o) acc st st' hg h
  | Expression.Number i v, acc, st, st', hg, h =>
    fieldBase_consistent m this expr0 (Expression.Number i v) acc st st' hg h
  | Expression.String i v, acc, st, st', hg, h =>
    fieldBase_consistent m this expr0 (Expression.String i v) acc st st' hg h
  | Expression.Call i e l, acc, st, st', hg, h =>
    fieldBase_consistent m this expr0 (Expression.Call i e l) acc st st' hg h
  | Expression.Not i e, acc, st, st', hg, h =>
    fieldBase_consistent m this expr0 (Expression.Not i e) acc st st' hg h
  | Expression.Negate i e, acc, st, st', hg, h =>
    fieldBase_consistent m this expr0 (Expression.Negate i e) acc st st' hg h
  | Expression.Address i e, acc, st, st', hg, h =>
    fieldBase_consistent m this expr0 (Expression.Address i e) acc st st' hg h
  | Expression.Cast i e, acc, st, st', hg, h =>
    fieldBase_consistent m this expr0 (Expression.Cast i e) acc st st' hg h
  | Expression.Multiply i l r, acc, st, st', hg, h =>
    fieldBase_consistent m this expr0 (Expression.Multiply i l r) acc st st' hg h
  | Expression.Divide i l r, acc, st, st', hg, h =>
    fieldBase_consistent m this expr0 (Expression.Divide i l r) acc st st' hg h
  | Expression.Remainder i l r, acc, st, st', hg, h =>
    fieldBase_consistent m this expr0 (Expression.Remainder i l r) acc st st' hg h
  | Expression.Add i l r, acc, st, st', hg, h =>
    fieldBase_consistent m this expr0 (Expression.Add i l r) acc st st' hg h
  | Expression.Subtract i l r, acc, st, st', hg, h =>
    fieldBase_consistent m this expr0 (Expression.Subtract i l r) acc st st' hg h
  | Expression.LessThan i l r, acc, st, st', hg, h =>
    fieldBase_consistent m this expr0 (Expression.LessThan i l r) acc st st' hg h
  | Expression.GreaterThan i l r, acc, st, st', hg, h =>
    fieldBase_consistent m this expr0 (Expression.GreaterThan i l r) acc st st' hg h
  | Expression.LessOrEqual i l r, acc, st, st', hg, h =>
    fieldBase_consistent m this expr0 (Expression.LessOrEqual i l r) acc st st' hg h
  | Expression.GreaterOrEqual i l r, acc, st, st', hg, h =>
    fieldBase_consistent m this expr0 (Expression.GreaterOrEqual i l r) acc st st' hg h
  | Expression.Equal i l r, acc, st, st', hg, h =>
    fieldBase_consistent m this expr0 (Expression.Equal i l r) acc st st' hg h
  | Expression.NotEqual i l r, acc, st, st', hg, h =>
    fieldBase_consistent m this expr0 (Expression.NotEqual i l r) acc st st' hg h
  | Expression.LogicalAnd i l r, acc, st, st', hg, h =>
    fieldBase_consistent m this expr0 (Expression.LogicalAnd i l r) acc st st' hg h
  | Expression.LogicalOr i l r, acc, st, st', hg, h =>
    fieldBase_consistent m this expr0 (Expression.LogicalOr i l r) acc st st' hg h

end

theorem load_none_eq (m : Machine) (st : GenState) (r : Register) :
    load m st none r =
      some (match st.node r with
        | some old =>
          { st with
            offset := st.offset - m.size (m.type old)
            nodeOffset := setMember st.nodeOffset old (st.offset - m.size (m.type old))
            out := st.out ++
              [spillLine r (m.size (m.type old)) (st.offset - m.size (m.type old))]
            register := setMember st.register old none
            node := setNode st.node r none }
        | none => st) := by
  rw [load_none_returns]
  cases h : st.node r with
  | none => rfl
  | some old => simp [assign, spill, h]

theorem consistent_injective (st : GenState) (h : Consistent st) (r1 r2 : Register)
    (n : NodeId) (h1 : st.node r1 = some n) (h2 : st.node r2 = some n) : r1 = r2 := by
  have e1 := (h r1 n).1 h1
  have e2 := (h r2 n).1 h2
  rw [e1] at e2
  exact Option.some.inj e2

theorem spillAll_spec (m : Machine) (st : GenState) (hc : Consistent st) :
    ∃ st4, spillAll m st = some st4 ∧ (∀ r, st4.node r = none) ∧
      st4.out = st.out ++ spillStores m st ∧
      (∀ r n, st.node r = some n →
        st4.nodeOffset n = spillSlot m st r ∧
        spillLine r (m.size (m.type n)) (spillSlot m st r) ∈ spillStores m st) := by
  have inj := consistent_injective st hc
  unfold spillAll
  simp only [Option.bind_eq_bind, load_none_eq, Option.some_bind]
  refine ⟨_, rfl, ?_, ?_, ?_⟩
  · intro r
    cases ha : st.node Register.eax <;> cases hb : st.node Register.ecx <;>
      cases hd : st.node Register.edx <;> cases r <;> simp [setNode, ha, hb, hd]
  · cases ha : st.node Register.eax <;> cases hb : st.node Register.ecx <;>
      cases hd : st.node Register.edx <;>
      simp [setNode, ha, hb, hd, spillStores, registers, spillSlot, spilledBytes,
        sub_sub, Nat.cast_add, add_assoc]
  · intro r n hr
    have hab : ∀ a b, st.node Register.eax = some a → st.node Register.ecx = some b →
        a ≠ b := by
      intro a b h1 h2 e
      subst e
      exact absurd (inj _ _ a h1 h2) (by decide)
    have had : ∀ a b, st.node Register.eax = some a → st.node Register.edx = some b →
        a ≠ b := by
      intro a b h1 h2 e
      subst e
      exact absurd (inj _ _ a h1 h2) (by decide)
    have hbd : ∀ a b, st.node Register.ecx = some a → st.node Register.edx = some b →
        a ≠ b := by
      intro a b h1 h2 e
      subst e
      exact absurd (inj _ _ a h1 h2) (by decide)
    cases ha : st.node Register.eax <;> cases hb : st.node Register.ecx <;>
      cases hd : st.node Register.edx <;> cases r <;>
      (first | rw [ha] at hr | rw [hb] at hr | rw [hd] at hr) <;>
      cases hr <;>
      (first | have e1 := hab _ _ ha hb | have e1 := trivial) <;>
      (first | have e2 := had _ _ ha hd | have e2 := trivial) <;>
      (first | have e3 := hbd _ _ hb hd | have e3 := trivial) <;>
      (first | have e4 := (hab _ _ ha hb).symm | have e4 := trivial) <;>
      (first | have e5 := (had _ _ ha hd).symm | have e5 := trivial) <;>
      (first | have e6 := (hbd _ _ hb hd).symm | have e6 := trivial) <;>
      simp [setNode, setMember, ha, hb, hd, spillStores, registers, spillSlot,
        spilledBytes, sub_sub, Nat.cast_add, add_assoc, e1, e2, e3, e4, e5, e6]

theorem spillSlot_distinct (m : Machine) (st : GenState)
    (hpos : ∀ n, 0 < m.size (m.type n)) (r1 r2 : Register) (n1 n2 : NodeId)
    (h1 : st.node r1 = some n1) (h2 : st.node r2 = some n2) (hne : r1 ≠ r2) :
    spillSlot m st r1 ≠ spillSlot m st r2 := by
  have hb : ∀ r n, st.node r = some n → 0 < spilledBytes m st [r] := by
    intro r n h
    simp [spilledBytes, h, hpos]
  have e1 : spilledBytes m st [Register.eax, Register.ecx] =
      spilledBytes m st [Register.eax] + spilledBytes m st [Register.ecx] := by
    simp [spilledBytes]
  have e2 : spilledBytes m st [Register.eax, Register.ecx, Register.edx] =
      spilledBytes m st [Register.eax] + spilledBytes m st [Register.ecx] +
        spilledBytes m st [Register.edx] := by
    simp [spilledBytes, add_assoc]
  have p1 := hb r1 n1 h1
  have p2 := hb r2 n2 h2
  cases r1 <;> cases r2 <;> simp only [spillSlot, e1, e2] <;>
    first
    | exact absurd rfl hne
    | omega

theorem generate_Call_function (m : Machine) (id : NodeId) (expr : Expression)
    (args : List Expression) (st st' : GenState)
    (hcb : (m.type expr.id).isCallback = false)
    (h : generate m (Expression.Call id expr args) st = some st') :
    ∃ st1 st3 st4 t st5, generateNested m args st = some st1 ∧
      pushArguments m args (alignCall m st1 (argumentBytes m args)).2 = some st3 ∧
      spillAll m st3 = some st4 ∧
      writeExpression m st4 expr = some (t, st5) ∧
      st' = callEnd (emit st5 ("\tcall\t" ++ t)) id
        (alignCall m st1 (argumentBytes m args)).1 := by
  rw [generate_Call_eq] at h
  simp only [Option.bind_eq_some] at h
  obtain ⟨st1, h1, st3, h3, h4⟩ := h
  unfold callTail at h4
  simp only [Option.bind_eq_bind, Option.bind_eq_some, hcb, Bool.false_eq_true, if_false] at h4
  obtain ⟨st4, h5, ⟨t, st5⟩, h6, h7⟩ := h4
  simp only [Option.some.injEq] at h7
  exact ⟨st1, st3, st4, t, st5, h1, h3, h5, h6, h7.symm⟩

theorem register_none_of_free (st : GenState) (hc : Consistent st)
    (hfree : ∀ r, st.node r = none) : ∀ n, st.register n = none := by
  intro n
  cases h : st.register n with
  | none => rfl
  | some r =>
    have := (hc r n).2 h
    rw [hfree r] at this
    cases this

theorem callEnd_free (st : GenState) (id : NodeId) (numBytes : Nat) (hc : Consistent st)
    (hfree : ∀ r, st.node r = none) :
    (callEnd st id numBytes).node = setNode (fun _ => none) Register.eax (some id) ∧
    (callEnd st id numBytes).register = setMember (fun _ => none) id (some Register.eax) := by
  have hreg := register_none_of_free st hc hfree
  have hn : st.node = fun _ => none := funext hfree
  have hr : st.register = fun _ => none := funext hreg
  unfold callEnd
  split_ifs <;> simp [assign, emit, hn, hr]

/-- The spills of `Call::generate` for a callee that is not a callback, started in a
state in which registers and nodes are mutually consistent and on arguments that are
other nodes than the call. In the state in which the call instruction is
written no register of the bank has an owner; every node that owned one when
the spills began has the slot that its spill carved below the cursor as its
location, names no register, and its store was written, the stores being all
that was written since; these slots are pairwise distinct when no type has
size 0. When `Call::generate` returns, `eax` holds the call node, which names
`eax`, `ecx` and `edx` hold nothing, and no argument names a register. -/
theorem call_spills_registers (m : Machine) (id : NodeId) (expr : Expression)
    (args : List Expression) (st st' : GenState) (hc : Consistent st)
    (hcb : (m.type expr.id).isCallback = false) (hid : ∀ a ∈ args, a.id ≠ id)
    (h : generate m (Expression.Call id expr args) st = some st') :
    ∃ st1 st3 st4 t st5, generateNested m args st = some st1 ∧
      pushArguments m args (alignCall m st1 (argumentBytes m args)).2 = some st3 ∧
      spillAll m st3 = some st4 ∧
      writeExpression m st4 expr = some (t, st5) ∧
      st' = callEnd (emit st5 ("\tcall\t" ++ t)) id
        (alignCall m st1 (argumentBytes m args)).1 ∧
      (∀ r, st5.node r = none) ∧
      st5.out = st3.out ++ spillStores m st3 ∧
      (∀ r n, st3.node r = some n →
        st5.nodeOffset n = spillSlot m st3 r ∧ st5.register n = none ∧
        spillLine r (m.size (m.type n)) (spillSlot m st3 r) ∈ spillStores m st3) ∧
      ((∀ n, 0 < m.size (m.type n)) →
        ∀ r1 r2 n1 n2, st3.node r1 = some n1 → st3.node r2 = some n2 → r1 ≠ r2 →
          spillSlot m st3 r1 ≠ spillSlot m st3 r2) ∧
      st'.node Register.eax = some id ∧ st'.register id = some Register.eax ∧
      st'.node Register.ecx = none ∧ st'.node Register.edx = none ∧
      (∀ a ∈ args, st'.register a.id = none ∧ ∀ r, st'.node r ≠ some a.id) := by
  obtain ⟨st1, st3, st4, t, st5, h1, h3, h4, h5, h6⟩ :=
    generate_Call_function m id expr args st st' hcb h
  have c1 := generateNested_consistent m args st st1 h1 hc
  have c3 := pushArguments_consistent m args _ st3 h3 (alignCall_consistent m st1 _ c1)
  obtain ⟨s4, g1, g2, g3, g4⟩ := spillAll_spec m st3 c3
  rw [h4] at g1
  cases g1
  have c4 := spillAll_consistent m st3 st4 h4 c3
  have c5 := writeExpression_consistent m st4 st5 expr t h5 c4
  obtain ⟨f1, f2, f3, _, f5, _⟩ := writeExpression_frame m st4 st5 expr t h5
  have hfree : ∀ r, st5.node r = none := by
    intro r; rw [f1]; exact g2 r
  have hreg := register_none_of_free st5 c5 hfree
  obtain ⟨e1, e2⟩ := callEnd_free (emit st5 ("\tcall\t" ++ t)) id
    (alignCall m st1 (argumentBytes m args)).1 (emit_consistent _ _ c5) hfree
  refine ⟨st1, st3, st4, t, st5, h1, h3, h4, h5, h6, hfree, by rw [f5, g3], ?_,
    fun hpos => spillSlot_distinct m st3 hpos, ?_, ?_, ?_, ?_, ?_⟩
  · intro r n hr
    obtain ⟨k1, k2⟩ := g4 r n hr
    exact ⟨by rw [f3]; exact k1, hreg n, k2⟩
  · rw [h6, e1]; simp [setNode]
  · rw [h6, e2]; simp [setMember]
  · rw [h6, e1]; simp [setNode]
  · rw [h6, e1]; simp [setNode]
  · intro a ha
    have hne := hid a ha
    constructor
    · rw [h6, e2]; simp [setMember, hne]
    · intro r
      rw [h6, e1]
      cases r <;> simp [setNode, hne.symm]

/-- The call `f(9)` made while `eax` holds node 1: the value of node 1 goes
to the slot -12 by one store written before the call instruction, after which
`eax` holds the call, node 8, and the argument, node 7, names no register. -/
theorem call_spills_registers_witness :
    ∃ st', generate intMachine callNine eaxHoldsOne = some st' ∧
      st'.node Register.eax = some 8 ∧ st'.register 8 = some Register.eax ∧
      st'.node Register.ecx = none ∧ st'.node Register.edx = none ∧
      st'.register 7 = none ∧ st'.nodeOffset 1 = -12 ∧
      st'.out = ["\tpushl\t$9", "\tmovl\t%eax, -12(%ebp)", "\tcall\tf", "\taddl\t$4, %esp"] := by
  have hsome : (generate intMachine callNine eaxHoldsOne).isSome = true := by decide
  obtain ⟨st', hg⟩ := Option.isSome_iff_exists.1 hsome
  obtain ⟨st1, st3, st4, t, st5, _, _, _, _, _, _, _, _, _, k1, k2, k3, k4, k5⟩ :=
    call_spills_registers intMachine 8 (Expression.Identifier 6 "f" 0)
      [Expression.Number 7 9] eaxHoldsOne st' consistent_eaxHoldsOne rfl
      (by intro a ha; simp at ha; subst ha; decide) hg
  refine ⟨st', hg, k1, k2, k3, k4, (k5 _ (List.mem_singleton.2 rfl)).1, ?_, ?_⟩
  · have : (generate intMachine callNine eaxHoldsOne).map (fun s => s.nodeOffset 1) =
        some (-12) := by decide
    rw [hg] at this
    exact Option.some.inj this
  · have : (generate intMachine callNine eaxHoldsOne).map (fun s => s.out) =
        some ["\tpushl\t$9", "\tmovl\t%eax, -12(%ebp)", "\tcall\tf", "\taddl\t$4, %esp"] := by
      decide
    rw [hg] at this
    exact Option.some.inj this

/-! ## Frame size and exit label of a procedure -/

theorem align_int (m : Machine) (n : Int) (hpos : 0 < m.STACK_ALIGNMENT) :
    0 ≤ align m n ∧ align m n < m.STACK_ALIGNMENT ∧
    (m.STACK_ALIGNMENT : Int) ∣ ((n.natAbs : Int) + align m n) ∧
    (n ≤ 0 → (m.STACK_ALIGNMENT : Int) ∣ (n - align m n)) := by
  have hA : (0 : Int) < (m.STACK_ALIGNMENT : Int) := by exact_mod_cast hpos
  have habs : ((n.natAbs : Int) % (m.STACK_ALIGNMENT : Int) = 0) ↔
      (n % (m.STACK_ALIGNMENT : Int) = 0) := by
    rw [← Int.dvd_iff_emod_eq_zero, ← Int.dvd_iff_emod_eq_zero, Int.dvd_natAbs]
  have h1 := Int.emod_nonneg (n.natAbs : Int) (ne_of_gt hA)
  have h2 := Int.emod_lt_of_pos (n.natAbs : Int) hA
  have hdiv : (m.STACK_ALIGNMENT : Int) ∣
      ((n.natAbs : Int) - (n.natAbs : Int) % (m.STACK_ALIGNMENT : Int)) :=
    Int.dvd_sub_of_emod_eq rfl
  unfold align
  by_cases h0 : n % (m.STACK_ALIGNMENT : Int) = 0
  · have h3 := habs.2 h0
    simp only [h0, if_true]
    refine ⟨le_refl _, hA, ?_, ?_⟩
    · rw [add_zero]; exact Int.dvd_of_emod_eq_zero h3
    · intro _
      rw [sub_zero]; exact Int.dvd_of_emod_eq_zero h0
  · have h3 : (n.natAbs : Int) % (m.STACK_ALIGNMENT : Int) ≠ 0 := fun h => h0 (habs.1 h)
    simp only [h0, if_false]
    refine ⟨by omega, by omega, ?_, ?_⟩
    · have : (n.natAbs : Int) + ((m.STACK_ALIGNMENT : Int) -
          (n.natAbs : Int) % (m.STACK_ALIGNMENT : Int)) =
          ((n.natAbs : Int) - (n.natAbs : Int) % (m.STACK_ALIGNMENT : Int)) +
            (m.STACK_ALIGNMENT : Int) := by ring
      rw [this]
      exact dvd_add hdiv (dvd_refl _)
    · intro hn
      have hna : (n.natAbs : Int) = -n := by omega
      have : n - ((m.STACK_ALIGNMENT : Int) -
          (n.natAbs : Int) % (m.STACK_ALIGNMENT : Int)) =
          -(((n.natAbs : Int) - (n.natAbs : Int) % (m.STACK_ALIGNMENT : Int)) +
            (m.STACK_ALIGNMENT : Int)) := by
        rw [hna]; ring
      rw [this]
      exact (dvd_neg.2 (dvd_add hdiv (dvd_refl _)))

/-- C31: for a positive `STACK_ALIGNMENT`, when `Procedure::generate` returns with the
cursor `c` at the end of the body, the final cursor `c'`, whose negation is the
value written for `<name>.size`, satisfies `c' ≤ c` and `c - c' <
STACK_ALIGNMENT`, and `c' - 2 * SIZEOF_REG` is a multiple of `STACK_ALIGNMENT`
when `c ≤ 0`. The stack adjustment of the prologue names the constant, and its
`.set` directive is written once, in the lines that follow the body, after the
`ret` of the epilogue. For every integer `n`, `0 ≤ align(n) < STACK_ALIGNMENT`
and `|n| + align(n)` is a multiple of `STACK_ALIGNMENT`. -/
theorem procedure_frame_size (m : Machine) (name : String) (allocated : Int)
    (body : List Statement) (st st' : GenState) (hpos : 0 < m.STACK_ALIGNMENT)
    (h : generateProcedure m name allocated body st = some st') :
    (∃ st2,
      generateBlock m body
        { st with offset := allocated, funcname := name, out := st.out ++ prologue m name } =
        some st2 ∧
      st'.offset ≤ st2.offset ∧ st2.offset - st'.offset < m.STACK_ALIGNMENT ∧
      (st2.offset ≤ 0 →
        (m.STACK_ALIGNMENT : Int) ∣ (st'.offset - 2 * (m.SIZEOF_REG : Int))) ∧
      st'.out = st2.out ++ epilogue m name st'.offset) ∧
    prologue m name =
      [m.globalPrefix ++ name ++ ":", "\tpushl\t%ebp", "\tmovl\t%esp, %ebp",
        "\tsubl\t$" ++ name ++ ".size, %esp"] ∧
    (∀ c' : Int, epilogue m name c' =
      ["", m.globalPrefix ++ name ++ ".exit:", "\tmovl\t%ebp, %esp", "\tpopl\t%ebp", "\tret",
        "", "\t.set\t" ++ name ++ ".size, " ++ toString (-c'),
        "\t.globl\t" ++ m.globalPrefix ++ name, ""]) ∧
    (∀ n : Int, 0 ≤ align m n ∧ align m n < m.STACK_ALIGNMENT ∧
      (m.STACK_ALIGNMENT : Int) ∣ ((n.natAbs : Int) + align m n)) := by
  refine ⟨?_, rfl, fun _ => rfl, fun n => ⟨(align_int m n hpos).1, (align_int m n hpos).2.1,
    (align_int m n hpos).2.2.1⟩⟩
  unfold generateProcedure at h
  simp only [Option.bind_eq_bind, Option.bind_eq_some] at h
  obtain ⟨st2, h1, h2⟩ := h
  simp only [Option.some.injEq] at h2
  subst h2
  obtain ⟨a1, a2, _, a4⟩ := align_int m (st2.offset - 2 * (m.SIZEOF_REG : Int)) hpos
  refine ⟨st2, h1, ?_, ?_, ?_, rfl⟩
  · show st2.offset - align m (st2.offset - 2 * (m.SIZEOF_REG : Int)) ≤ st2.offset
    omega
  · show st2.offset - (st2.offset - align m (st2.offset - 2 * (m.SIZEOF_REG : Int))) <
      (m.STACK_ALIGNMENT : Int)
    omega
  · intro hc
    show (m.STACK_ALIGNMENT : Int) ∣
      (st2.offset - align m (st2.offset - 2 * (m.SIZEOF_REG : Int)) - 2 * (m.SIZEOF_REG : Int))
    have hx : st2.offset - 2 * (m.SIZEOF_REG : Int) ≤ 0 := by
      have : (0 : Int) ≤ (m.SIZEOF_REG : Int) := Int.natCast_nonneg _
      omega
    have := a4 hx
    have e : st2.offset - align m (st2.offset - 2 * (m.SIZEOF_REG : Int)) -
        2 * (m.SIZEOF_REG : Int) =
        st2.offset - 2 * (m.SIZEOF_REG : Int) -
          align m (st2.offset - 2 * (m.SIZEOF_REG : Int)) := by ring
    rw [e]
    exact this

/-- C31 for `f` with the body `return 1;` and 4 bytes of locals on the machine with
16-byte alignment: the cursor ends at -4 and the frame size written is 8. -/
theorem procedure_frame_size_witness :
    ∃ st', generateProcedure alignedMachine "f" (-4) returnOne (GenState.initial 0 "") =
        some st' ∧
      st'.offset = -8 ∧
      (alignedMachine.STACK_ALIGNMENT : Int) ∣
        (st'.offset - 2 * (alignedMachine.SIZEOF_REG : Int)) ∧
      st'.out =
        ["f:", "\tpushl\t%ebp", "\tmovl\t%esp, %ebp", "\tsubl\t$f.size, %esp",
          "\tmovl\t$1, %eax", "\tjmp\tf.exit", "", "f.exit:", "\tmovl\t%ebp, %esp",
          "\tpopl\t%ebp", "\tret", "", "\t.set\tf.size, 8", "\t.globl\tf", ""] := by
  have hsome : (generateProcedure alignedMachine "f" (-4) returnOne
      (GenState.initial 0 "")).isSome = true := by decide
  obtain ⟨st', hg⟩ := Option.isSome_iff_exists.1 hsome
  obtain ⟨⟨st2, h1, _, _, h4, _⟩, _, _, _⟩ :=
    procedure_frame_size alignedMachine "f" (-4) returnOne (GenState.initial 0 "") st'
      (by decide) hg
  have hoff : (generateProcedure alignedMachine "f" (-4) returnOne
      (GenState.initial 0 "")).map (fun s => s.offset) = some (-8) := by decide
  have hout : (generateProcedure alignedMachine "f" (-4) returnOne
      (GenState.initial 0 "")).map (fun s => s.out) =
      some ["f:", "\tpushl\t%ebp", "\tmovl\t%esp, %ebp", "\tsubl\t$f.size, %esp",
          "\tmovl\t$1, %eax", "\tjmp\tf.exit", "", "f.exit:", "\tmovl\t%ebp, %esp",
          "\tpopl\t%ebp", "\tret", "", "\t.set\tf.size, 8", "\t.globl\tf", ""] := by decide
  have h2 : (generateBlock alignedMachine returnOne
      { GenState.initial 0 "" with
        offset := -4, funcname := "f",
        out := (GenState.initial 0 "").out ++ prologue alignedMachine "f" }).map
      (fun s => s.offset) = some (-4) := by decide
  rw [hg] at hoff hout
  rw [h1] at h2
  refine ⟨st', hg, Option.some.inj hoff, h4 ?_, Option.some.inj hout⟩
  have := Option.some.inj h2
  simp only at this
  omega

/-- C32 (the code departs from the claim): with the global prefix `_`, the function `f`
with the body `return 1;` gets the exit label `_f.exit` in front of its
epilogue, and `Return::generate` jumps to `f.exit`. -/
theorem return_jumps_without_prefix :
    (generateProcedure underscoreMachine "f" 0 returnOne (GenState.initial 0 "")).map
        (fun st => st.out) =
      some ["_f:", "\tpushl\t%ebp", "\tmovl\t%esp, %ebp", "\tsubl\t$f.size, %esp",
        "\tmovl\t$1, %eax", "\tjmp\tf.exit", "", "_f.exit:", "\tmovl\t%ebp, %esp",
        "\tpopl\t%ebp", "\tret", "", "\t.set\tf.size, 0", "\t.globl\t_f", ""] ∧
    "f.exit" ≠ "_f.exit" := by
  constructor <;> decide

/-! ## Labels and string literals -/

theorem digitChar_toNat (k : Nat) (h : k < 10) : (Nat.digitChar k).toNat - 48 = k := by
  interval_cases k <;> rfl

theorem decodeDigits_append (l : List Char) (c : Char) :
    decodeDigits (l ++ [c]) = decodeDigits l * 10 + (c.toNat - 48) := by
  simp [decodeDigits, List.foldl_append]

theorem toDigitsCore_decode (fuel : Nat) :
    ∀ (n : Nat) (ds : List Char), n < fuel →
      ∃ pre, Nat.toDigitsCore 10 fuel n ds = pre ++ ds ∧ decodeDigits pre = n := by
  induction fuel with
  | zero => intro n ds h; omega
  | succ fuel ih =>
    intro n ds h
    have hd := digitChar_toNat (n % 10) (Nat.mod_lt _ (by decide))
    simp only [Nat.toDigitsCore]
    split_ifs with h0
    · refine ⟨[Nat.digitChar (n % 10)], rfl, ?_⟩
      simp only [decodeDigits, List.foldl_cons, List.foldl_nil, hd]
      omega
    · obtain ⟨pre, h1, h2⟩ := ih (n / 10) (Nat.digitChar (n % 10) :: ds) (by omega)
      refine ⟨pre ++ [Nat.digitChar (n % 10)], by rw [h1]; simp, ?_⟩
      rw [decodeDigits_append, h2, hd]
      omega

theorem toString_injective (a b : Nat) (h : toString a = toString b) : a = b := by
  have h1 : (Nat.toDigits 10 a).asString = (Nat.toDigits 10 b).asString := h
  have h2 : Nat.toDigits 10 a = Nat.toDigits 10 b := by
    have := congrArg String.data h1
    simpa using this
  obtain ⟨p, hp, hpa⟩ := toDigitsCore_decode (a + 1) a [] (Nat.lt_succ_self a)
  obtain ⟨q, hq, hqb⟩ := toDigitsCore_decode (b + 1) b [] (Nat.lt_succ_self b)
  unfold Nat.toDigits at h2
  rw [hp, hq, List.append_nil, List.append_nil] at h2
  rw [← hpa, ← hqb, h2]

theorem labelText_injective (a b : Nat) (h : labelText a = labelText b) : a = b := by
  unfold labelText at h
  apply toString_injective
  have := congrArg String.data h
  simp only [String.data_append, List.append_cancel_left_eq] at this
  exact String.ext this

theorem constructLabels_get (k : Nat) :
    ∀ (c i : Nat), c < 2 ^ 32 → i < k →
      (constructLabels c k).get? i = some ((c + i) % 2 ^ 32) := by
  induction k with
  | zero => intro c i _ h; omega
  | succ k ih =>
    intro c i hc hi
    cases i with
    | zero =>
      simp only [constructLabels, constructLabel, List.get?_cons_zero, Nat.add_zero]
      rw [Nat.mod_eq_of_lt hc]
    | succ i =>
      simp only [constructLabels, constructLabel, List.get?_cons_succ]
      rw [ih ((c + 1) % 2 ^ 32) i (Nat.mod_lt _ (by decide)) (by omega)]
      congr 1
      rw [Nat.mod_add_mod]
      congr 1
      omega

/-- C33: the counter starts at 0 and the label constructed as the `i`-th of `k`,
counted from 0, has the number `i` modulo 2^32, which is `i` itself when at
most 2^32 labels are constructed; then a later label has a larger number than
an earlier one, so that the numbers differ, and its rendering `.L<number>`
differs as well. The label that `newLabel` hands to the generator is
constructed in this way. -/
theorem labels_unique (k : Nat) :
    (∀ i, i < k → (constructLabels 0 k).get? i = some (i % 2 ^ 32)) ∧
    (k ≤ 2 ^ 32 → ∀ i, i < k → (constructLabels 0 k).get? i = some i) ∧
    (k ≤ 2 ^ 32 → ∀ i j a b, i < j →
      (constructLabels 0 k).get? i = some a → (constructLabels 0 k).get? j = some b →
      a < b ∧ a ≠ b ∧ labelText a ≠ labelText b) ∧
    (∀ st : GenState, (newLabel st).1 = (constructLabel st.counter).1 ∧
      (newLabel st).2.counter = (constructLabel st.counter).2) := by
  have h1 : ∀ i, i < k → (constructLabels 0 k).get? i = some (i % 2 ^ 32) := by
    intro i hi
    have := constructLabels_get k 0 i (by decide) hi
    rwa [Nat.zero_add] at this
  have h2 : k ≤ 2 ^ 32 → ∀ i, i < k → (constructLabels 0 k).get? i = some i := by
    intro hk i hi
    rw [h1 i hi, Nat.mod_eq_of_lt (by omega)]
  have hlen : ∀ (c n : Nat), (constructLabels c n).length = n := by
    intro c n
    induction n generalizing c with
    | zero => rfl
    | succ n ih => simp [constructLabels, ih]
  refine ⟨h1, h2, ?_, fun st => ⟨rfl, rfl⟩⟩
  intro hk i j a b hij ha hb
  have hj : j < k := by
    have := List.get?_eq_some.1 hb
    obtain ⟨hlt, _⟩ := this
    rwa [hlen] at hlt
  rw [h2 hk i (by omega)] at ha
  rw [h2 hk j hj] at hb
  cases ha
  cases hb
  exact ⟨hij, Nat.ne_of_lt hij, fun h => Nat.ne_of_lt hij (labelText_injective _ _ h)⟩

/-- C33 at three labels, and at the label constructed after 2^32 others, which has
the number 0 again. -/
theorem labels_unique_witness :
    constructLabels 0 3 = [0, 1, 2] ∧
    labelText 1 ≠ labelText 2 ∧
    (constructLabels 0 (2 ^ 32 + 1)).get? (2 ^ 32) = some 0 :=
  ⟨by decide,
    ((labels_unique 3).2.2.1 (by decide) 1 2 1 2 (by decide) (by decide) (by decide)).2.2,
    (labels_unique (2 ^ 32 + 1)).1 (2 ^ 32) (by decide)⟩

theorem lookup_mem (l : List (String × Nat)) (v : String) (a : Nat)
    (h : l.lookup v = some a) : (v, a) ∈ l := by
  induction l with
  | nil => simp at h
  | cons p rest ih =>
    obtain ⟨k, b⟩ := p
    rw [List.lookup_cons] at h
    by_cases hk : (v == k) = true
    · simp only [hk, Option.some.injEq] at h
      have : v = k := by simpa using hk
      subst this; subst h
      exact List.mem_cons_self _ _
    · simp only [hk] at h
      exact List.mem_cons_of_mem _ (ih h)

theorem lookup_none (l : List (String × Nat)) (v : String) :
    l.lookup v = none ↔ v ∉ l.map Prod.fst := by
  induction l with
  | nil => simp
  | cons p rest ih =>
    obtain ⟨k, b⟩ := p
    rw [List.lookup_cons]
    by_cases hk : (v == k) = true
    · have : v = k := by simpa using hk
      simp [hk, this]
    · have : v ≠ k := by simpa using hk
      simp only [hk, List.map_cons, List.mem_cons, this, false_or]
      exact ih

theorem lookup_of_mem (l : List (String × Nat)) (v : String) (a : Nat)
    (hn : (l.map Prod.fst).Nodup) (h : (v, a) ∈ l) : l.lookup v = some a := by
  induction l with
  | nil => simp at h
  | cons p rest ih =>
    obtain ⟨k, b⟩ := p
    rw [List.map_cons, List.nodup_cons] at hn
    rw [List.lookup_cons]
    rcases List.mem_cons.1 h with h1 | h1
    · cases h1
      simp
    · have hne : v ≠ k := by
        intro e
        subst e
        have hm : (v, a).1 ∈ rest.map Prod.fst := List.mem_map_of_mem Prod.fst h1
        exact hn.1 hm
      have hk : (v == k) = false := by simpa using hne
      simp only [hk]
      exact ih hn.2 h1

theorem lookup_append_some (l : List (String × Nat)) (p : String × Nat) (v : String)
    (a : Nat) (h : l.lookup v = some a) : (l ++ [p]).lookup v = some a := by
  induction l with
  | nil => simp at h
  | cons q rest ih =>
    obtain ⟨k, b⟩ := q
    rw [List.cons_append, List.lookup_cons] at *
    by_cases hk : (v == k) = true
    · simpa [hk] using h
    · simp only [hk] at h ⊢
      exact ih h

theorem lookup_append_none (l : List (String × Nat)) (v : String) (a : Nat)
    (h : l.lookup v = none) : (l ++ [(v, a)]).lookup v = some a := by
  induction l with
  | nil => simp [List.lookup_cons]
  | cons q rest ih =>
    obtain ⟨k, b⟩ := q
    rw [List.lookup_cons] at h
    rw [List.cons_append, List.lookup_cons]
    by_cases hk : (v == k) = true
    · simp [hk] at h
    · simp only [hk] at h ⊢
      exact ih h

theorem internString_spec (st : GenState) (v : String) (hs : StringsBelow st)
    (hb : st.counter + 1 < 2 ^ 32) :
    StringsBelow (internString st v).2 ∧
    (internString st v).2.counter = st.counter + 1 ∧
    (internString st v).2.strings.lookup v = some (internString st v).1 ∧
    (∀ w l, st.strings.lookup w = some l →
      (internString st v).2.strings.lookup w = some l) ∧
    (∀ w, w ∈ (internString st v).2.strings.map Prod.fst ↔
      w ∈ st.strings.map Prod.fst ∨ w = v) := by
  obtain ⟨h1, h2, h3⟩ := hs
  have hc : (st.counter + 1) % 2 ^ 32 = st.counter + 1 := Nat.mod_eq_of_lt hb
  unfold internString constructLabel
  simp only [hc]
  cases hl : st.strings.lookup v with
  | some l =>
    have hmem := lookup_mem _ _ _ hl
    refine ⟨⟨h1, ?_, h3⟩, rfl, hl, fun w l h => h, ?_⟩
    · intro w k hk
      exact Nat.lt_succ_of_lt (h2 w k hk)
    · intro w
      constructor
      · exact fun h => Or.inl h
      · rintro (h | h)
        · exact h
        · subst h
          exact List.mem_map_of_mem Prod.fst hmem
  | none =>
    have hnot := (lookup_none _ _).1 hl
    refine ⟨⟨?_, ?_, ?_⟩, rfl, lookup_append_none _ _ _ hl,
      fun w l h => lookup_append_some _ _ _ _ h, ?_⟩
    · show ((st.strings ++ [(v, st.counter)]).map Prod.fst).Nodup
      rw [List.map_append, List.nodup_append]
      refine ⟨h1, by simp, ?_⟩
      intro a ha hb'
      simp only [List.map_cons, List.map_nil, List.mem_singleton] at hb'
      subst hb'
      exact hnot ha
    · intro w k hk
      show k < st.counter + 1
      rcases List.mem_append.1 hk with hk | hk
      · exact Nat.lt_succ_of_lt (h2 w k hk)
      · simp only [List.mem_singleton, Prod.mk.injEq] at hk
        omega
    · intro w w' k hk hk'
      rcases List.mem_append.1 hk with hk | hk <;> rcases List.mem_append.1 hk' with hk' | hk'
      · exact h3 w w' k hk hk'
      · simp only [List.mem_singleton, Prod.mk.injEq] at hk'
        have := h2 w k hk
        omega
      · simp only [List.mem_singleton, Prod.mk.injEq] at hk
        have := h2 w' k hk'
        omega
      · simp only [List.mem_singleton, Prod.mk.injEq] at hk hk'
        rw [hk.1, hk'.1]
    · intro w
      show w ∈ (st.strings ++ [(v, st.counter)]).map Prod.fst ↔ _
      simp [List.map_append]

theorem internStrings_spec (vs : List String) :
    ∀ st : GenState, StringsBelow st → st.counter + vs.length < 2 ^ 32 →
      StringsBelow (internStrings st vs).2 ∧
      (internStrings st vs).1.length = vs.length ∧
      (∀ i a v, (internStrings st vs).1.get? i = some a → vs.get? i = some v →
        (internStrings st vs).2.strings.lookup v = some a) ∧
      (∀ w l, st.strings.lookup w = some l →
        (internStrings st vs).2.strings.lookup w = some l) ∧
      (∀ w, w ∈ (internStrings st vs).2.strings.map Prod.fst ↔
        w ∈ st.strings.map Prod.fst ∨ w ∈ vs) := by
  induction vs with
  | nil =>
    intro st hs _
    refine ⟨hs, rfl, ?_, fun w l h => h, ?_⟩
    · intro i a v h
      simp [internStrings] at h
    · intro w
      simp [internStrings]
  | cons v rest ih =>
    intro st hs hb
    simp only [List.length_cons] at hb
    obtain ⟨s1, s2, s3, s4, s5⟩ := internString_spec st v hs (by omega)
    obtain ⟨r1, r2, r3, r4, r5⟩ := ih (internString st v).2 s1 (by rw [s2]; omega)
    simp only [internStrings]
    refine ⟨r1, by simp [r2], ?_, fun w l h => r4 w l (s4 w l h), ?_⟩
    · intro i a w ha hw
      cases i with
      | zero =>
        simp only [List.get?_cons_zero, Option.some.injEq] at ha hw
        subst ha; subst hw
        exact r4 _ _ s3
      | succ i =>
        simp only [List.get?_cons_succ] at ha hw
        exact r3 i a w ha hw
    · intro w
      rw [r5 w, s5 w]
      simp only [List.mem_cons]
      tauto

theorem internStrings_append (l1 l2 : List String) :
    ∀ st : GenState, internStrings st (l1 ++ l2) =
      ((internStrings st l1).1 ++ (internStrings (internStrings st l1).2 l2).1,
        (internStrings (internStrings st l1).2 l2).2) := by
  induction l1 with
  | nil => intro st; rfl
  | cons v rest ih =>
    intro st
    simp only [List.cons_append, internStrings, List.append_eq, ih, List.cons_append]

theorem internStrings_replicate (v : String) (l : Nat) (k : Nat) :
    ∀ st : GenState, st.strings.lookup v = some l → st.counter < 2 ^ 32 →
      (internStrings st (List.replicate k v)).2.strings = st.strings ∧
      (internStrings st (List.replicate k v)).2.counter = (st.counter + k) % 2 ^ 32 := by
  induction k with
  | zero =>
    intro st _ hc
    exact ⟨rfl, (Nat.mod_eq_of_lt hc).symm⟩
  | succ k ih =>
    intro st hl hc
    have h1 : internString st v = (l, { st with counter := (st.counter + 1) % 2 ^ 32 }) := by
      simp [internString, constructLabel, hl]
    simp only [List.replicate_succ, internStrings, h1]
    obtain ⟨i1, i2⟩ := ih { st with counter := (st.counter + 1) % 2 ^ 32 } hl
      (Nat.mod_lt _ (by decide))
    refine ⟨i1, ?_⟩
    rw [i2]
    show ((st.counter + 1) % 2 ^ 32 + k) % 2 ^ 32 = (st.counter + (k + 1)) % 2 ^ 32
    rw [Nat.mod_add_mod]
    congr 1
    omega

theorem internStrings_wrap (k : Nat) (hk : (1 + k) % 2 ^ 32 = 0) :
    (internStrings (GenState.initial 0 "") ("a" :: (List.replicate k "a" ++ ["b"]))).1.head? =
      some 0 ∧
    (internStrings (GenState.initial 0 "") ("a" :: (List.replicate k "a" ++ ["b"]))).1.getLast? =
      some 0 := by
  have h1 : internString (GenState.initial 0 "") "a" =
      (0, { GenState.initial 0 "" with counter := 1, strings := [("a", 0)] }) := by
    simp [internString, constructLabel, GenState.initial]
  obtain ⟨r1, r2⟩ := internStrings_replicate "a" 0 k
    { GenState.initial 0 "" with counter := 1, strings := [("a", 0)] }
    (by simp [List.lookup_cons]) (by decide)
  have r3 : (internStrings { GenState.initial 0 "" with counter := 1, strings := [("a", 0)] }
      (List.replicate k "a")).2.counter = 0 := by
    rw [r2]
    exact hk
  have h2 : (internString (internStrings
      { GenState.initial 0 "" with counter := 1, strings := [("a", 0)] }
      (List.replicate k "a")).2 "b").1 = 0 := by
    simp [internString, constructLabel, r1, r3, List.lookup_cons]
  generalize hrep : List.replicate k "a" = reps at *
  refine ⟨?_, ?_⟩
  · simp only [internStrings, h1, List.head?_cons]
  · simp only [internStrings, h1, internStrings_append, h2]
    rw [List.getLast?_cons, List.getLast?_append]
    simp

/-- C34 (counterexample): from the empty table and the counter 0, the call on `a`,
2^32 - 1 further calls on `a` and then a call on `b`: the first call and the
last one write the label 0, although their values differ. -/
theorem strings_collide_after_wrap :
    (internStrings (GenState.initial 0 "")
      ("a" :: (List.replicate 4294967295 "a" ++ ["b"]))).1.head? = some 0 ∧
    (internStrings (GenState.initial 0 "")
      ("a" :: (List.replicate 4294967295 "a" ++ ["b"]))).1.getLast? = some 0 ∧
    "a" ≠ "b" :=
  ⟨(internStrings_wrap 4294967295 (by norm_num)).1,
    (internStrings_wrap 4294967295 (by norm_num)).2, by decide⟩

/-- C34 (amended): string literals are interned by content as long as fewer than 2^32
labels are constructed. Over a sequence of `String::operand` calls that starts
with an empty table and does not exhaust the counter: two calls write the same
label if and only if their values are equal; the table ends up with exactly
one entry per distinct value, which binds the value to the label that its
calls wrote; and `generateGlobals` writes, after the `.data` line, the line of
every entry once, by ascending key, in which the label is followed by the
value with every newline written as a backslash and the letter n and every
other character unchanged. -/
theorem strings_interned (m : Machine) (symbols : Symbols) (st : GenState)
    (vs : List String) (hempty : st.strings = [])
    (hbound : st.counter + vs.length < 2 ^ 32) :
    (internStrings st vs).1.length = vs.length ∧
    (∀ i j a b v w, (internStrings st vs).1.get? i = some a →
      (internStrings st vs).1.get? j = some b → vs.get? i = some v → vs.get? j = some w →
      (labelText a = labelText b ↔ v = w)) ∧
    ((internStrings st vs).2.strings.map Prod.fst).Nodup ∧
    (∀ v, v ∈ (internStrings st vs).2.strings.map Prod.fst ↔ v ∈ vs) ∧
    (internStrings st vs).2.strings.length = vs.dedup.length ∧
    (∀ i a v, (internStrings st vs).1.get? i = some a → vs.get? i = some v →
      (v, a) ∈ (internStrings st vs).2.strings) ∧
    (generateGlobals m symbols (internStrings st vs).2).out =
      (internStrings st vs).2.out ++
        (symbols.filter (fun s => !s.type.isFunction)).map (fun s =>
          "\t.comm\t" ++ m.globalPrefix ++ s.name ++ ", " ++ toString (m.size s.type)) ++
        ["\t.data"] ++ (stringEntries (internStrings st vs).2.strings).map ascizLine ∧
    (stringEntries (internStrings st vs).2.strings).Perm (internStrings st vs).2.strings ∧
    (∀ entry : String × Nat, ascizLine entry =
      labelText entry.2 ++ ":\t.asciz\t\"" ++ String.mk (escapeChars entry.1.toList) ++ "\"") ∧
    (∀ ch rest, escapeChars (ch :: rest) =
      (if ch = '\n' then ['\\', 'n'] else [ch]) ++ escapeChars rest) := by
  have hs : StringsBelow st := by
    refine ⟨?_, ?_, ?_⟩ <;> simp [hempty]
  obtain ⟨⟨k1, _, k3⟩, r2, r3, _, r5⟩ := internStrings_spec vs st hs hbound
  have hmem : ∀ v, v ∈ (internStrings st vs).2.strings.map Prod.fst ↔ v ∈ vs := by
    intro v
    rw [r5 v, hempty]
    simp
  refine ⟨r2, ?_, k1, hmem, ?_, fun i a v ha hv => lookup_mem _ _ _ (r3 i a v ha hv), rfl,
    List.perm_insertionSort _ _, fun _ => rfl, ?_⟩
  · intro i j a b v w ha hb hv hw
    have la := r3 i a v ha hv
    have lb := r3 j b w hb hw
    constructor
    · intro h
      have hab := labelText_injective a b h
      subst hab
      exact k3 v w a (lookup_mem _ _ _ la) (lookup_mem _ _ _ lb)
    · intro h
      subst h
      rw [la] at lb
      cases lb
      rfl
  · have hp : ((internStrings st vs).2.strings.map Prod.fst).Perm vs.dedup := by
      rw [List.perm_ext_iff_of_nodup k1 (List.nodup_dedup vs)]
      intro v
      rw [hmem v, List.mem_dedup]
    have := hp.length_eq
    rwa [List.length_map] at this
  · intro ch rest
    by_cases h : ch = '\n'
    · subst h
      rfl
    · simp [escapeChars, h]

/-- The amended C34 at the calls on `hi\n`, `yo` and `hi\n` again: the first and the
third write the label 0, the second the label 1, and the data section holds
the two lines. -/
theorem strings_interned_witness :
    (internStrings (GenState.initial 0 "") ["hi\n", "yo", "hi\n"]).1 = [0, 1, 0] ∧
    (internStrings (GenState.initial 0 "") ["hi\n", "yo", "hi\n"]).2.strings.length =
      (["hi\n", "yo", "hi\n"].dedup).length ∧
    (generateGlobals intMachine [⟨"x", Scalar "int" 0⟩, ⟨"f", Function "int" 0 none⟩]
      (internStrings (GenState.initial 0 "") ["hi\n", "yo", "hi\n"]).2).out =
      ["\t.comm\tx, 4", "\t.data", ".L0:\t.asciz\t\"hi\\n\"", ".L1:\t.asciz\t\"yo\""] :=
  ⟨by decide,
    (strings_interned intMachine [] (GenState.initial 0 "") ["hi\n", "yo", "hi\n"] rfl
      (by decide)).2.2.2.2.1,
    by decide⟩

/-! ## Tests of conditions -/

theorem getreg_free (m : Machine) (st st1 : GenState) (reg : Register)
    (h : getreg m st = some (reg, st1)) :
    st1.node reg = none ∧
    ∃ lines, st1.out = st.out ++ lines ∧ ∀ line ∈ lines, IsLoadLine line := by
  unfold getreg at h
  split at h
  · rename_i r hf
    cases h
    have := List.find?_some hf
    refine ⟨by simpa using this, [], by simp, by simp⟩
  · rw [load_none_eq] at h
    simp only [Option.some.injEq, Prod.mk.injEq] at h
    obtain ⟨h1, h2⟩ := h
    subst h1; subst h2
    cases hn : st.node Register.eax with
    | none => exact ⟨hn, [], by simp, by simp⟩
    | some old =>
      refine ⟨by simp [setNode], [_], rfl, ?_⟩
      intro line hl
      simp only [List.mem_singleton] at hl
      exact Or.inl ⟨_, _, _, hl⟩

theorem load_some_free (m : Machine) (st st' : GenState) (e : Expression) (reg : Register)
    (hfree : st.node reg = none) (h : load m st (some e) reg = some st') :
    st'.register e.id = some reg ∧
    ∃ text, st'.out = st.out ++ [loadLine text reg (m.size (m.type e.id))] := by
  unfold load at h
  simp only [hfree, Option.map_some', ne_eq, not_false_eq_true, if_true,
    reduceCtorEq] at h
  split at h
  · rename_i text st2 hw
    simp only [Option.some.injEq] at h
    subst h
    obtain ⟨f1, f2, _, _, f5, _⟩ := writeExpression_frame m st st2 e text hw
    constructor
    · apply assign_register_self
      intro y hy hn
      cases hy
      rw [show ({ st2 with out := st2.out ++
        [loadLine text reg (m.size (m.type e.id))] } : GenState).node = st2.node from rfl,
        f1, hfree] at hn
      cases hn
    · refine ⟨text, ?_⟩
      rw [(assign_frame _ _ _).1]
      show st2.out ++ _ = _
      rw [f5]
  · cases h

theorem loadIfNeeded_spec (m : Machine) (st st1 : GenState) (e : Expression)
    (h : loadIfNeeded m st e = some st1) :
    (∃ reg, st1.register e.id = some reg) ∧
    ∃ lines, st1.out = st.out ++ lines ∧ ∀ line ∈ lines, IsLoadLine line := by
  unfold loadIfNeeded at h
  split at h
  · rename_i r hr
    cases h
    exact ⟨⟨r, hr⟩, [], by simp, by simp⟩
  · split at h
    · rename_i reg s1 hg
      obtain ⟨g1, lines, g2, g3⟩ := getreg_free m st s1 reg hg
      obtain ⟨l1, text, l2⟩ := load_some_free m s1 st1 e reg g1 h
      refine ⟨⟨reg, l1⟩, lines ++ [loadLine text reg (m.size (m.type e.id))], ?_, ?_⟩
      · rw [l2, g2, List.append_assoc]
      · intro line hl
        rcases List.mem_append.1 hl with hl | hl
        · exact g3 line hl
        · simp only [List.mem_singleton] at hl
          exact Or.inr ⟨_, _, _, hl⟩
    · cases h

theorem released_of_consistent (st : GenState) (hc : Consistent st) (n : NodeId)
    (h : st.register n = none) : ∀ r, st.node r ≠ some n := by
  intro r hr
  have := (hc r n).1 hr
  rw [h] at this
  cases this

theorem assign_none_register (st : GenState) (x y : NodeId) :
    (assign st (some x) none).register x = none ∧
    ((assign st (some x) none).register y = none ∨
      (assign st (some x) none).register y = st.register y) := by
  unfold assign
  cases h : st.register x <;> by_cases hy : y = x <;> simp [setMember, hy, h]

/-- C35: in a state in which registers and nodes are mutually consistent,
`LessThan::test(label, ifTrue)` that returns has generated the left operand and
then the right one, has brought the left operand into a register by load lines
only (a store of a spilled value, a move of the operand), and has then written
exactly two lines: one `cmpl` of the right operand against the register of
the left operand, and one jump to the label, `jl` when `ifTrue` is true and
`jge` when it is false; no set-on-condition and no zero-extend instruction is
among them, and at the end neither operand names or owns a register. The
default `Expression::test`, on a node that is not a less-than node, generates
the node, brings it into a register in the same way, writes a `cmpl` against
`$0` and `jne` when `ifTrue` is true, `je` when it is false, and releases
the register of the node. -/
theorem test_spec (m : Machine) (label : Nat) (ifTrue : Bool) (st st' : GenState)
    (hc : Consistent st) :
    (∀ id left right,
      test m (Expression.LessThan id left right) label ifTrue st = some st' →
      ∃ s1 s2 s3 reg r lines,
        generate m left st = some s1 ∧ generate m right s1 = some s2 ∧
        loadIfNeeded m s2 left = some s3 ∧
        s3.out = s2.out ++ lines ∧ (∀ line ∈ lines, IsLoadLine line) ∧
        s3.register left.id = some reg ∧
        operandText m s3 right = some r ∧
        st'.out = s3.out ++
          ["\tcmpl\t" ++ r ++ ", " ++ reg.longName,
            (if ifTrue then "\tjl\t" else "\tjge\t") ++ labelText label] ∧
        st'.register left.id = none ∧ st'.register right.id = none ∧
        (∀ x, st'.node x ≠ some left.id ∧ st'.node x ≠ some right.id)) ∧
    (∀ e, (∀ id left right, e ≠ Expression.LessThan id left right) →
      test m e label ifTrue st = some st' →
      ∃ s1 s2 reg lines,
        generate m e st = some s1 ∧ loadIfNeeded m s1 e = some s2 ∧
        s2.out = s1.out ++ lines ∧ (∀ line ∈ lines, IsLoadLine line) ∧
        s2.register e.id = some reg ∧
        st'.out = s2.out ++
          ["\tcmpl\t$0, " ++ reg.longName,
            (if ifTrue then "\tjne\t" else "\tje\t") ++ labelText label] ∧
        st'.register e.id = none ∧ (∀ x, st'.node x ≠ some e.id)) := by
  constructor
  · intro id left right h
    have h' : (generate m left st).bind (fun s1 =>
        (generate m right s1).bind (fun s2 =>
          lessThanTestTail m s2 left right label ifTrue)) = some st' := h
    simp only [Option.bind_eq_some] at h'
    obtain ⟨s1, g1, s2, g2, g3⟩ := h'
    have c1 := generate_consistent m left st s1 g1 hc
    have c2 := generate_consistent m right s1 s2 g2 c1
    have c' := lessThanTestTail_consistent m s2 st' left right label ifTrue g3 c2
    unfold lessThanTestTail at g3
    simp only [Option.bind_eq_bind, Option.bind_eq_some] at g3
    obtain ⟨s3, k1, ⟨r, s4⟩, k2, ⟨l, s5⟩, k3, k4⟩ := g3
    simp only [Option.some.injEq] at k4
    obtain ⟨⟨reg, hreg⟩, lines, o1, o2⟩ := loadIfNeeded_spec m s2 s3 left k1
    obtain ⟨_, f2, _, _, f5, _⟩ := writeExpression_frame m s3 s4 right r k2
    obtain ⟨_, _, _, _, e5, _⟩ := writeExpression_frame m s4 s5 left l k3
    have hl : l = reg.longName := by
      unfold writeExpression at k3
      rw [f2, hreg] at k3
      simp only [Option.some.injEq, Prod.mk.injEq] at k3
      exact k3.1.symm
    have hr1 := (assign_none_register
      (assign (emit (emit s5 ("\tcmpl\t" ++ r ++ ", " ++ l))
        ((if ifTrue then "\tjl\t" else "\tjge\t") ++ labelText label)) (some left.id) none)
      right.id left.id)
    have hr2 := (assign_none_register
      (emit (emit s5 ("\tcmpl\t" ++ r ++ ", " ++ l))
        ((if ifTrue then "\tjl\t" else "\tjge\t") ++ labelText label))
      left.id left.id).1
    rw [k4] at hr1
    have hleft : st'.register left.id = none := by
      rcases hr1.2 with h0 | h0
      · exact h0
      · rw [h0]; exact hr2
    refine ⟨s1, s2, s3, reg, r, lines, g1, g2, k1, o1, o2, hreg, ?_, ?_, hleft, hr1.1, ?_⟩
    · simp [operandText, k2]
    · rw [← k4, (assign_frame _ _ _).1, (assign_frame _ _ _).1, hl]
      simp [emit, e5, f5]
    · intro x
      exact ⟨released_of_consistent st' c' _ hleft x, released_of_consistent st' c' _ hr1.1 x⟩
  · intro e hne h
    have h' : (generate m e st).bind (fun s1 => testTail m s1 e label ifTrue) = some st' := by
      cases e
      case LessThan i a b => exact absurd rfl (hne i a b)
      all_goals exact h
    simp only [Option.bind_eq_some] at h'
    obtain ⟨s1, g1, g3⟩ := h'
    have c1 := generate_consistent m e st s1 g1 hc
    have c' := testTail_consistent m s1 st' e label ifTrue g3 c1
    unfold testTail at g3
    simp only [Option.bind_eq_bind, Option.bind_eq_some] at g3
    obtain ⟨s2, k1, ⟨t, s3⟩, k2, k4⟩ := g3
    simp only [Option.some.injEq] at k4
    obtain ⟨⟨reg, hreg⟩, lines, o1, o2⟩ := loadIfNeeded_spec m s1 s2 e k1
    obtain ⟨_, _, _, _, f5, _⟩ := writeExpression_frame m s2 s3 e t k2
    have ht : t = reg.longName := by
      unfold writeExpression at k2
      rw [hreg] at k2
      simp only [Option.some.injEq, Prod.mk.injEq] at k2
      exact k2.1.symm
    have hr := (assign_none_register
      (emit (emit s3 ("\tcmpl\t$0, " ++ t))
        ((if ifTrue then "\tjne\t" else "\tje\t") ++ labelText label)) e.id e.id).1
    rw [k4] at hr
    refine ⟨s1, s2, reg, lines, g1, k1, o1, o2, hreg, ?_, hr,
      released_of_consistent st' c' _ hr⟩
    rw [← k4, (assign_frame _ _ _).1, ht]
    simp [emit, f5]

/-- C35 at `x < 5` tested with the label 7 and `ifTrue` false: a move of `x` into
`eax`, the `cmpl` and `jge .L7`, after which `x` names no register; `generate`
on the same node writes `setl` and `movzbl` instead of the jump. -/
theorem test_spec_witness :
    ∃ st', test intMachine lessThanFive 7 false (GenState.initial (-4) "f") = some st' ∧
      st'.out = ["\tmovl\t-4(%ebp), %eax", "\tcmpl\t$5, %eax", "\tjge\t.L7"] ∧
      st'.register 3 = none ∧ st'.register 4 = none ∧ st'.node Register.eax ≠ some 3 ∧
      (generate intMachine lessThanFive (GenState.initial (-4) "f")).map (fun s => s.out) =
        some ["\tmovl\t-4(%ebp), %eax", "\tcmpl\t$5, %eax", "\tsetl\t%al",
          "\tmovzbl\t%al, %eax"] := by
  have hsome : (test intMachine lessThanFive 7 false (GenState.initial (-4) "f")).isSome =
      true := by decide
  obtain ⟨st', hg⟩ := Option.isSome_iff_exists.1 hsome
  obtain ⟨s1, s2, s3, reg, r, lines, _, _, _, _, _, _, _, _, k1, k2, k3⟩ :=
    (test_spec intMachine 7 false (GenState.initial (-4) "f") st'
      (consistent_initial (-4) "f")).1 9 (Expression.Identifier 3 "x" (-4))
      (Expression.Number 4 5) hg
  have hout : (test intMachine lessThanFive 7 false (GenState.initial (-4) "f")).map
      (fun s => s.out) =
      some ["\tmovl\t-4(%ebp), %eax", "\tcmpl\t$5, %eax", "\tjge\t.L7"] := by decide
  rw [hg] at hout
  exact ⟨st', hg, Option.some.inj hout, k1, k2, (k3 Register.eax).1, by decide⟩

/-! ## Register ownership across statements, and checks of operators -/

/-- C37 (the code departs from the claim): with all three registers unowned, the
statement `x == y + 1;` is generated without a failed assertion, and after it
`eax` still holds the sum `y + 1`, the right operand of the comparison, which
`compare` never releases; the assertion of `Block::generate` then fails. -/
theorem compare_leaves_right_operand :
    registersFree (GenState.initial (-8) "f") = true ∧
    (generateStatement intMachine compareWithSum (GenState.initial (-8) "f")).map
        (fun st => (st.node Register.eax, st.node Register.ecx, st.node Register.edx,
          registersFree st, st.out)) =
      some (some 5, none, none, false,
        ["\tmovl\t-8(%ebp), %eax", "\taddl\t$1, %eax", "\tmovl\t-4(%ebp), %ecx",
          "\tcmpl\t%eax, %ecx", "\tsete\t%cl", "\tmovzbl\t%cl, %ecx"]) ∧
    (generateBlock intMachine [compareWithSum] (GenState.initial (-8) "f")).isNone = true := by
  refine ⟨by decide, by decide, by decide⟩

/-- C38 (the code departs from the claim): with no field table registered for `node`,
`checkArray` applied to a `struct node **` and an integer index returns the
Error type and reports `using pointer to incomplete type`, while `checkDeref`
applied to the same type returns a type that is not Error and reports
nothing. -/
theorem checkArray_checkDeref_differ :
    checkArray [] (Scalar "node" 2) (Scalar "int" 0) = (error, [⟨incompleteType, ""⟩]) ∧
    checkDeref [] (Scalar "node" 2) = (Scalar "node" 0, []) ∧
    (checkArray [] (Scalar "node" 2) (Scalar "int" 0)).1.isError = true ∧
    (checkDeref [] (Scalar "node" 2)).1.isError = false ∧
    (Scalar "node" 2).isError = false := by
  exact ⟨rfl, rfl, rfl, rfl, rfl⟩

/-- C39 (the code departs from the claim): on a pointer and an integer, `checkDivision`
and `checkPercent` report `invalid operands to binary %s` with the operator
text `*`, where the claim requires `/` and `%`. -/
theorem division_names_multiplication :
    checkDivision (Scalar "int" 1) (Scalar "int" 0) = (error, [⟨invalidBinary, "*"⟩]) ∧
    checkPercent (Scalar "int" 1) (Scalar "int" 0) = (error, [⟨invalidBinary, "*"⟩]) ∧
    checkMultiply (Scalar "int" 1) (Scalar "int" 0) = (error, [⟨invalidBinary, "*"⟩]) ∧
    invalidBinary = "invalid operands to binary %s" ∧ "*" ≠ "/" ∧ "*" ≠ "%" := by
  exact ⟨rfl, rfl, rfl, rfl, by decide, by decide⟩

/-! ## Stack frame of phase 5 -/

theorem toInt32_id (x : Int) (h1 : -2 ^ 31 ≤ x) (h2 : x < 2 ^ 31) : toInt32 x = x := by
  unfold toInt32
  omega

theorem totalSize_cons (size : CType → Nat) (s : Symbol) (rest : List Symbol) :
    totalSize size (s :: rest) = size s.type + totalSize size rest := by
  simp [totalSize]

theorem totalSize_take_le (size : CType → Nat) (l : List Symbol) (i : Nat) :
    totalSize size (l.take i) ≤ totalSize size l := by
  induction l generalizing i with
  | nil => simp [totalSize]
  | cons s rest ih =>
    cases i with
    | zero => simp [totalSize]
    | succ i =>
      rw [List.take_succ_cons, totalSize_cons, totalSize_cons]
      have := ih i
      omega

theorem assignOffsets_params (size : CType → Nat) (k : Nat) (ps : List Symbol) :
    ∀ (rest : List Symbol) (i0 : Nat) (offset p : Int), i0 + ps.length ≤ k → 0 ≤ p →
      p + totalSize size ps < 2 ^ 31 →
      assignOffsets size k (ps ++ rest) i0 offset p =
        ((List.range ps.length).map (fun i => p + totalSize size (ps.take i)) ++
          (assignOffsets size k rest (i0 + ps.length) offset (p + totalSize size ps)).1,
          (assignOffsets size k rest (i0 + ps.length) offset (p + totalSize size ps)).2) := by
  induction ps with
  | nil =>
    intro rest i0 offset p _ _ _
    simp [totalSize]
  | cons s ps ih =>
    intro rest i0 offset p hk hp hb
    rw [totalSize_cons] at hb
    simp only [List.length_cons] at hk
    have hi : i0 < k := by omega
    have hw : toInt32 (p + size s.type) = p + size s.type :=
      toInt32_id _ (by omega) (by push_cast at hb; omega)
    have h := ih rest (i0 + 1) offset (p + size s.type) (by omega) (by omega)
      (by push_cast at hb ⊢; omega)
    have e1 : i0 + 1 + ps.length = i0 + (ps.length + 1) := by omega
    have e2 : p + (size s.type : Int) + (totalSize size ps : Int) =
        p + ((size s.type + totalSize size ps : Nat) : Int) := by push_cast; ring
    rw [e1, e2] at h
    simp only [List.cons_append, assignOffsets, hi, if_true, hw, List.append_eq, h,
      List.length_cons, List.range_succ_eq_map, List.map_cons, List.map_map, List.take_zero,
      totalSize_cons]
    refine Prod.ext ?_ rfl
    simp only [List.cons_append, List.cons.injEq]
    refine ⟨by simp [totalSize], ?_⟩
    congr 1
    apply List.map_congr_left
    intro i _
    simp only [Function.comp, List.take_succ_cons, totalSize_cons]
    push_cast
    ring

theorem assignOffsets_locals (size : CType → Nat) (k : Nat) (ls : List Symbol) :
    ∀ (i0 : Nat) (offset p : Int), k ≤ i0 → 0 ≤ offset →
      offset + totalSize size ls < 2 ^ 31 →
      assignOffsets size k ls i0 offset p =
        ((List.range ls.length).map (fun i => -(offset + totalSize size (ls.take (i + 1)))),
          offset + totalSize size ls, p) := by
  induction ls with
  | nil =>
    intro i0 offset p _ _ _
    simp [assignOffsets, totalSize]
  | cons s ls ih =>
    intro i0 offset p hk ho hb
    rw [totalSize_cons] at hb
    have hi : ¬ i0 < k := by omega
    have hw : toInt32 (offset + size s.type) = offset + size s.type :=
      toInt32_id _ (by omega) (by push_cast at hb; omega)
    have hw2 : toInt32 (-(offset + size s.type)) = -(offset + size s.type) :=
      toInt32_id _ (by push_cast at hb; omega) (by omega)
    have h := ih (i0 + 1) (offset + size s.type) p (by omega) (by omega)
      (by push_cast at hb ⊢; omega)
    simp only [assignOffsets, hi, if_false, hw, hw2, h, List.length_cons,
      List.range_succ_eq_map, List.map_cons, List.map_map, totalSize_cons]
    refine Prod.ext ?_ (Prod.ext ?_ rfl)
    · simp only [List.cons.injEq]
      refine ⟨by simp [totalSize], ?_⟩
      apply List.map_congr_left
      intro i _
      simp only [Function.comp, List.take_succ_cons, totalSize_cons]
      push_cast
      ring
    · simp only
      push_cast
      ring

theorem totalSize_take_mono (size : CType → Nat) (l : List Symbol) (a b : Nat) (h : a ≤ b) :
    totalSize size (l.take a) ≤ totalSize size (l.take b) := by
  have := totalSize_take_le size (l.take b) a
  rwa [List.take_take, Nat.min_eq_left h] at this

theorem totalSize_take_succ (size : CType → Nat) (l : List Symbol) :
    ∀ (j : Nat) (s : Symbol), l[j]? = some s →
      totalSize size (l.take (j + 1)) = totalSize size (l.take j) + size s.type := by
  induction l with
  | nil => intro j s h; simp at h
  | cons x rest ih =>
    intro j s h
    cases j with
    | zero =>
      simp only [List.getElem?_cons_zero, Option.some.injEq] at h
      subst h
      simp [totalSize]
    | succ j =>
      simp only [List.getElem?_cons_succ] at h
      rw [List.take_succ_cons, List.take_succ_cons, totalSize_cons, totalSize_cons, ih j s h]
      omega

theorem totalSize_take_pos (size : CType → Nat) (l : List Symbol)
    (hpos : ∀ s ∈ l, 0 < size s.type) (i : Nat) (hi : i < l.length) :
    0 < totalSize size (l.take (i + 1)) := by
  cases l with
  | nil => simp at hi
  | cons x rest =>
    have h1 := totalSize_take_mono size (x :: rest) 1 (i + 1) (by omega)
    have h2 : totalSize size ((x :: rest).take 1) = size x.type := by simp [totalSize]
    have h3 := hpos x (List.mem_cons_self _ _)
    omega

/-- C36 (counterexample): for `f() { int a[0]; int b; }`, with the size of an array
the size of its element times its length, the local `a` receives the offset 0,
for which `Identifier::operand` writes the name of the symbol as it does for a
global. -/
theorem zero_sized_local_at_zero :
    procedureFrame (typeSize (fun _ => 0)) "f" (Function "int" 0 (some []))
        [⟨"a", Array "int" 0 0⟩, ⟨"b", Scalar "int" 0⟩] =
      some ([0, -4],
        ["f:", "# function prologue", "\tpushl\t%ebp", "\tmovl\t%esp, %ebp",
          "\tsubl\t$4, %esp"]) ∧
    identifierOperand "a" 0 = "a" := by
  constructor <;> decide

/-- C36 (amended): in the phase-5 `Procedure::generate`, for a function with the
parameters `params` and the locals `locals`, listed in this order by the body
scope, when every symbol has a positive size and both the parameter sizes
plus 8 and the local sizes sum to less than 2^31: the parameters receive the
offsets 8, 8 + size(s_1), ..., the locals the offsets -(size of the locals up
to and including this one), and the prologue subtracts the sum of the local
sizes from `%esp`. Every parameter offset is positive and every local offset
negative, so that `Identifier::operand` addresses each of them relative to
`%ebp`, and the bytes of a later local lie below those of an earlier one. -/
theorem frame_offsets (size : CType → Nat) (name : String) (type : CType)
    (parameters : Parameters) (params locals : List Symbol)
    (htype : type.parameters = some (some parameters))
    (hk : parameters.length = params.length)
    (hpos : ∀ s ∈ params ++ locals, 0 < size s.type)
    (hp : 8 + totalSize size params < 2 ^ 31) (hl : totalSize size locals < 2 ^ 31) :
    ∃ offsets lines, procedureFrame size name type (params ++ locals) = some (offsets, lines) ∧
      (∀ i, i < params.length →
        offsets[i]? = some (8 + (totalSize size (params.take i) : Int))) ∧
      (∀ i, i < locals.length →
        offsets[params.length + i]? =
          some (-(totalSize size (locals.take (i + 1)) : Int))) ∧
      offsets.length = params.length + locals.length ∧
      lines = [name ++ ":", "# function prologue", "\tpushl\t%ebp", "\tmovl\t%esp, %ebp",
        "\tsubl\t$" ++ toString (totalSize size locals : Int) ++ ", %esp"] ∧
      (∀ (i : Nat) (o : Int), i < params.length → offsets[i]? = some o → 0 < o) ∧
      (∀ (i : Nat) (o : Int), params.length ≤ i → offsets[i]? = some o → o < 0) ∧
      (∀ (i : Nat) (o : Int) (n : String), offsets[i]? = some o →
        identifierOperand n o = toString o ++ "(%ebp)") ∧
      (∀ (i j : Nat) (oi oj : Int) (sj : Symbol), i < j → locals[j]? = some sj →
        offsets[params.length + i]? = some oi →
        offsets[params.length + j]? = some oj → oj + size sj.type ≤ oi) := by
  have hA := assignOffsets_params size parameters.length params locals 0 0 8
    (by omega) (by decide) (by exact_mod_cast hp)
  have hB := assignOffsets_locals size parameters.length locals (0 + params.length) 0
    (8 + totalSize size params) (by omega) (le_refl _) (by simpa using hl)
  rw [hB] at hA
  have hposL : ∀ s ∈ locals, 0 < size s.type := fun s hs => hpos s (List.mem_append_right _ hs)
  have hpar : ∀ i, i < params.length →
      ((List.range params.length).map (fun i => (8 : Int) + totalSize size (params.take i)) ++
        (List.range locals.length).map
          (fun i => -((0 : Int) + totalSize size (locals.take (i + 1)))))[i]? =
        some (8 + (totalSize size (params.take i) : Int)) := by
    intro i hi
    rw [List.getElem?_append_left (by simpa using hi), List.getElem?_map,
      List.getElem?_range hi]
    rfl
  have hloc : ∀ i, i < locals.length →
      ((List.range params.length).map (fun i => (8 : Int) + totalSize size (params.take i)) ++
        (List.range locals.length).map
          (fun i => -((0 : Int) + totalSize size (locals.take (i + 1)))))[params.length + i]? =
        some (-(totalSize size (locals.take (i + 1)) : Int)) := by
    intro i hi
    rw [List.getElem?_append_right (by simp)]
    simp only [List.length_map, List.length_range, Nat.add_sub_cancel_left]
    rw [List.getElem?_map, List.getElem?_range hi]
    simp
  have hlen : ((List.range params.length).map
      (fun i => (8 : Int) + totalSize size (params.take i)) ++
        (List.range locals.length).map
          (fun i => -((0 : Int) + totalSize size (locals.take (i + 1))))).length =
      params.length + locals.length := by simp
  unfold procedureFrame
  simp only [htype, hA]
  generalize ((List.range params.length).map
      (fun i => (8 : Int) + totalSize size (params.take i)) ++
        (List.range locals.length).map
          (fun i => -((0 : Int) + totalSize size (locals.take (i + 1))))) = offsets
    at hpar hloc hlen ⊢
  have hparpos : ∀ (i : Nat) (o : Int), i < params.length → offsets[i]? = some o → 0 < o := by
    intro i o hi ho
    rw [hpar i hi] at ho
    cases ho
    omega
  have hlocneg : ∀ (i : Nat) (o : Int), params.length ≤ i → offsets[i]? = some o → o < 0 := by
    intro i o hi ho
    obtain ⟨d, rfl⟩ := Nat.exists_eq_add_of_le hi
    by_cases hd : d < locals.length
    · rw [hloc d hd] at ho
      cases ho
      have := totalSize_take_pos size locals hposL d hd
      omega
    · exfalso
      have := (List.getElem?_eq_some.1 ho).1
      omega
  refine ⟨offsets, _, rfl, hpar, hloc, hlen, ?_, hparpos, hlocneg, ?_, ?_⟩
  · simp
  · intro i o n ho
    have hne : o ≠ 0 := by
      by_cases hi : i < params.length
      · have := hparpos i o hi ho
        omega
      · have := hlocneg i o (by omega) ho
        omega
    simp [identifierOperand, hne]
  · intro i j oi oj sj hij hj hoi hoj
    have hjl : j < locals.length := (List.getElem?_eq_some.1 hj).1
    rw [hloc i (by omega)] at hoi
    rw [hloc j hjl] at hoj
    cases hoi
    cases hoj
    have h1 := totalSize_take_succ size locals j sj hj
    have h2 := totalSize_take_mono size locals (i + 1) j (by omega)
    omega

/-- The amended C36 for `f(int x, char c) { int a; char b; }` with the sizes of the
spec: the parameters are at 8 and 12, the locals at -4 and -5, and the
prologue subtracts 5 bytes. -/
theorem frame_offsets_witness :
    ∃ offsets lines,
      procedureFrame (typeSize (fun _ => 0)) "f"
        (Function "int" 0 (some [Scalar "int" 0, Scalar "char" 0]))
        ([⟨"x", Scalar "int" 0⟩, ⟨"c", Scalar "char" 0⟩] ++
          [⟨"a", Scalar "int" 0⟩, ⟨"b", Scalar "char" 0⟩]) = some (offsets, lines) ∧
      offsets[0]? = some 8 ∧ offsets[1]? = some 12 ∧
      offsets[2]? = some (-4) ∧ offsets[3]? = some (-5) ∧ offsets.length = 4 ∧
      lines = ["f:", "# function prologue", "\tpushl\t%ebp", "\tmovl\t%esp, %ebp",
        "\tsubl\t$5, %esp"] := by
  obtain ⟨offsets, lines, h, h1, h2, h3, h4, _⟩ :=
    frame_offsets (typeSize (fun _ => 0)) "f"
      (Function "int" 0 (some [Scalar "int" 0, Scalar "char" 0]))
      [Scalar "int" 0, Scalar "char" 0]
      [⟨"x", Scalar "int" 0⟩, ⟨"c", Scalar "char" 0⟩]
      [⟨"a", Scalar "int" 0⟩, ⟨"b", Scalar "char" 0⟩] rfl rfl
      (by
        intro s hs
        simp only [List.cons_append, List.nil_append, List.mem_cons, List.mem_singleton,
          List.not_mem_nil, or_false] at hs
        rcases hs with h | h | h | h <;> subst h <;> decide)
      (by decide) (by decide)
  exact ⟨offsets, lines, h, h1 0 (by decide), h1 1 (by decide), h2 0 (by decide),
    h2 1 (by decide), h3, h4⟩

/-! ## Expression parser -/

theorem start_cons (t : Token) (text : String) (rest : List (Token × String))
    (c : Checker) (ds : List Diagnostic) :
    ParserState.start ((t, text) :: rest) c ds =
      { lookahead := t, lexbuf := text, input := rest, checker := c, diagnostics := ds } :=
  rfl

theorem start_lookahead (t : Token) (text : String) (rest : List (Token × String))
    (c : Checker) (ds : List Diagnostic) :
    (ParserState.start ((t, text) :: rest) c ds).lookahead = t :=
  rfl

theorem start_lexbuf (t : Token) (text : String) (rest : List (Token × String))
    (c : Checker) (ds : List Diagnostic) :
    (ParserState.start ((t, text) :: rest) c ds).lexbuf = text :=
  rfl

theorem matchToken_start (t : Token) (text : String) (rest : List (Token × String))
    (c : Checker) (ds : List Diagnostic) :
    Parser.matchToken t (ParserState.start ((t, text) :: rest) c ds) =
      Outcome.returned () (ParserState.start rest c ds) := by
  simp [Parser.matchToken, ParserState.start, lexan]

/-- The loop of `pointers` in front of `n` asterisks and a token that is not an
asterisk: it returns with that token as the lookahead. -/
theorem pointersLoop_stars (n : Nat) :
    ∀ (fuel count : Nat) (t : Token) (text : String) (rest : List (Token × String))
      (c : Checker) (ds : List Diagnostic), t ≠ Token.symbol '*' → count < 2 ^ 32 →
      Parser.pointersLoop (fuel + n + 1) count
          (ParserState.start (stars n ++ (t, text) :: rest) c ds) =
        Outcome.returned ((count + n) % 2 ^ 32) (ParserState.start ((t, text) :: rest) c ds) := by
  induction n with
  | zero =>
    intro fuel count t text rest c ds ht hc
    have hm : count % 4294967296 = count := Nat.mod_eq_of_lt hc
    simp [stars, Parser.pointersLoop, start_cons, ht, hm]
  | succ n ih =>
    intro fuel count t text rest c ds ht hc
    have e : fuel + (n + 1) + 1 = (fuel + n + 1) + 1 := by omega
    have e2 : stars (n + 1) ++ (t, text) :: rest =
        (Token.symbol '*', "*") :: (stars n ++ (t, text) :: rest) := by
      simp [stars, List.replicate_succ]
    rw [e, e2, Parser.pointersLoop]
    rw [if_pos (by rw [start_cons]), matchToken_start]
    simp only [Outcome.bind]
    rw [ih fuel _ t text rest c ds ht (Nat.mod_lt _ (by norm_num))]
    congr 1
    omega

/-- The primary expression at a closing parenthesis: the syntax-error routine. -/
theorem primaryExpression_rparen (expression : Bool → ParserState → Outcome (CType × Bool))
    (lvalue : Bool) (rest : List (Token × String)) (c : Checker) (ds : List Diagnostic) :
    Parser.primaryExpression expression false lvalue
        (ParserState.start ((Token.symbol ')', ")") :: rest) c ds) =
      Outcome.exited { lookahead := Token.symbol ')', lexbuf := ")", input := rest,
                       checker := c,
                       diagnostics := ds ++ [⟨"syntax error at '%s'", ")"⟩] } := by
  simp [Parser.primaryExpression, start_cons, Parser.error, report]

/-- The prefix expression at a closing parenthesis: the syntax-error routine. -/
theorem prefixExpression_rparen (expression : Bool → ParserState → Outcome (CType × Bool))
    (fuel : Nat) (lvalue : Bool) (rest : List (Token × String)) (c : Checker)
    (ds : List Diagnostic) :
    Parser.prefixExpression expression (fuel + 1) lvalue
        (ParserState.start ((Token.symbol ')', ")") :: rest) c ds) =
      Outcome.exited { lookahead := Token.symbol ')', lexbuf := ")", input := rest,
                       checker := c,
                       diagnostics := ds ++ [⟨"syntax error at '%s'", ")"⟩] } := by
  rw [Parser.prefixExpression]
  simp only [start_cons]
  simp only [Parser.postfixExpression, ← start_cons, primaryExpression_rparen, Outcome.bind]
  simp [start_cons]

/-- C40 (the code departs from the claim): for every specifier `int`, `char` or
`struct name`, every number `n` of asterisks, every state of the checker and every continuation of the
input, on the tokens `sizeof ( specifier pointers )` the function
`prefixExpression` does not return: after the pointers it calls
`prefixExpression` again, in front of the closing parenthesis, which ends in
the syntax-error routine with the report `syntax error at ')'`. This holds
for whatever `expression` does and for every amount of fuel that lets the
loop of `pointers` pass the asterisks. -/
theorem sizeof_type_is_syntax_error
    (expression : Bool → ParserState → Outcome (CType × Bool)) (n fuel : Nat)
    (lvalue : Bool) (rest : List (Token × String)) (c : Checker) (ds : List Diagnostic) :
    Parser.prefixExpression expression (fuel + n + 2) lvalue
        (ParserState.start
          ((Token.SIZEOF, "sizeof") :: (Token.symbol '(', "(") :: (Token.INT, "int") ::
            (stars n ++ (Token.symbol ')', ")") :: rest)) c ds) =
      Outcome.exited { lookahead := Token.symbol ')', lexbuf := ")", input := rest,
                       checker := c,
                       diagnostics := ds ++ [⟨"syntax error at '%s'", ")"⟩] } ∧
    Parser.prefixExpression expression (fuel + n + 2) lvalue
        (ParserState.start
          ((Token.SIZEOF, "sizeof") :: (Token.symbol '(', "(") :: (Token.CHAR, "char") ::
            (stars n ++ (Token.symbol ')', ")") :: rest)) c ds) =
      Outcome.exited { lookahead := Token.symbol ')', lexbuf := ")", input := rest,
                       checker := c,
                       diagnostics := ds ++ [⟨"syntax error at '%s'", ")"⟩] } ∧
    ∀ name : String,
      Parser.prefixExpression expression (fuel + n + 2) lvalue
          (ParserState.start
            ((Token.SIZEOF, "sizeof") :: (Token.symbol '(', "(") ::
              (Token.STRUCT, "struct") :: (Token.ID, name) ::
              (stars n ++ (Token.symbol ')', ")") :: rest)) c ds) =
        Outcome.exited { lookahead := Token.symbol ')', lexbuf := ")", input := rest,
                         checker := c,
                         diagnostics := ds ++ [⟨"syntax error at '%s'", ")"⟩] } := by
  have hp := pointersLoop_stars n fuel 0 (Token.symbol ')') ")" rest c ds (by decide)
    (by norm_num)
  have hq := prefixExpression_rparen expression (fuel + n) lvalue rest c ds
  have e : fuel + n + 2 = (fuel + n + 1) + 1 := rfl
  refine ⟨?_, ?_, ?_⟩
  · rw [e, Parser.prefixExpression]
    simp [start_lookahead, matchToken_start, Parser.isSpecifier, Parser.specifier,
      Outcome.bind, Parser.pointers, hp, hq]
  · rw [e, Parser.prefixExpression]
    simp [start_lookahead, matchToken_start, Parser.isSpecifier, Parser.specifier,
      Outcome.bind, Parser.pointers, hp, hq]
  · intro name
    rw [e, Parser.prefixExpression]
    simp [start_lookahead, start_lexbuf, matchToken_start, Parser.isSpecifier,
      Parser.specifier, Parser.identifier, Outcome.bind, Parser.pointers, hp, hq]

/-! ## Spills after a reset of the cursor -/

/-- C11 (the code departs from the claim): in the statement
`x = (a + b) + ((c + d) + ((e + f) + (g + h)));` of a body with nine `int`
locals, `Assignment::generate` first sets the cursor to 0, the defect of C3.
When `g` needs a register the sums `a + b`, `c + d` and `e + f` own `eax`,
`ecx` and `edx`; `getreg` spills `a + b` from `eax` to the slot at the cursor
lowered by 4, which is -4: not a new slot but the slot of the local `a`. The
store of the assignment then reads the cursor as its displacement and goes
to `-4+-36(%ebp)`. -/
theorem getreg_spills_onto_local :
    threeSumsLive.map (fun s => (s.offset, s.node Register.eax, s.node Register.ecx,
        s.node Register.edx)) = some (0, some 3, some 6, some 9) ∧
    (threeSumsLive.bind (getreg intMachine)).map
        (fun p => (p.1, p.2.offset, p.2.nodeOffset 3, p.2.out.getLast?)) =
      some (Register.eax, -4, -4, some "\tmovl\t%eax, -4(%ebp)") ∧
    (generateStatement intMachine assignDeepSum (GenState.initial (-36) "f")).map
        (fun st => (st.nodeOffset 3, st.out)) =
      some (-4,
        ["\tmovl\t-4(%ebp), %eax", "\taddl\t-8(%ebp), %eax", "\tmovl\t-12(%ebp), %ecx",
          "\taddl\t-16(%ebp), %ecx", "\tmovl\t-20(%ebp), %edx", "\taddl\t-24(%ebp), %edx",
          "\tmovl\t%eax, -4(%ebp)", "\tmovl\t-28(%ebp), %eax", "\taddl\t-32(%ebp), %eax",
          "\taddl\t%eax, %edx", "\taddl\t%edx, %ecx", "\tmovl\t-4(%ebp), %eax",
          "\taddl\t%ecx, %eax", "\tmovl\t%eax, %ecx", "\tmovl\t%ecx, -4+-36(%ebp)"]) := by
  refine ⟨by decide, by decide, by decide⟩

/-- C28 (the code departs from the claim): in the statement `(y + 1) + f(&x);` the sum
`y + 1` owns `eax` when the call is generated. Generating the argument `&x`
sets the cursor to 0, the defect of C3, so that the spill in front of the call
instruction gives the sum the slot -4, which is not a slot of its own but the
slot of the local `x`, whose address the call passes: the store
`movl %eax, -4(%ebp)` overwrites `x`. -/
theorem call_spills_onto_local :
    (generateStatement intMachine sumAcrossAddressCall (GenState.initial (-8) "f")).map
        (fun st => (st.nodeOffset 3, st.out)) =
      some (-4,
        ["\tmovl\t-8(%ebp), %eax", "\taddl\t$1, %eax", "\tleal\t-4(%ebp), %ecx",
          "\tpushl\t%ecx", "\tmovl\t%eax, -4(%ebp)", "\tcall\tf", "\taddl\t$4, %esp",
          "\tmovl\t-4(%ebp), %ecx", "\taddl\t%eax, %ecx"]) ∧
    (generate intMachine (Expression.Address 6 (Expression.Identifier 5 "x" (-4)))
        (GenState.initial (-8) "f")).map (fun st => st.offset) = some 0 := by
  refine ⟨by decide, by decide⟩

end SimpleC
